import Mathlib

/-!
# Resource manager of libomxil-bellagio (Samsung variant)

A shallow embedding of `src/omx_samsung_resource_manager.c`: the component type
registry (`RM_Init`, `RM_RegisterComponent`), the per-type active and waiting
lists (`addElemToList`, `removeElemFromList`, `numElemInList`,
`searchLowerPriority`, `clearList`), the arbitration calls (`preemptComponent`,
`RM_getResource`, `RM_releaseResource`, `RM_waitForResource`,
`RM_removeFromWaitForResource`), the teardown `RM_Deinit` and the media entity
inventory (`SRM_GetFreeVideoM2MDevName`, `SRM_PutVideoNode`); and of
`OMX_SetupTunnel`, `OMX_GetHandle` and `OMX_ComponentNameEnum` of
`src/omxcore.c`.

Conventions of the embedding.

* A component handle (`OMX_COMPONENTTYPE *`) is its address, a natural number;
  pointer comparison is comparison of addresses.
* The private data reached through `pComponentPrivate` lives outside the
  resource manager and can change between two calls; every call receives the
  memory as it is at the time of the call (`Env.priv`).
* A linked list is a Lean list; the `NULL` list is `[]`.
* The registry table is the list of its slots whose name is not `NULL`; the
  table has `MAX_COMPONENT_TYPES_HANDLED` slots.
* A call returns `none` where the C program has no defined behaviour (a read
  past the end of the registry table or of an array of lists, an access before
  the first slot of an array, a read through a pointer that was never assigned,
  a call through a `NULL` handle).
* `malloc` and `calloc` succeed, names fit `OMX_MAX_STRINGNAME_SIZE`, and the
  `int` counter `globalTimestamp` is a natural number (its increment is defined
  in C below `MAX_INT` only).
* Group priorities (`OMX_U32`) are natural numbers; they are compared as the C
  code compares them once the requester's priority has gone through the `int`
  parameter of `searchLowerPriority`, which is the comparison of the numbers
  themselves for priorities in the range of `int`.
* `index`, `globalIndex` and `max_components` are C `int`s and are integers
  here; no arithmetic on them can overflow below the capacity of the table.
* The media entity inventory that `RM_Init` also fills is not part of the
  globals of the arbitration; it is the list `mediaEntityList` that the two
  `SRM_` functions take and return. A `use_count` is a C `int` and an integer
  here; it is compared with `MAX_INT` as the code does.
* `loadersList` is the list of its `NUM_LOADERS` loaders (1 in this build); the
  loops over it are modelled for any number of loaders.
* In `OMX_SetupTunnel` a handle is an address or `NULL` (`none`), and the
  answers of the components to `ComponentTunnelRequest` are given by the
  environment, which sees the calls made before.
* The calls made into components (`EventHandler`, `OMX_SendCommand`) are
  recorded in the order they are made; the result of `OMX_SendCommand` is given
  by the environment and the calls do not re-enter the resource manager.
-/

namespace Bellagio

/-- Error codes of the OpenMAX IL core that the resource manager uses. -/
inductive OMX_ERRORTYPE where
  | OMX_ErrorNone
  | OMX_ErrorInsufficientResources
  | OMX_ErrorUndefined
  | OMX_ErrorComponentNotFound
  | OMX_ErrorResourcesLost
  | OMX_ErrorBadParameter
  | OMX_ErrorPortsNotCompatible
  | OMX_ErrorNoMore
  | OMX_ErrorOther (code : Nat)
  deriving DecidableEq, Repr

/-- Component states of the OpenMAX IL state machine. -/
inductive OMX_STATETYPE where
  | OMX_StateInvalid
  | OMX_StateLoaded
  | OMX_StateIdle
  | OMX_StateExecuting
  | OMX_StatePause
  | OMX_StateWaitForResources
  deriving DecidableEq, Repr

/-- The command kinds of `OMX_SendCommand`. -/
inductive OMX_COMMANDTYPE where
  | OMX_CommandStateSet
  | OMX_CommandFlush
  | OMX_CommandPortDisable
  | OMX_CommandPortEnable
  | OMX_CommandMarkBuffer
  deriving DecidableEq, Repr

/-- The event kinds of the `EventHandler` callback. -/
inductive OMX_EVENTTYPE where
  | OMX_EventCmdComplete
  | OMX_EventError
  deriving DecidableEq, Repr

/-- Modelled from the spec: the numeric value of `OMX_ErrorUndefined`, declared
in the OpenMAX IL header `OMX_Core.h`, which is not among the sources:
`(OMX_S32) 0x80001001`. Only the fact that it is not zero is used. -/
def OMX_ErrorUndefined_value : Int := -2147479551

/-- The number of slots of the registry table and of the two arrays of lists
(`#define MAX_COMPONENT_TYPES_HANDLED 500`). -/
def MAX_COMPONENT_TYPES_HANDLED : Nat := 500

/-- The fields of `omx_base_component_PrivateType` that the resource manager
reads through `pComponentPrivate`. -/
structure omx_base_component_PrivateType where
  name : String
  nGroupPriority : Nat
  state : OMX_STATETYPE
  deriving DecidableEq, Repr

/-- One node of a per-type list (`struct ComponentListType`, without `next`). -/
structure ComponentListType where
  openmaxStandComp : Nat
  nGroupPriority : Nat
  timestamp : Nat
  deriving DecidableEq, Repr

/-- One used slot of the registry table (`struct NameIndexType`). -/
structure NameIndexType where
  component_name : String
  index : Int
  max_components : Int
  deriving DecidableEq, Repr

/-- A call made by the resource manager into a component. -/
inductive ExtCall where
  | EventHandler (hComponent : Nat) (eEvent : OMX_EVENTTYPE)
      (nData1 : OMX_ERRORTYPE) (nData2 : Nat)
  | SendCommand (hComponent : Nat) (Cmd : OMX_COMMANDTYPE) (nParam : OMX_STATETYPE)
  deriving DecidableEq, Repr

/-- What a call sees outside the resource manager at the time it is made: the
private data behind every handle, and the result of `OMX_SendCommand`. -/
structure Env where
  priv : Nat → omx_base_component_PrivateType
  sendCommand : Nat → OMX_COMMANDTYPE → OMX_STATETYPE → OMX_ERRORTYPE

/-- The globals of the resource manager: `globalIndex`,
`listOfcomponentRegistered`, `globalComponentList`,
`globalWaitingComponentList` and `globalTimestamp`. -/
structure RMState where
  globalIndex : Int
  listOfcomponentRegistered : List NameIndexType
  globalComponentList : Int → List ComponentListType
  globalWaitingComponentList : Int → List ComponentListType
  globalTimestamp : Nat

/-- Assignment `arr[i] = l` to one of the two arrays of lists. -/
def setListAt (arr : Int → List ComponentListType) (i : Int)
    (l : List ComponentListType) : Int → List ComponentListType :=
  fun j => if j = i then l else arr j

/-- The function `RM_Init`: resets the index counter, the registry table and the
two arrays of lists; the static `globalTimestamp` is not touched. -/
def RM_Init (s : RMState) : OMX_ERRORTYPE × RMState :=
  (OMX_ERRORTYPE.OMX_ErrorNone,
   { globalIndex := 0
     listOfcomponentRegistered := []
     globalComponentList := fun _ => []
     globalWaitingComponentList := fun _ => []
     globalTimestamp := s.globalTimestamp })

/-- The loop `while (listOfcomponentRegistered[i].component_name != NULL)` with
its `strcmp` test, shared by all the calls below. `some (some e)`: the slot `e`
has the name; `some none`: the loop stopped at a slot with a `NULL` name;
`none`: all the slots are in use and none has the name, so the loop reads past
the end of the table. -/
def scanRegistered (table : List NameIndexType) (name : String) :
    Option (Option NameIndexType) :=
  match table.find? (fun e => decide (e.component_name = name)) with
  | some e => some (some e)
  | none => if table.length < MAX_COMPONENT_TYPES_HANDLED then some none else none

/-- The function `RM_RegisterComponent`. -/
def RM_RegisterComponent (s : RMState) (name : String) (max_components : Int) :
    Option (OMX_ERRORTYPE × RMState) :=
  match scanRegistered s.listOfcomponentRegistered name with
  | none => none
  | some (some _) => some (OMX_ERRORTYPE.OMX_ErrorNone, s)
  | some none =>
    some (OMX_ERRORTYPE.OMX_ErrorNone,
      { s with
        listOfcomponentRegistered :=
          s.listOfcomponentRegistered ++ [⟨name, s.globalIndex, max_components⟩]
        globalIndex := s.globalIndex + 1 })

/-- The function `addElemToList`: the new node is the head when the list is
`NULL` and is linked after the last node otherwise; it takes the current
`globalTimestamp`, which is then incremented. Returns the error code, the list
and the counter. -/
def addElemToList (list : List ComponentListType) (openmaxStandComp : Nat)
    (priv : omx_base_component_PrivateType) (globalTimestamp : Nat) :
    OMX_ERRORTYPE × List ComponentListType × Nat :=
  match list with
  | [] =>
    (OMX_ERRORTYPE.OMX_ErrorNone,
      [⟨openmaxStandComp, priv.nGroupPriority, globalTimestamp⟩], globalTimestamp + 1)
  | c :: rest =>
    (OMX_ERRORTYPE.OMX_ErrorNone,
      (c :: rest) ++ [⟨openmaxStandComp, priv.nGroupPriority, globalTimestamp⟩],
      globalTimestamp + 1)

/-- The loop of `removeElemFromList`: unlinks the first node whose handle is
`openmaxStandComp`; `none` when `bFound` stays false. -/
def removeLoop : List ComponentListType → Nat → Option (List ComponentListType)
  | [], _ => none
  | c :: rest, openmaxStandComp =>
    if c.openmaxStandComp = openmaxStandComp then some rest
    else (removeLoop rest openmaxStandComp).map (fun l => c :: l)

/-- The function `removeElemFromList`. -/
def removeElemFromList (list : List ComponentListType) (openmaxStandComp : Nat) :
    OMX_ERRORTYPE × List ComponentListType :=
  match list with
  | [] => (OMX_ERRORTYPE.OMX_ErrorUndefined, [])
  | c :: rest =>
    match removeLoop (c :: rest) openmaxStandComp with
    | some l => (OMX_ERRORTYPE.OMX_ErrorNone, l)
    | none => (OMX_ERRORTYPE.OMX_ErrorComponentNotFound, c :: rest)

/-- The function `numElemInList`. -/
def numElemInList (list : List ComponentListType) : Int :=
  (list.length : Int)

/-- The loop of `searchLowerPriority`, carrying `nComp` and
`componentCandidate` (`none` is `NULL`). -/
def searchLoop : List ComponentListType → Nat → Int → Option ComponentListType →
    Int × Option ComponentListType
  | [], _, nComp, componentCandidate => (nComp, componentCandidate)
  | componentTemp :: rest, current_priority, nComp, componentCandidate =>
    let nComp1 := if componentTemp.nGroupPriority > current_priority then nComp + 1 else nComp
    let cand1 :=
      if nComp1 > 0 then
        match componentCandidate with
        | some c => if c.timestamp > componentTemp.timestamp then some componentTemp else some c
        | none => some componentTemp
      else componentCandidate
    searchLoop rest current_priority nComp1 cand1

/-- The function `searchLowerPriority`: the returned `int` and the value left in
`*oldest_component_preemptable`. For the `NULL` list the function returns
`OMX_ErrorUndefined` and does not assign the out-parameter: the second
component is then `none`, a pointer that was never assigned. After the loop
`none` is the assigned `NULL`, which goes with a return value of 0. -/
def searchLowerPriority (list : List ComponentListType) (current_priority : Nat) :
    Int × Option ComponentListType :=
  match list with
  | [] => (OMX_ErrorUndefined_value, none)
  | c :: rest => searchLoop (c :: rest) current_priority 0 none

/-- The function `preemptComponent`: the error code and the calls made into the
victim. -/
def preemptComponent (env : Env) (openmaxStandComp : Nat) :
    OMX_ERRORTYPE × List ExtCall :=
  if (env.priv openmaxStandComp).state = OMX_STATETYPE.OMX_StateIdle then
    let calls :=
      [ExtCall.EventHandler openmaxStandComp OMX_EVENTTYPE.OMX_EventError
          OMX_ERRORTYPE.OMX_ErrorResourcesLost 0,
       ExtCall.SendCommand openmaxStandComp OMX_COMMANDTYPE.OMX_CommandStateSet
          OMX_STATETYPE.OMX_StateLoaded]
    if env.sendCommand openmaxStandComp OMX_COMMANDTYPE.OMX_CommandStateSet
        OMX_STATETYPE.OMX_StateLoaded ≠ OMX_ERRORTYPE.OMX_ErrorNone then
      (OMX_ERRORTYPE.OMX_ErrorUndefined, calls)
    else (OMX_ERRORTYPE.OMX_ErrorNone, calls)
  else if (env.priv openmaxStandComp).state = OMX_STATETYPE.OMX_StateExecuting ∨
      (env.priv openmaxStandComp).state = OMX_STATETYPE.OMX_StatePause then
    (OMX_ERRORTYPE.OMX_ErrorNone, [])
  else (OMX_ERRORTYPE.OMX_ErrorNone, [])

/-- The function `RM_getResource`: the error code, the globals after the call
and the calls made into components. -/
def RM_getResource (env : Env) (s : RMState) (openmaxStandComp : Nat) :
    Option (OMX_ERRORTYPE × RMState × List ExtCall) :=
  let priv := env.priv openmaxStandComp
  match scanRegistered s.listOfcomponentRegistered priv.name with
  | none => none
  | some none => some (OMX_ERRORTYPE.OMX_ErrorNone, s, [])
  | some (some e) =>
    let indexComponent := e.index
    if indexComponent < 0 then some (OMX_ERRORTYPE.OMX_ErrorNone, s, [])
    else if numElemInList (s.globalComponentList indexComponent) ≥ e.max_components then
      let found := searchLowerPriority (s.globalComponentList indexComponent) priv.nGroupPriority
      if found.1 ≠ 0 then
        match found.2 with
        | none => none
        | some componentCandidate =>
          let pre := preemptComponent env componentCandidate.openmaxStandComp
          if pre.1 ≠ OMX_ERRORTYPE.OMX_ErrorNone then
            some (OMX_ERRORTYPE.OMX_ErrorInsufficientResources, s, pre.2)
          else
            let removed := removeElemFromList (s.globalComponentList indexComponent)
              componentCandidate.openmaxStandComp
            let added := addElemToList removed.2 openmaxStandComp priv s.globalTimestamp
            if added.1 ≠ OMX_ERRORTYPE.OMX_ErrorNone then
              some (OMX_ERRORTYPE.OMX_ErrorInsufficientResources,
                { s with
                  globalComponentList := setListAt s.globalComponentList indexComponent added.2.1
                  globalTimestamp := added.2.2 }, pre.2)
            else
              some (OMX_ERRORTYPE.OMX_ErrorNone,
                { s with
                  globalComponentList := setListAt s.globalComponentList indexComponent added.2.1
                  globalTimestamp := added.2.2 }, pre.2)
      else some (OMX_ERRORTYPE.OMX_ErrorInsufficientResources, s, [])
    else
      let added := addElemToList (s.globalComponentList indexComponent) openmaxStandComp priv
        s.globalTimestamp
      some (OMX_ERRORTYPE.OMX_ErrorNone,
        { s with
          globalComponentList := setListAt s.globalComponentList indexComponent added.2.1
          globalTimestamp := added.2.2 }, [])

/-- The function `RM_releaseResource`. -/
def RM_releaseResource (env : Env) (s : RMState) (openmaxStandComp : Nat) :
    Option (OMX_ERRORTYPE × RMState × List ExtCall) :=
  let priv := env.priv openmaxStandComp
  match scanRegistered s.listOfcomponentRegistered priv.name with
  | none => none
  | some none => some (OMX_ERRORTYPE.OMX_ErrorNone, s, [])
  | some (some e) =>
    let indexComponent := e.index
    if indexComponent < 0 then some (OMX_ERRORTYPE.OMX_ErrorNone, s, [])
    else
      match s.globalComponentList indexComponent with
      | [] => some (OMX_ERRORTYPE.OMX_ErrorUndefined, s, [])
      | c :: rest =>
        let removed := removeElemFromList (c :: rest) openmaxStandComp
        if removed.1 ≠ OMX_ERRORTYPE.OMX_ErrorNone then
          some (OMX_ERRORTYPE.OMX_ErrorUndefined, s, [])
        else
          let s1 : RMState :=
            { s with
              globalComponentList := setListAt s.globalComponentList indexComponent removed.2 }
          match s.globalWaitingComponentList indexComponent with
          | [] => some (OMX_ERRORTYPE.OMX_ErrorNone, s1, [])
          | w :: ws =>
            let openmaxWaitingComp := w.openmaxStandComp
            let removedW := removeElemFromList (w :: ws) openmaxWaitingComp
            some (OMX_ERRORTYPE.OMX_ErrorNone,
              { s1 with
                globalWaitingComponentList :=
                  setListAt s.globalWaitingComponentList indexComponent removedW.2 },
              [ExtCall.SendCommand openmaxWaitingComp OMX_COMMANDTYPE.OMX_CommandStateSet
                OMX_STATETYPE.OMX_StateIdle])

/-- The function `RM_waitForResource`. -/
def RM_waitForResource (env : Env) (s : RMState) (openmaxStandComp : Nat) :
    Option (OMX_ERRORTYPE × RMState × List ExtCall) :=
  let priv := env.priv openmaxStandComp
  match scanRegistered s.listOfcomponentRegistered priv.name with
  | none => none
  | some none => some (OMX_ERRORTYPE.OMX_ErrorNone, s, [])
  | some (some e) =>
    let indexComponent := e.index
    if indexComponent < 0 then some (OMX_ERRORTYPE.OMX_ErrorNone, s, [])
    else
      let added := addElemToList (s.globalWaitingComponentList indexComponent) openmaxStandComp
        priv s.globalTimestamp
      some (OMX_ERRORTYPE.OMX_ErrorNone,
        { s with
          globalWaitingComponentList :=
            setListAt s.globalWaitingComponentList indexComponent added.2.1
          globalTimestamp := added.2.2 }, [])

/-- The entries of a list whose group priority is numerically greater than
`p`: the entries that a requester of priority `p` may preempt. -/
def qualifying (l : List ComponentListType) (p : Nat) : List ComponentListType :=
  l.filter (fun x => decide (x.nGroupPriority > p))

/-- The states that the program can be in: those produced by `RM_Init` and then
by any sequence of calls of `RM_RegisterComponent`, `RM_getResource`,
`RM_releaseResource` and `RM_waitForResource` that return, each with any
arguments and in any environment. -/
inductive Reachable : RMState → Prop where
  | init (s0 : RMState) : Reachable (RM_Init s0).2
  | register {s s1 : RMState} (name : String) (max_components : Int) (err : OMX_ERRORTYPE) :
      Reachable s → RM_RegisterComponent s name max_components = some (err, s1) → Reachable s1
  | getResource {s s1 : RMState} (env : Env) (h : Nat) (err : OMX_ERRORTYPE)
      (calls : List ExtCall) :
      Reachable s → RM_getResource env s h = some (err, s1, calls) → Reachable s1
  | releaseResource {s s1 : RMState} (env : Env) (h : Nat) (err : OMX_ERRORTYPE)
      (calls : List ExtCall) :
      Reachable s → RM_releaseResource env s h = some (err, s1, calls) → Reachable s1
  | waitForResource {s s1 : RMState} (env : Env) (h : Nat) (err : OMX_ERRORTYPE)
      (calls : List ExtCall) :
      Reachable s → RM_waitForResource env s h = some (err, s1, calls) → Reachable s1

/-- Timestamps strictly increase from the head of a list to its tail. -/
def TsSorted (l : List ComponentListType) : Prop :=
  l.Pairwise (fun a b => a.timestamp < b.timestamp)

/-- The shape of the globals in every reachable state: the table slot at
position `k` carries index `k`, the index counter is the number of used slots,
names are distinct, lists of unused indices are empty, timestamps increase along
each list and are below the counter, and no active list of a type with a
non-negative limit exceeds the limit. -/
structure Inv (s : RMState) : Prop where
  gi : s.globalIndex = (s.listOfcomponentRegistered.length : Int)
  room : s.listOfcomponentRegistered.length ≤ MAX_COMPONENT_TYPES_HANDLED
  idx : s.listOfcomponentRegistered.map (fun e => e.index) =
    (List.range s.listOfcomponentRegistered.length).map Int.ofNat
  names : (s.listOfcomponentRegistered.map (fun e => e.component_name)).Nodup
  unused : ∀ j : Int, (j < 0 ∨ s.globalIndex ≤ j) →
    s.globalComponentList j = [] ∧ s.globalWaitingComponentList j = []
  sortedA : ∀ j, TsSorted (s.globalComponentList j)
  boundA : ∀ j, ∀ x ∈ s.globalComponentList j, x.timestamp < s.globalTimestamp
  sortedW : ∀ j, TsSorted (s.globalWaitingComponentList j)
  boundW : ∀ j, ∀ x ∈ s.globalWaitingComponentList j, x.timestamp < s.globalTimestamp
  capacity : ∀ e ∈ s.listOfcomponentRegistered, 0 ≤ e.max_components →
    ((s.globalComponentList e.index).length : Int) ≤ e.max_components

/-! ## Concrete states and environments used as test inputs -/

/-- The globals when the process starts: zero-initialised statics. -/
def boot : RMState :=
  { globalIndex := 0
    listOfcomponentRegistered := []
    globalComponentList := fun _ => []
    globalWaitingComponentList := fun _ => []
    globalTimestamp := 0 }

/-- The globals after `RM_Init` and `RM_RegisterComponent("codec.a", m)`, with
the timestamp counter at `g`. -/
def registeredState (m : Int) (g : Nat) : RMState :=
  { globalIndex := 1
    listOfcomponentRegistered := [⟨"codec.a", 0, m⟩]
    globalComponentList := fun _ => []
    globalWaitingComponentList := fun _ => []
    globalTimestamp := g }

/-- The globals `s` after the assignment of `l` to the active list of index
`i`, with the counter at `g`. -/
def withActive (s : RMState) (i : Int) (l : List ComponentListType) (g : Nat) : RMState :=
  { s with
    globalComponentList := setListAt s.globalComponentList i l
    globalTimestamp := g }

/-- The globals `s` after the assignment of `l` to the waiting list of index
`i`, with the counter at `g`. -/
def withWaiting (s : RMState) (i : Int) (l : List ComponentListType) (g : Nat) : RMState :=
  { s with
    globalWaitingComponentList := setListAt s.globalWaitingComponentList i l
    globalTimestamp := g }

/-- An environment in which every component is named "codec.a", has the group
priority `prio` gives it and is in state `st`, and every command returns `res`. -/
def codecEnv (prio : Nat → Nat) (st : OMX_STATETYPE) (res : OMX_ERRORTYPE) : Env :=
  { priv := fun h => ⟨"codec.a", prio h, st⟩
    sendCommand := fun _ _ _ => res }

/-- The priorities of the scenario: handle 1 has 10, handle 2 has 20, every
other handle has 5. -/
def scenarioPrio (h : Nat) : Nat :=
  if h = 1 then 10 else if h = 2 then 20 else 5

/-- The entry `v` of `l` has the smallest timestamp among the entries of `l`
whose group priority is numerically greater than `p`. -/
def OldestQualifying (l : List ComponentListType) (p : Nat) (v : ComponentListType) : Prop :=
  v ∈ l ∧ v.nGroupPriority > p ∧
    ∀ x ∈ l, x.nGroupPriority > p → v.timestamp ≤ x.timestamp

instance (l : List ComponentListType) (p : Nat) (v : ComponentListType) :
    Decidable (OldestQualifying l p v) := by
  unfold OldestQualifying
  infer_instance

/-- A state in which handle 1 holds two active entries of the type "codec.a"
(limit 2): one taken when its group priority was 1, one taken after its
priority was changed to 20. -/
def twiceAdmitted : RMState :=
  withActive (withActive (registeredState 2 0) 0 [⟨1, 1, 0⟩] 1) 0 [⟨1, 1, 0⟩, ⟨1, 20, 1⟩] 2

/-- A state in which handle 1 is active and handles 7 and 8 wait, in this
order, for the type "codec.a" (limit 1). -/
def twoWaiters : RMState :=
  withWaiting (withWaiting (withActive (registeredState 1 0) 0 [⟨1, 10, 0⟩] 1) 0
    [⟨7, 5, 1⟩] 2) 0 [⟨7, 5, 1⟩, ⟨8, 5, 2⟩] 3

/-- A sequence of `RM_RegisterComponent(name, max_components)` calls, made one
after the other; `none` when one of them has no defined result. -/
def registerAll (s : RMState) : List (String × Int) → Option RMState
  | [] => some s
  | c :: cs =>
    match RM_RegisterComponent s c.1 c.2 with
    | some r => registerAll r.2 cs
    | none => none

/-- The distinct names of a sequence of registration calls in the order of
their first registration, each with the `max_components` of that first call,
after the registrations `acc` made before. -/
def firstRegistrationsFrom (acc : List (String × Int)) :
    List (String × Int) → List (String × Int)
  | [] => acc
  | c :: cs =>
    if c.1 ∈ acc.map Prod.fst then firstRegistrationsFrom acc cs
    else firstRegistrationsFrom (acc ++ [c]) cs

/-- The distinct names of a sequence of registration calls, in the order of
their first registration, with the `max_components` of that first call. -/
def firstRegistrations (calls : List (String × Int)) : List (String × Int) :=
  firstRegistrationsFrom [] calls

/-- The table in which position `n` holds the `n`-th registration with index
`n`. -/
def tableOf (regs : List (String × Int)) : List NameIndexType :=
  regs.mapIdx (fun n c => ⟨c.1, Int.ofNat n, c.2⟩)

/-- One call of the resource manager, with its arguments and the environment
in which it is made. -/
inductive RMCall where
  | register (name : String) (max_components : Int)
  | getResource (env : Env) (h : Nat)
  | releaseResource (env : Env) (h : Nat)
  | waitForResource (env : Env) (h : Nat)

/-- The globals after one call, when the call returns. -/
def RMCall.run (c : RMCall) (s : RMState) : Option RMState :=
  match c with
  | RMCall.register name m => (RM_RegisterComponent s name m).map (fun r => r.2)
  | RMCall.getResource env h => (RM_getResource env s h).map (fun r => r.2.1)
  | RMCall.releaseResource env h => (RM_releaseResource env s h).map (fun r => r.2.1)
  | RMCall.waitForResource env h => (RM_waitForResource env s h).map (fun r => r.2.1)

/-- The globals after a sequence of calls, when all of them return. -/
def runCalls (s : RMState) : List RMCall → Option RMState
  | [] => some s
  | c :: cs => (c.run s).bind (fun s1 => runCalls s1 cs)

/-- A sequence of calls after which the type "codec.a" (limit 2) has the active
entries of handle 1 with timestamp 5 and of handle 2 with timestamp 9, both of
priority 10: the other timestamps are taken by five waiters. -/
def fiveNineCalls : List RMCall :=
  [RMCall.register "codec.a" 2,
   RMCall.waitForResource
     (codecEnv (fun _ => 10) OMX_STATETYPE.OMX_StateLoaded OMX_ERRORTYPE.OMX_ErrorNone) 11,
   RMCall.waitForResource
     (codecEnv (fun _ => 10) OMX_STATETYPE.OMX_StateLoaded OMX_ERRORTYPE.OMX_ErrorNone) 12,
   RMCall.waitForResource
     (codecEnv (fun _ => 10) OMX_STATETYPE.OMX_StateLoaded OMX_ERRORTYPE.OMX_ErrorNone) 13,
   RMCall.waitForResource
     (codecEnv (fun _ => 10) OMX_STATETYPE.OMX_StateLoaded OMX_ERRORTYPE.OMX_ErrorNone) 14,
   RMCall.waitForResource
     (codecEnv (fun _ => 10) OMX_STATETYPE.OMX_StateLoaded OMX_ERRORTYPE.OMX_ErrorNone) 15,
   RMCall.getResource
     (codecEnv (fun _ => 10) OMX_STATETYPE.OMX_StateLoaded OMX_ERRORTYPE.OMX_ErrorNone) 1,
   RMCall.waitForResource
     (codecEnv (fun _ => 10) OMX_STATETYPE.OMX_StateLoaded OMX_ERRORTYPE.OMX_ErrorNone) 16,
   RMCall.waitForResource
     (codecEnv (fun _ => 10) OMX_STATETYPE.OMX_StateLoaded OMX_ERRORTYPE.OMX_ErrorNone) 17,
   RMCall.waitForResource
     (codecEnv (fun _ => 10) OMX_STATETYPE.OMX_StateLoaded OMX_ERRORTYPE.OMX_ErrorNone) 18,
   RMCall.getResource
     (codecEnv (fun _ => 10) OMX_STATETYPE.OMX_StateLoaded OMX_ERRORTYPE.OMX_ErrorNone) 2]

/-- The globals after `RM_Init` and the calls of `fiveNineCalls`. -/
def fiveNine : RMState :=
  (runCalls (RM_Init boot).2 fiveNineCalls).getD boot

/-! ## Removal from the waiting queue, teardown -/

/-- The largest value of the C `int` counter (`#define MAX_INT 0x7fffffff`). -/
def MAX_INT : Nat := 0x7fffffff

/-- The function `RM_removeFromWaitForResource`. The local `indexComponent` is
initialised to -1 and never assigned; when the scan finds the name the function
calls `removeElemFromList(&globalComponentList[indexComponent], ...)`, on the
array of active lists at index -1, which lies before the first slot of the
array: the call has no defined result. When the scan stops at a `NULL` name
nothing is done and `OMX_ErrorNone` is returned. -/
def RM_removeFromWaitForResource (env : Env) (s : RMState) (openmaxStandComp : Nat) :
    Option (OMX_ERRORTYPE × RMState × List ExtCall) :=
  let priv := env.priv openmaxStandComp
  let indexComponent : Int := -1
  match scanRegistered s.listOfcomponentRegistered priv.name with
  | none => none
  | some none =>
    if indexComponent < 0 then some (OMX_ERRORTYPE.OMX_ErrorNone, s, [])
    else some (OMX_ERRORTYPE.OMX_ErrorNone, s, [])
  | some (some _) =>
    if indexComponent < 0 then none
    else
      let removed := removeElemFromList (s.globalComponentList indexComponent) openmaxStandComp
      some (OMX_ERRORTYPE.OMX_ErrorNone,
        { s with
          globalComponentList := setListAt s.globalComponentList indexComponent removed.2 },
        [])

/-- The function `clearList`: frees every node and sets the list to `NULL`. -/
def clearList (_list : List ComponentListType) : OMX_ERRORTYPE × List ComponentListType :=
  (OMX_ERRORTYPE.OMX_ErrorNone, [])

/-- The loop `while (globalComponentList[i] != NULL)` of `RM_Deinit`, from index
`i` with `slots` slots of the array left: both lists of index `i` are cleared
and `i` is incremented as long as the active list of index `i` is not `NULL`.
With no slot left the test reads past the end of the array (`none`). -/
def deinitLoop : Nat → Int → RMState → Option RMState
  | 0, _, _ => none
  | slots + 1, i, s =>
    match s.globalComponentList i with
    | [] => some s
    | _ :: _ =>
      deinitLoop slots (i + 1)
        { s with
          globalComponentList :=
            setListAt s.globalComponentList i (clearList (s.globalComponentList i)).2
          globalWaitingComponentList :=
            setListAt s.globalWaitingComponentList i
              (clearList (s.globalWaitingComponentList i)).2 }

/-- The function `RM_Deinit`: the error code and the entries that are still
linked in each list when it returns. The two arrays themselves are freed after
the loop, which is not part of the model. -/
def RM_Deinit (s : RMState) : Option (OMX_ERRORTYPE × RMState) :=
  (deinitLoop MAX_COMPONENT_TYPES_HANDLED 0 s).map
    (fun s1 => (OMX_ERRORTYPE.OMX_ErrorNone, s1))

/-- The states produced by `RM_Init` and then by any sequence of calls of
`RM_RegisterComponent`, `RM_getResource`, `RM_releaseResource`,
`RM_waitForResource` and `RM_removeFromWaitForResource` that return. -/
inductive Reachable5 : RMState → Prop where
  | init (s0 : RMState) : Reachable5 (RM_Init s0).2
  | register {s s1 : RMState} (name : String) (max_components : Int) (err : OMX_ERRORTYPE) :
      Reachable5 s → RM_RegisterComponent s name max_components = some (err, s1) →
      Reachable5 s1
  | getResource {s s1 : RMState} (env : Env) (h : Nat) (err : OMX_ERRORTYPE)
      (calls : List ExtCall) :
      Reachable5 s → RM_getResource env s h = some (err, s1, calls) → Reachable5 s1
  | releaseResource {s s1 : RMState} (env : Env) (h : Nat) (err : OMX_ERRORTYPE)
      (calls : List ExtCall) :
      Reachable5 s → RM_releaseResource env s h = some (err, s1, calls) → Reachable5 s1
  | waitForResource {s s1 : RMState} (env : Env) (h : Nat) (err : OMX_ERRORTYPE)
      (calls : List ExtCall) :
      Reachable5 s → RM_waitForResource env s h = some (err, s1, calls) → Reachable5 s1
  | removeFromWaitForResource {s s1 : RMState} (env : Env) (h : Nat) (err : OMX_ERRORTYPE)
      (calls : List ExtCall) :
      Reachable5 s → RM_removeFromWaitForResource env s h = some (err, s1, calls) →
      Reachable5 s1

/-- The name of the `n`-th type of a table filled to its capacity: one to five
letters `a` followed by one to a hundred letters `b`, distinct for distinct
`n < 500` and shorter than `OMX_MAX_STRINGNAME_SIZE`. -/
def fillName (n : Nat) : String :=
  String.mk (List.replicate (n / 100 + 1) 'a' ++ List.replicate (n % 100 + 1) 'b')

/-- The registration calls that fill the table: `MAX_COMPONENT_TYPES_HANDLED`
types with distinct names, each of limit 1. -/
def fillCalls : List (String × Int) :=
  (List.range MAX_COMPONENT_TYPES_HANDLED).map (fun n => (fillName n, 1))

/-- The entries of different lists have different timestamps: two active lists
or two waiting lists of different indices, and an active and a waiting list of
any indices. -/
structure TsDistinct (s : RMState) : Prop where
  aa : ∀ i j : Int, i ≠ j → ∀ x ∈ s.globalComponentList i, ∀ y ∈ s.globalComponentList j,
    x.timestamp ≠ y.timestamp
  ww : ∀ i j : Int, i ≠ j → ∀ x ∈ s.globalWaitingComponentList i,
    ∀ y ∈ s.globalWaitingComponentList j, x.timestamp ≠ y.timestamp
  aw : ∀ i j : Int, ∀ x ∈ s.globalComponentList i, ∀ y ∈ s.globalWaitingComponentList j,
    x.timestamp ≠ y.timestamp

/-- The globals `s1` differ from `s` at most in the two lists of index `i` and
in the timestamp counter. -/
structure StepAt (s s1 : RMState) (i : Int) : Prop where
  table : s1.listOfcomponentRegistered = s.listOfcomponentRegistered
  gi : s1.globalIndex = s.globalIndex
  otherA : ∀ j : Int, j ≠ i → s1.globalComponentList j = s.globalComponentList j
  otherW : ∀ j : Int, j ≠ i →
    s1.globalWaitingComponentList j = s.globalWaitingComponentList j

/-- The states produced like those of `Reachable5`, by calls that respect the
discipline of a component that is either admitted or waiting: `RM_getResource`
is not called for a handle that is in the waiting list of its type, and
`RM_waitForResource` is not called for a handle that is in the active list of
its type. -/
inductive ReachableGuarded : RMState → Prop where
  | init (s0 : RMState) : ReachableGuarded (RM_Init s0).2
  | register {s s1 : RMState} (name : String) (max_components : Int) (err : OMX_ERRORTYPE) :
      ReachableGuarded s → RM_RegisterComponent s name max_components = some (err, s1) →
      ReachableGuarded s1
  | getResource {s s1 : RMState} (env : Env) (h : Nat) (err : OMX_ERRORTYPE)
      (calls : List ExtCall) :
      ReachableGuarded s →
      (∀ e, scanRegistered s.listOfcomponentRegistered (env.priv h).name = some (some e) →
        ∀ y ∈ s.globalWaitingComponentList e.index, y.openmaxStandComp ≠ h) →
      RM_getResource env s h = some (err, s1, calls) → ReachableGuarded s1
  | releaseResource {s s1 : RMState} (env : Env) (h : Nat) (err : OMX_ERRORTYPE)
      (calls : List ExtCall) :
      ReachableGuarded s → RM_releaseResource env s h = some (err, s1, calls) →
      ReachableGuarded s1
  | waitForResource {s s1 : RMState} (env : Env) (h : Nat) (err : OMX_ERRORTYPE)
      (calls : List ExtCall) :
      ReachableGuarded s →
      (∀ e, scanRegistered s.listOfcomponentRegistered (env.priv h).name = some (some e) →
        ∀ x ∈ s.globalComponentList e.index, x.openmaxStandComp ≠ h) →
      RM_waitForResource env s h = some (err, s1, calls) → ReachableGuarded s1
  | removeFromWaitForResource {s s1 : RMState} (env : Env) (h : Nat) (err : OMX_ERRORTYPE)
      (calls : List ExtCall) :
      ReachableGuarded s → RM_removeFromWaitForResource env s h = some (err, s1, calls) →
      ReachableGuarded s1

/-- No handle is in both the active and the waiting list of one type. -/
def NoOverlap (s : RMState) : Prop :=
  ∀ i : Int, ∀ x ∈ s.globalComponentList i, ∀ y ∈ s.globalWaitingComponentList i,
    x.openmaxStandComp ≠ y.openmaxStandComp

/-- A state in which handle 1 is both active and waiting for the type
"codec.a": it was admitted and then enqueued. -/
def activeAndWaiting : RMState :=
  withWaiting (withActive (registeredState 1 0) 0 [⟨1, 10, 0⟩] 1) 0 [⟨1, 10, 1⟩] 2

/-- An environment in which every component has the name `name`, the group
priority `p` and the state Loaded, and every command succeeds. -/
def namedEnv (name : String) (p : Nat) : Env :=
  { priv := fun _ => ⟨name, p, OMX_STATETYPE.OMX_StateLoaded⟩
    sendCommand := fun _ _ _ => OMX_ERRORTYPE.OMX_ErrorNone }

/-- The calls that register "codec.a" and "codec.b" and admit handle 2, of the
type "codec.b". -/
def secondTypeCalls : List RMCall :=
  [RMCall.register "codec.a" 1, RMCall.register "codec.b" 1,
   RMCall.getResource (namedEnv "codec.b" 10) 2]

/-- The globals after `RM_Init` and the calls of `secondTypeCalls`: the active
list of index 0 is empty and that of index 1 is not. -/
def secondTypeActive : RMState :=
  (runCalls (RM_Init boot).2 secondTypeCalls).getD boot

/-- The globals after "codec.a" is registered and handle 7 waits for it: the
type has a waiter and no active entry. -/
def onlyWaiter : RMState :=
  withWaiting (registeredState 1 0) 0 [⟨7, 5, 0⟩] 1

/-! ## Tunnel setup (`src/omxcore.c`) -/

/-- The proposal exchanged by two ports (`OMX_TUNNELSETUPTYPE`): the flags and
the buffer supplier, an enumeration given by its value. -/
structure OMX_TUNNELSETUPTYPE where
  nTunnelFlags : Nat
  eSupplier : Nat
  deriving DecidableEq, Repr

/-- One call of a component's `ComponentTunnelRequest`: the component, its
port, the peer handle (`none` is `NULL`), the peer port and the proposal that
`pTunnelSetup` points to when the call is made. -/
structure TunnelCall where
  hComp : Nat
  nPort : Nat
  hTunneledComp : Option Nat
  nTunneledPort : Nat
  pTunnelSetup : OMX_TUNNELSETUPTYPE
  deriving DecidableEq, Repr

/-- The answer of the components to a `ComponentTunnelRequest` call, given the
calls already made during the same `OMX_SetupTunnel`: the error code and the
proposal left in `*pTunnelSetup`. -/
abbrev TunnelEnv := List TunnelCall → TunnelCall → OMX_ERRORTYPE × OMX_TUNNELSETUPTYPE

/-- The second stage of `OMX_SetupTunnel`, after the calls `calls`, with
`tunnelSetup` as the first stage left it: the request to the input component
and, when it fails, the request to the output component with a `NULL` peer.
That last request is made through `hOutput` without a test: with a `NULL`
`hOutput` it has no defined result. -/
def setupTunnelInput (env : TunnelEnv) (hOutput : Option Nat) (nPortOutput : Nat)
    (hInput : Option Nat) (nPortInput : Nat) (tunnelSetup : OMX_TUNNELSETUPTYPE)
    (calls : List TunnelCall) : Option (OMX_ERRORTYPE × List TunnelCall) :=
  match hInput with
  | none => some (OMX_ERRORTYPE.OMX_ErrorNone, calls)
  | some i =>
    let call2 : TunnelCall := ⟨i, nPortInput, hOutput, nPortOutput, tunnelSetup⟩
    let r2 := env calls call2
    if r2.1 ≠ OMX_ERRORTYPE.OMX_ErrorNone then
      match hOutput with
      | none => none
      | some o =>
        let call3 : TunnelCall := ⟨o, nPortOutput, none, 0, r2.2⟩
        let r3 := env (calls ++ [call2]) call3
        if r3.1 ≠ OMX_ERRORTYPE.OMX_ErrorNone then
          some (OMX_ERRORTYPE.OMX_ErrorUndefined, calls ++ [call2, call3])
        else some (OMX_ERRORTYPE.OMX_ErrorPortsNotCompatible, calls ++ [call2, call3])
    else some (OMX_ERRORTYPE.OMX_ErrorNone, calls ++ [call2])

/-- The function `OMX_SetupTunnel`: the error code and the
`ComponentTunnelRequest` calls made, in order. -/
def OMX_SetupTunnel (env : TunnelEnv) (hOutput : Option Nat) (nPortOutput : Nat)
    (hInput : Option Nat) (nPortInput : Nat) : Option (OMX_ERRORTYPE × List TunnelCall) :=
  if hOutput = none ∧ hInput = none then some (OMX_ERRORTYPE.OMX_ErrorBadParameter, [])
  else
    let tunnelSetup : OMX_TUNNELSETUPTYPE := ⟨0, 0⟩
    match hOutput with
    | some o =>
      let call1 : TunnelCall := ⟨o, nPortOutput, hInput, nPortInput, tunnelSetup⟩
      let r1 := env [] call1
      if r1.1 ≠ OMX_ERRORTYPE.OMX_ErrorNone then some (r1.1, [call1])
      else setupTunnelInput env hOutput nPortOutput hInput nPortInput r1.2 [call1]
    | none => setupTunnelInput env hOutput nPortOutput hInput nPortInput tunnelSetup []

/-- Components that accept every tunnel request and propose supplier 1 with
flags 0. -/
def acceptAll : TunnelEnv := fun _ _ => (OMX_ERRORTYPE.OMX_ErrorNone, ⟨0, 1⟩)

/-- Components of which component `bad` rejects every request that names a
peer, with `OMX_ErrorPortsNotCompatible`, and every other request is accepted;
the proposal is left as it is. -/
def rejectBy (bad : Nat) : TunnelEnv := fun _ c =>
  if c.hComp = bad ∧ c.hTunneledComp ≠ none then
    (OMX_ERRORTYPE.OMX_ErrorPortsNotCompatible, c.pTunnelSetup)
  else (OMX_ERRORTYPE.OMX_ErrorNone, c.pTunnelSetup)

/-- A component loader of `loadersList` (`BOSA_COMPONENTLOADER`), as the core
sees it: the answer of its `BOSA_CreateComponent` to a component name (the
error code and the handle it stores in `*pHandle`, if it stores one) and the
ordered list of the component names it enumerates. -/
structure BOSA_COMPONENTLOADER where
  BOSA_CreateComponent : String → OMX_ERRORTYPE × Option Nat
  names : List String

/-- Modelled from the spec: the `BOSA_ComponentNameEnum` entry of a loader,
whose code is not among the sources. It succeeds exactly for the indices below
the number of names of the loader and then stores the name of that index in the
caller's buffer; otherwise it returns `OMX_ErrorNoMore` and stores nothing. -/
def BOSA_ComponentNameEnum (l : BOSA_COMPONENTLOADER) (nIndex : Nat) :
    OMX_ERRORTYPE × Option String :=
  match l.names[nIndex]? with
  | some n => (OMX_ERRORTYPE.OMX_ErrorNone, some n)
  | none => (OMX_ERRORTYPE.OMX_ErrorNoMore, none)

/-- The loop of `OMX_GetHandle` over the loaders from position `i` on, with the
handle `pHandle` and the positions `called` of the loaders already asked. -/
def getHandleLoop : List BOSA_COMPONENTLOADER → String → Nat → Option Nat → List Nat →
    OMX_ERRORTYPE × Option Nat × List Nat
  | [], _, _, pHandle, called => (OMX_ERRORTYPE.OMX_ErrorComponentNotFound, pHandle, called)
  | l :: rest, cComponentName, i, pHandle, called =>
    let r := l.BOSA_CreateComponent cComponentName
    let pHandle1 := match r.2 with
      | some hnd => some hnd
      | none => pHandle
    if r.1 = OMX_ERRORTYPE.OMX_ErrorNone then
      (OMX_ERRORTYPE.OMX_ErrorNone, pHandle1, called ++ [i])
    else if r.1 = OMX_ERRORTYPE.OMX_ErrorInsufficientResources then
      (OMX_ERRORTYPE.OMX_ErrorInsufficientResources, pHandle1, called ++ [i])
    else getHandleLoop rest cComponentName (i + 1) pHandle1 (called ++ [i])

/-- The function `OMX_GetHandle` on the loaders `loadersList` (an array of
`NUM_LOADERS` loaders, 1 in this build): the error code, the handle left in
`*pHandle` and the positions of the loaders whose `BOSA_CreateComponent` was
called, in the order of the calls. -/
def OMX_GetHandle (loadersList : List BOSA_COMPONENTLOADER) (cComponentName : String) :
    OMX_ERRORTYPE × Option Nat × List Nat :=
  getHandleLoop loadersList cComponentName 0 none []

/-- The loop `while (!end_index)` of `OMX_ComponentNameEnum` on one loader,
from `index`: the enumeration is called with `index`, `index + 1`, ... until it
fails; the result is the index at which it fails and the buffer. The first
argument bounds the number of calls; the enumeration of a loader with `n` names
fails at the call of index `n`, so `n + 1` calls are enough. -/
def countLoop (l : BOSA_COMPONENTLOADER) : Nat → Nat → Option String → Nat × Option String
  | 0, index, buf => (index, buf)
  | calls + 1, index, buf =>
    let r := BOSA_ComponentNameEnum l index
    if r.1 = OMX_ERRORTYPE.OMX_ErrorNone then countLoop l calls (index + 1) r.2
    else (index, buf)

/-- The loop of `OMX_ComponentNameEnum` over the loaders, with the running
`offset` and the content of the buffer `cComponentName` (`none`: as the caller
passed it). The difference `nIndex - offset` does not wrap: `offset` only grows
by the number of names of a loader whose enumeration failed at
`nIndex - offset`. -/
def nameEnumLoop : List BOSA_COMPONENTLOADER → Nat → Nat → Option String →
    OMX_ERRORTYPE × Option String
  | [], _, _, buf => (OMX_ERRORTYPE.OMX_ErrorNoMore, buf)
  | l :: rest, nIndex, offset, buf =>
    let r := BOSA_ComponentNameEnum l (nIndex - offset)
    if r.1 ≠ OMX_ERRORTYPE.OMX_ErrorNone then
      let counted := countLoop l (l.names.length + 1) 0 buf
      nameEnumLoop rest nIndex (offset + counted.1) counted.2
    else (OMX_ERRORTYPE.OMX_ErrorNone, r.2)

/-- The function `OMX_ComponentNameEnum`: the error code and the content of the
buffer `cComponentName` on return. -/
def OMX_ComponentNameEnum (loadersList : List BOSA_COMPONENTLOADER) (nIndex : Nat) :
    OMX_ERRORTYPE × Option String :=
  nameEnumLoop loadersList nIndex 0 none

/-- The names of all the loaders, in the order of the loaders. -/
def allNames : List BOSA_COMPONENTLOADER → List String
  | [] => []
  | l :: rest => l.names ++ allNames rest

/-- A loader that has the components `names` and answers `err` to every
`BOSA_CreateComponent`. -/
def fixedLoader (err : OMX_ERRORTYPE) (names : List String) : BOSA_COMPONENTLOADER :=
  { BOSA_CreateComponent := fun _ => (err, none)
    names := names }

/-! ## Media entity inventory -/

/-- One entity of the inventory (`struct MediaEntityListType`, without `next`
and the unused `openmaxStandComp`); `type` is the entity type code and
`use_count` a C `int`. -/
structure MediaEntityListType where
  name : String
  devname : String
  type : Nat
  use_count : Int
  deriving DecidableEq, Repr

/-- The test `strstr(haystack, needle) != NULL`: `needle` occurs in
`haystack`. -/
def strstr : List Char → List Char → Bool
  | [], needle => needle.isEmpty
  | c :: cs, needle => needle.isPrefixOf (c :: cs) || strstr cs needle

/-- The test `strstr(entity->name, ".m2m") != NULL` of the mem-to-mem naming
convention. -/
def isM2M (name : String) : Bool :=
  strstr name.toList ".m2m".toList

/-- The loop of `SRM_GetFreeVideoM2MDevName` from position `pos` of the
inventory, carrying `match` (`none` is `NULL`; otherwise the position and the
content of the entity pointed to) and `min_use_count`. -/
def matchLoop : List MediaEntityListType → Int → Nat → Option (Nat × MediaEntityListType) →
    Int → Option (Nat × MediaEntityListType) × Int
  | [], _, _, m, min_use_count => (m, min_use_count)
  | entity :: rest, max_use_count, pos, m, min_use_count =>
    if isM2M entity.name = true ∧ entity.use_count ≤ max_use_count ∧
        entity.use_count < min_use_count then
      matchLoop rest max_use_count (pos + 1) (some (pos, entity)) entity.use_count
    else matchLoop rest max_use_count (pos + 1) m min_use_count

/-- The function `SRM_GetFreeVideoM2MDevName` on the inventory
`mediaEntityList`: the error code, the device path copied to `devname` (if
any) and the inventory after the call. -/
def SRM_GetFreeVideoM2MDevName (mediaEntityList : List MediaEntityListType)
    (max_use_count : Int) : OMX_ERRORTYPE × Option String × List MediaEntityListType :=
  match mediaEntityList with
  | [] => (OMX_ERRORTYPE.OMX_ErrorUndefined, none, [])
  | e :: rest =>
    match (matchLoop (e :: rest) max_use_count 0 none (MAX_INT : Int)).1 with
    | some (pos, m) =>
      (OMX_ERRORTYPE.OMX_ErrorNone, some m.devname,
        (e :: rest).set pos { m with use_count := m.use_count + 1 })
    | none => (OMX_ERRORTYPE.OMX_ErrorInsufficientResources, none, e :: rest)

/-- The loop of `SRM_PutVideoNode`: the use count of the first entity whose
device path is `devname` is decremented; `none` when no entity has it. -/
def putLoop : List MediaEntityListType → String → Option (List MediaEntityListType)
  | [], _ => none
  | entity :: rest, devname =>
    if entity.devname ≠ devname then (putLoop rest devname).map (fun l => entity :: l)
    else some ({ entity with use_count := entity.use_count - 1 } :: rest)

/-- The function `SRM_PutVideoNode`: the error code and the inventory after
the call. -/
def SRM_PutVideoNode (mediaEntityList : List MediaEntityListType) (devname : String) :
    OMX_ERRORTYPE × List MediaEntityListType :=
  match mediaEntityList with
  | [] => (OMX_ERRORTYPE.OMX_ErrorNone, [])
  | e :: rest =>
    match putLoop (e :: rest) devname with
    | some l => (OMX_ERRORTYPE.OMX_ErrorNone, l)
    | none => (OMX_ERRORTYPE.OMX_ErrorUndefined, e :: rest)

/-- One call on the inventory. -/
inductive SRMCall where
  | getFree (max_use_count : Int)
  | putNode (devname : String)
  deriving DecidableEq, Repr

/-- The inventory after one call. -/
def SRMCall.run (c : SRMCall) (l : List MediaEntityListType) : List MediaEntityListType :=
  match c with
  | SRMCall.getFree max_use_count => (SRM_GetFreeVideoM2MDevName l max_use_count).2.2
  | SRMCall.putNode devname => (SRM_PutVideoNode l devname).2

/-- The inventory after a sequence of calls. -/
def runSRM (l : List MediaEntityListType) : List SRMCall → List MediaEntityListType
  | [] => l
  | c :: cs => runSRM (c.run l) cs

/-- A call that does not release more than was taken: `SRM_PutVideoNode` is
only called on a device path whose entity, the first with this path, has a
positive use count (or on a path that no entity has). -/
def SRMCall.paired (c : SRMCall) (l : List MediaEntityListType) : Prop :=
  match c with
  | SRMCall.getFree _ => True
  | SRMCall.putNode devname =>
    match l.find? (fun x => decide (x.devname = devname)) with
    | some e => 0 < e.use_count
    | none => True

instance (c : SRMCall) (l : List MediaEntityListType) : Decidable (c.paired l) := by
  unfold SRMCall.paired
  cases c with
  | getFree _ => exact instDecidableTrue
  | putNode devname =>
    simp only
    cases l.find? (fun x => decide (x.devname = devname)) with
    | some e => exact inferInstanceAs (Decidable (0 < e.use_count))
    | none => exact instDecidableTrue

/-- Every call of a sequence is paired in the inventory in which it is made. -/
def allPaired (l : List MediaEntityListType) : List SRMCall → Prop
  | [] => True
  | c :: cs => c.paired l ∧ allPaired (c.run l) cs

instance allPairedDecidable (l : List MediaEntityListType) (calls : List SRMCall) :
    Decidable (allPaired l calls) :=
  match calls with
  | [] => instDecidableTrue
  | c :: cs =>
    have := allPairedDecidable (c.run l) cs
    inferInstanceAs (Decidable (c.paired l ∧ allPaired (c.run l) cs))

/-- The inventory of the example: three mem-to-mem entities with the use
counts 2, 0 and 1. -/
def threeNodes : List MediaEntityListType :=
  [⟨"fimc.0.m2m", "/dev/video0", 0, 2⟩, ⟨"fimc.1.m2m", "/dev/video1", 0, 0⟩,
   ⟨"fimc.2.m2m", "/dev/video2", 0, 1⟩]

/-- The lists of every index other than `i` are the same in `s1` as in `s`. -/
def FrameAt (s s1 : RMState) (i : Int) : Prop :=
  ∀ j : Int, j ≠ i →
    s1.globalComponentList j = s.globalComponentList j ∧
      s1.globalWaitingComponentList j = s.globalWaitingComponentList j

/-- An environment in which every component has the name "codec.b", the group
priority 5 and the state Idle, and every command fails. -/
def refusingEnv : Env :=
  { priv := fun _ => ⟨"codec.b", 5, OMX_STATETYPE.OMX_StateIdle⟩
    sendCommand := fun _ _ _ => OMX_ERRORTYPE.OMX_ErrorUndefined }

/-! ## Lists: insertion, removal, search -/

theorem addElemToList_eq (list : List ComponentListType) (h : Nat)
    (priv : omx_base_component_PrivateType) (g : Nat) :
    addElemToList list h priv g =
      (OMX_ERRORTYPE.OMX_ErrorNone, list ++ [⟨h, priv.nGroupPriority, g⟩], g + 1) := by
  cases list <;> rfl

theorem removeLoop_none_iff (l : List ComponentListType) (h : Nat) :
    removeLoop l h = none ↔ ∀ x ∈ l, x.openmaxStandComp ≠ h := by
  induction l with
  | nil => simp [removeLoop]
  | cons c rest ih =>
    by_cases hc : c.openmaxStandComp = h
    · simp [removeLoop, hc]
    · simp [removeLoop, hc, ih]

theorem removeLoop_some_split (l l1 : List ComponentListType) (h : Nat)
    (hr : removeLoop l h = some l1) :
    ∃ pre v post, l = pre ++ v :: post ∧ v.openmaxStandComp = h ∧
      (∀ x ∈ pre, x.openmaxStandComp ≠ h) ∧ l1 = pre ++ post := by
  induction l generalizing l1 with
  | nil => simp [removeLoop] at hr
  | cons c rest ih =>
    by_cases hc : c.openmaxStandComp = h
    · simp [removeLoop, hc] at hr
      exact ⟨[], c, rest, by simp, hc, by simp, by simp [hr]⟩
    · simp [removeLoop, hc] at hr
      obtain ⟨l2, hl2, rfl⟩ := hr
      obtain ⟨pre, v, post, hsplit, hv, hpre, rfl⟩ := ih l2 hl2
      refine ⟨c :: pre, v, post, by simp [hsplit], hv, ?_, by simp⟩
      intro x hx
      rcases List.mem_cons.mp hx with rfl | hx
      · exact hc
      · exact hpre x hx

theorem removeLoop_split (pre post : List ComponentListType) (v : ComponentListType)
    (hpre : ∀ x ∈ pre, x.openmaxStandComp ≠ v.openmaxStandComp) :
    removeLoop (pre ++ v :: post) v.openmaxStandComp = some (pre ++ post) := by
  induction pre with
  | nil => simp [removeLoop]
  | cons c rest ih =>
    have hc : c.openmaxStandComp ≠ v.openmaxStandComp := hpre c (by simp)
    have := ih (fun x hx => hpre x (by simp [hx]))
    simp [removeLoop, hc, this]

theorem removeLoop_isSome_of_mem (l : List ComponentListType) (h : Nat)
    (hm : ∃ x ∈ l, x.openmaxStandComp = h) : ∃ l1, removeLoop l h = some l1 := by
  cases hr : removeLoop l h with
  | some l1 => exact ⟨l1, rfl⟩
  | none =>
    obtain ⟨x, hx, hxh⟩ := hm
    exact absurd hxh ((removeLoop_none_iff l h).mp hr x hx)

theorem removeElemFromList_of_loop (l l1 : List ComponentListType) (h : Nat)
    (hr : removeLoop l h = some l1) :
    removeElemFromList l h = (OMX_ERRORTYPE.OMX_ErrorNone, l1) := by
  cases l with
  | nil => simp [removeLoop] at hr
  | cons c rest => simp [removeElemFromList, hr]

theorem removeElemFromList_of_not_mem (l : List ComponentListType) (h : Nat)
    (hne : l ≠ []) (hn : ∀ x ∈ l, x.openmaxStandComp ≠ h) :
    removeElemFromList l h = (OMX_ERRORTYPE.OMX_ErrorComponentNotFound, l) := by
  cases l with
  | nil => exact absurd rfl hne
  | cons c rest =>
    have := (removeLoop_none_iff (c :: rest) h).mpr hn
    simp [removeElemFromList, this]

theorem searchLoop_fst (l : List ComponentListType) (p : Nat) (n : Int)
    (c : Option ComponentListType) :
    (searchLoop l p n c).1 = n + ((qualifying l p).length : Int) := by
  induction l generalizing n c with
  | nil => simp [searchLoop, qualifying]
  | cons t rest ih =>
    by_cases ht : t.nGroupPriority > p
    · simp only [searchLoop, ht, if_true, ih, qualifying, List.filter_cons, decide_True,
        List.length_cons]
      push_cast
      ring
    · simp only [searchLoop, ht, if_false, ih, qualifying, List.filter_cons, decide_False]
      simp

theorem searchLoop_keep (l : List ComponentListType) (p : Nat) (n : Int)
    (v : ComponentListType) (hn : 0 < n) (hts : ∀ x ∈ l, v.timestamp ≤ x.timestamp) :
    (searchLoop l p n (some v)).2 = some v := by
  induction l generalizing n with
  | nil => simp [searchLoop]
  | cons t rest ih =>
    have h1 : ¬ v.timestamp > t.timestamp := by
      have := hts t (by simp)
      omega
    have hrest : ∀ x ∈ rest, v.timestamp ≤ x.timestamp := fun x hx => hts x (by simp [hx])
    by_cases ht : t.nGroupPriority > p
    · have hn1 : 0 < n + 1 := by omega
      simp only [searchLoop, ht, if_true, hn1, h1, if_false, gt_iff_lt]
      exact ih (n + 1) hn1 hrest
    · simp only [searchLoop, ht, if_false, hn, if_true, h1, gt_iff_lt]
      exact ih n hn hrest

theorem searchLoop_skip (pre rest : List ComponentListType) (p : Nat)
    (hpre : ∀ x ∈ pre, ¬ x.nGroupPriority > p) :
    searchLoop (pre ++ rest) p 0 none = searchLoop rest p 0 none := by
  induction pre with
  | nil => rfl
  | cons t pre1 ih =>
    have ht : ¬ t.nGroupPriority > p := hpre t (by simp)
    have := ih (fun x hx => hpre x (by simp [hx]))
    simp [searchLoop, ht, this]

theorem searchLoop_first (pre post : List ComponentListType) (v : ComponentListType) (p : Nat)
    (hpre : ∀ x ∈ pre, ¬ x.nGroupPriority > p) (hv : v.nGroupPriority > p)
    (hts : ∀ x ∈ post, v.timestamp ≤ x.timestamp) :
    (searchLoop (pre ++ v :: post) p 0 none).2 = some v := by
  rw [searchLoop_skip pre (v :: post) p hpre]
  simp only [searchLoop, hv, if_true]
  simpa using searchLoop_keep post p 1 v (by omega) hts

theorem searchLoop_mem (l : List ComponentListType) (p : Nat) (n : Int)
    (c : Option ComponentListType) (v : ComponentListType)
    (h : (searchLoop l p n c).2 = some v) : v ∈ l ∨ c = some v := by
  induction l generalizing n c with
  | nil => right; simpa [searchLoop] using h
  | cons t rest ih =>
    simp only [searchLoop] at h
    rcases ih _ _ h with hm | hc
    · left; simp [hm]
    · by_cases hb : (if t.nGroupPriority > p then n + 1 else n) > 0
      · rw [if_pos hb] at hc
        cases c with
        | none =>
          simp at hc
          left; simp [hc]
        | some c0 =>
          by_cases h2 : c0.timestamp > t.timestamp
          · simp [h2] at hc
            left; simp [hc]
          · simp [h2] at hc
            right; simp [hc]
      · rw [if_neg hb] at hc
        right; exact hc

/-- A list splits at its first entry of priority greater than `p`, if it has one. -/
theorem exists_first_qualifying (l : List ComponentListType) (p : Nat)
    (h : ∃ x ∈ l, x.nGroupPriority > p) :
    ∃ pre v post, l = pre ++ v :: post ∧ (∀ x ∈ pre, ¬ x.nGroupPriority > p) ∧
      v.nGroupPriority > p := by
  induction l with
  | nil => simp at h
  | cons t rest ih =>
    by_cases ht : t.nGroupPriority > p
    · exact ⟨[], t, rest, by simp, by simp, ht⟩
    · obtain ⟨x, hx, hxp⟩ := h
      have hx1 : x ∈ rest := by
        rcases List.mem_cons.mp hx with rfl | hx
        · exact absurd hxp ht
        · exact hx
      obtain ⟨pre, v, post, hs, hpre, hv⟩ := ih ⟨x, hx1, hxp⟩
      refine ⟨t :: pre, v, post, by simp [hs], ?_, hv⟩
      intro y hy
      rcases List.mem_cons.mp hy with rfl | hy
      · exact ht
      · exact hpre y hy

theorem searchLowerPriority_fst_of_ne_nil (l : List ComponentListType) (p : Nat)
    (hne : l ≠ []) :
    (searchLowerPriority l p).1 = ((qualifying l p).length : Int) := by
  cases l with
  | nil => exact absurd rfl hne
  | cons c rest => simp [searchLowerPriority, searchLoop_fst]

theorem removeLoop_sublist (l l1 : List ComponentListType) (h : Nat)
    (hr : removeLoop l h = some l1) : l1.Sublist l := by
  obtain ⟨pre, v, post, rfl, _, _, rfl⟩ := removeLoop_some_split l l1 h hr
  exact List.Sublist.append_left (List.sublist_cons_self v post) pre

theorem removeLoop_length (l l1 : List ComponentListType) (h : Nat)
    (hr : removeLoop l h = some l1) : l1.length + 1 = l.length := by
  obtain ⟨pre, v, post, rfl, _, _, rfl⟩ := removeLoop_some_split l l1 h hr
  simp
  omega

theorem removeElemFromList_sublist (l : List ComponentListType) (h : Nat) :
    (removeElemFromList l h).2.Sublist l := by
  cases l with
  | nil => simp [removeElemFromList]
  | cons c rest =>
    cases hr : removeLoop (c :: rest) h with
    | none => simp [removeElemFromList, hr]
    | some l1 =>
      simp only [removeElemFromList, hr]
      exact removeLoop_sublist _ _ _ hr

theorem removeElemFromList_length_of_mem (l : List ComponentListType) (h : Nat)
    (hm : ∃ x ∈ l, x.openmaxStandComp = h) :
    (removeElemFromList l h).1 = OMX_ERRORTYPE.OMX_ErrorNone ∧
      (removeElemFromList l h).2.length + 1 = l.length := by
  obtain ⟨l1, hl1⟩ := removeLoop_isSome_of_mem l h hm
  rw [removeElemFromList_of_loop l l1 h hl1]
  exact ⟨rfl, removeLoop_length l l1 h hl1⟩

/-! ## The registry scan -/

theorem scanRegistered_found (table : List NameIndexType) (name : String) (e : NameIndexType)
    (h : scanRegistered table name = some (some e)) :
    e ∈ table ∧ e.component_name = name ∧
      table.find? (fun x => decide (x.component_name = name)) = some e := by
  unfold scanRegistered at h
  cases hf : table.find? (fun x => decide (x.component_name = name)) with
  | none =>
    rw [hf] at h
    simp only at h
    split_ifs at h
    all_goals simp at h
  | some e1 =>
    rw [hf] at h
    simp only [Option.some.injEq] at h
    subst h
    refine ⟨List.mem_of_find?_eq_some hf, ?_, rfl⟩
    simpa using List.find?_some hf

theorem scanRegistered_of_mem (table : List NameIndexType) (name : String)
    (h : name ∈ table.map (fun e => e.component_name)) :
    ∃ e, scanRegistered table name = some (some e) := by
  unfold scanRegistered
  cases hf : table.find? (fun x => decide (x.component_name = name)) with
  | some e => exact ⟨e, rfl⟩
  | none =>
    exfalso
    rw [List.find?_eq_none] at hf
    obtain ⟨e, he, hn⟩ := List.mem_map.mp h
    exact absurd hn (by simpa using hf e he)

theorem scanRegistered_absent (table : List NameIndexType) (name : String)
    (h : scanRegistered table name = some none) :
    name ∉ table.map (fun e => e.component_name) ∧
      table.length < MAX_COMPONENT_TYPES_HANDLED := by
  unfold scanRegistered at h
  cases hf : table.find? (fun x => decide (x.component_name = name)) with
  | some e =>
    rw [hf] at h
    simp at h
  | none =>
    rw [hf] at h
    simp only at h
    split_ifs at h with hlt
    refine ⟨?_, hlt⟩
    rw [List.find?_eq_none] at hf
    intro hm
    obtain ⟨e, he, hn⟩ := List.mem_map.mp hm
    exact absurd hn (by simpa using hf e he)

theorem scanRegistered_of_absent (table : List NameIndexType) (name : String)
    (h : name ∉ table.map (fun e => e.component_name))
    (hlt : table.length < MAX_COMPONENT_TYPES_HANDLED) :
    scanRegistered table name = some none := by
  unfold scanRegistered
  have hf : table.find? (fun x => decide (x.component_name = name)) = none := by
    rw [List.find?_eq_none]
    intro e he
    have : e.component_name ≠ name := fun hn => h (List.mem_map.mpr ⟨e, he, hn⟩)
    simpa using this
  rw [hf]
  simp [hlt]

/-! ## The invariant of reachable states -/

theorem setListAt_same (arr : Int → List ComponentListType) (i : Int)
    (l : List ComponentListType) : setListAt arr i l i = l := by
  simp [setListAt]

theorem setListAt_other (arr : Int → List ComponentListType) (i j : Int)
    (l : List ComponentListType) (h : j ≠ i) : setListAt arr i l j = arr j := by
  simp [setListAt, h]

theorem TsSorted_append_fresh (l : List ComponentListType) (g : Nat) (a b : Nat)
    (hs : TsSorted l) (hb : ∀ x ∈ l, x.timestamp < g) :
    TsSorted (l ++ [⟨a, b, g⟩]) := by
  unfold TsSorted at *
  rw [List.pairwise_append]
  refine ⟨hs, by simp, ?_⟩
  intro x hx y hy
  simp only [List.mem_singleton] at hy
  subst hy
  exact hb x hx

theorem Inv.index_range {s : RMState} (hI : Inv s) {e : NameIndexType}
    (he : e ∈ s.listOfcomponentRegistered) : 0 ≤ e.index ∧ e.index < s.globalIndex := by
  have hm : e.index ∈ s.listOfcomponentRegistered.map (fun e => e.index) :=
    List.mem_map.mpr ⟨e, he, rfl⟩
  rw [hI.idx] at hm
  obtain ⟨n, hn, hne⟩ := List.mem_map.mp hm
  rw [List.mem_range] at hn
  rw [hI.gi, ← hne]
  simp only [Int.ofNat_eq_coe]
  omega

theorem Inv.index_inj {s : RMState} (hI : Inv s) {e1 e2 : NameIndexType}
    (h1 : e1 ∈ s.listOfcomponentRegistered) (h2 : e2 ∈ s.listOfcomponentRegistered)
    (h : e1.index = e2.index) : e1 = e2 := by
  have hnd : (s.listOfcomponentRegistered.map (fun e => e.index)).Nodup := by
    rw [hI.idx]
    exact (List.nodup_range _).map (fun a b hab => by simpa using hab)
  exact List.inj_on_of_nodup_map hnd h1 h2 h

theorem Inv.setActive {s : RMState} (hI : Inv s) {e : NameIndexType}
    (he : e ∈ s.listOfcomponentRegistered) (l1 : List ComponentListType) (g1 : Nat)
    (hg : s.globalTimestamp ≤ g1) (hs : TsSorted l1) (hb : ∀ x ∈ l1, x.timestamp < g1)
    (hc : 0 ≤ e.max_components → (l1.length : Int) ≤ e.max_components) :
    Inv { s with
          globalComponentList := setListAt s.globalComponentList e.index l1
          globalTimestamp := g1 } := by
  have hrange := hI.index_range he
  refine ⟨hI.gi, hI.room, hI.idx, hI.names, ?_, ?_, ?_, hI.sortedW, ?_, ?_⟩
  · intro j hj
    have hne : j ≠ e.index := by
      rcases hj with hj | hj
      · omega
      · have : s.globalIndex ≤ j := hj
        omega
    show setListAt s.globalComponentList e.index l1 j = [] ∧ s.globalWaitingComponentList j = []
    rw [setListAt_other _ _ _ _ hne]
    exact hI.unused j hj
  · intro j
    show TsSorted (setListAt s.globalComponentList e.index l1 j)
    by_cases hj : j = e.index
    · subst hj
      rw [setListAt_same]
      exact hs
    · rw [setListAt_other _ _ _ _ hj]
      exact hI.sortedA j
  · intro j x hx
    show x.timestamp < g1
    have hx1 : x ∈ setListAt s.globalComponentList e.index l1 j := hx
    by_cases hj : j = e.index
    · subst hj
      rw [setListAt_same] at hx1
      exact hb x hx1
    · rw [setListAt_other _ _ _ _ hj] at hx1
      exact lt_of_lt_of_le (hI.boundA j x hx1) hg
  · intro j x hx
    exact lt_of_lt_of_le (hI.boundW j x hx) hg
  · intro e2 he2 h0
    show ((setListAt s.globalComponentList e.index l1 e2.index).length : Int) ≤ e2.max_components
    by_cases hj : e2.index = e.index
    · have : e2 = e := hI.index_inj he2 he hj
      subst this
      rw [setListAt_same]
      exact hc h0
    · rw [setListAt_other _ _ _ _ hj]
      exact hI.capacity e2 he2 h0

theorem Inv.setWaiting {s : RMState} (hI : Inv s) {e : NameIndexType}
    (he : e ∈ s.listOfcomponentRegistered) (l1 : List ComponentListType) (g1 : Nat)
    (hg : s.globalTimestamp ≤ g1) (hs : TsSorted l1) (hb : ∀ x ∈ l1, x.timestamp < g1) :
    Inv { s with
          globalWaitingComponentList := setListAt s.globalWaitingComponentList e.index l1
          globalTimestamp := g1 } := by
  have hrange := hI.index_range he
  refine ⟨hI.gi, hI.room, hI.idx, hI.names, ?_, hI.sortedA, ?_, ?_, ?_, hI.capacity⟩
  · intro j hj
    have hne : j ≠ e.index := by
      rcases hj with hj | hj
      · omega
      · have : s.globalIndex ≤ j := hj
        omega
    show s.globalComponentList j = [] ∧ setListAt s.globalWaitingComponentList e.index l1 j = []
    rw [setListAt_other _ _ _ _ hne]
    exact hI.unused j hj
  · intro j x hx
    exact lt_of_lt_of_le (hI.boundA j x hx) hg
  · intro j
    show TsSorted (setListAt s.globalWaitingComponentList e.index l1 j)
    by_cases hj : j = e.index
    · subst hj
      rw [setListAt_same]
      exact hs
    · rw [setListAt_other _ _ _ _ hj]
      exact hI.sortedW j
  · intro j x hx
    show x.timestamp < g1
    have hx1 : x ∈ setListAt s.globalWaitingComponentList e.index l1 j := hx
    by_cases hj : j = e.index
    · subst hj
      rw [setListAt_same] at hx1
      exact hb x hx1
    · rw [setListAt_other _ _ _ _ hj] at hx1
      exact lt_of_lt_of_le (hI.boundW j x hx1) hg

theorem inv_init (s0 : RMState) : Inv (RM_Init s0).2 := by
  refine ⟨rfl, by simp [RM_Init], rfl, by simp [RM_Init], ?_, ?_, ?_, ?_, ?_, ?_⟩
  · intro j _
    exact ⟨rfl, rfl⟩
  · intro j
    exact List.Pairwise.nil
  · intro j x hx
    simp [RM_Init] at hx
  · intro j
    exact List.Pairwise.nil
  · intro j x hx
    simp [RM_Init] at hx
  · intro e he
    simp [RM_Init] at he

theorem inv_register {s s1 : RMState} (hI : Inv s) (name : String) (m : Int)
    (err : OMX_ERRORTYPE) (h : RM_RegisterComponent s name m = some (err, s1)) : Inv s1 := by
  unfold RM_RegisterComponent at h
  cases hsc : scanRegistered s.listOfcomponentRegistered name with
  | none => rw [hsc] at h; simp at h
  | some r =>
    cases r with
    | some e =>
      rw [hsc] at h
      simp only [Option.some.injEq, Prod.mk.injEq] at h
      rw [← h.2]
      exact hI
    | none =>
      rw [hsc] at h
      simp only [Option.some.injEq, Prod.mk.injEq] at h
      obtain ⟨hnot, hlt⟩ := scanRegistered_absent _ _ hsc
      rw [← h.2]
      refine ⟨?_, ?_, ?_, ?_, ?_, hI.sortedA, hI.boundA, hI.sortedW, hI.boundW, ?_⟩
      · show s.globalIndex + 1 = ((s.listOfcomponentRegistered ++ [(⟨name, s.globalIndex, m⟩ : NameIndexType)]).length : Int)
        rw [hI.gi]
        simp
      · show (s.listOfcomponentRegistered ++ [(⟨name, s.globalIndex, m⟩ : NameIndexType)]).length ≤ _
        simp
        omega
      · show (s.listOfcomponentRegistered ++ [(⟨name, s.globalIndex, m⟩ : NameIndexType)]).map (fun e => e.index) = _
        simp only [List.map_append, List.length_append, List.length_singleton, List.range_succ,
          List.map_cons, List.map_nil, hI.idx, hI.gi]
        rfl
      · show ((s.listOfcomponentRegistered ++ [(⟨name, s.globalIndex, m⟩ : NameIndexType)]).map
          (fun e => e.component_name)).Nodup
        rw [List.map_append, List.nodup_append]
        refine ⟨hI.names, by simp, ?_⟩
        intro a ha hb
        simp only [List.map_cons, List.map_nil, List.mem_singleton] at hb
        subst hb
        exact hnot ha
      · intro j hj
        apply hI.unused j
        rcases hj with hj | hj
        · left; exact hj
        · right
          have : s.globalIndex + 1 ≤ j := hj
          omega
      · intro e he h0
        have he1 : e ∈ s.listOfcomponentRegistered ++ [(⟨name, s.globalIndex, m⟩ : NameIndexType)] := he
        rcases List.mem_append.mp he1 with he2 | he2
        · exact hI.capacity e he2 h0
        · simp only [List.mem_singleton] at he2
          subst he2
          show ((s.globalComponentList s.globalIndex).length : Int) ≤ m
          rw [(hI.unused s.globalIndex (Or.inr le_rfl)).1]
          simpa using h0

/-! ## The arbitration calls, branch by branch -/

theorem RM_getResource_registered (env : Env) (s : RMState) (h : Nat) (e : NameIndexType)
    (hsc : scanRegistered s.listOfcomponentRegistered (env.priv h).name = some (some e)) :
    RM_getResource env s h =
      if e.index < 0 then some (OMX_ERRORTYPE.OMX_ErrorNone, s, [])
      else if numElemInList (s.globalComponentList e.index) ≥ e.max_components then
        if (searchLowerPriority (s.globalComponentList e.index) (env.priv h).nGroupPriority).1 ≠ 0
        then
          match (searchLowerPriority (s.globalComponentList e.index)
              (env.priv h).nGroupPriority).2 with
          | none => none
          | some v =>
            if (preemptComponent env v.openmaxStandComp).1 ≠ OMX_ERRORTYPE.OMX_ErrorNone then
              some (OMX_ERRORTYPE.OMX_ErrorInsufficientResources, s,
                (preemptComponent env v.openmaxStandComp).2)
            else
              some (OMX_ERRORTYPE.OMX_ErrorNone,
                { s with
                  globalComponentList := setListAt s.globalComponentList e.index
                    ((removeElemFromList (s.globalComponentList e.index) v.openmaxStandComp).2 ++
                      [⟨h, (env.priv h).nGroupPriority, s.globalTimestamp⟩])
                  globalTimestamp := s.globalTimestamp + 1 },
                (preemptComponent env v.openmaxStandComp).2)
        else some (OMX_ERRORTYPE.OMX_ErrorInsufficientResources, s, [])
      else
        some (OMX_ERRORTYPE.OMX_ErrorNone,
          { s with
            globalComponentList := setListAt s.globalComponentList e.index
              (s.globalComponentList e.index ++
                [⟨h, (env.priv h).nGroupPriority, s.globalTimestamp⟩])
            globalTimestamp := s.globalTimestamp + 1 }, []) := by
  unfold RM_getResource
  simp only [hsc, addElemToList_eq]
  split_ifs <;> first | rfl | (split <;> simp_all)

theorem removeElemFromList_head (w : ComponentListType) (ws : List ComponentListType) :
    removeElemFromList (w :: ws) w.openmaxStandComp = (OMX_ERRORTYPE.OMX_ErrorNone, ws) := by
  simp [removeElemFromList, removeLoop]

theorem RM_releaseResource_absent (env : Env) (s : RMState) (h : Nat) (e : NameIndexType)
    (hsc : scanRegistered s.listOfcomponentRegistered (env.priv h).name = some (some e))
    (hidx : 0 ≤ e.index)
    (hn : ∀ x ∈ s.globalComponentList e.index, x.openmaxStandComp ≠ h) :
    RM_releaseResource env s h = some (OMX_ERRORTYPE.OMX_ErrorUndefined, s, []) := by
  unfold RM_releaseResource
  have hidx1 : ¬ e.index < 0 := by omega
  simp only [hsc, hidx1, if_false]
  cases hL : s.globalComponentList e.index with
  | nil => rfl
  | cons c rest =>
    rw [hL] at hn
    simp [removeElemFromList_of_not_mem (c :: rest) h (by simp) hn]

theorem RM_releaseResource_present_nowaiter (env : Env) (s : RMState) (h : Nat)
    (e : NameIndexType) (l1 : List ComponentListType)
    (hsc : scanRegistered s.listOfcomponentRegistered (env.priv h).name = some (some e))
    (hidx : 0 ≤ e.index)
    (hr : removeLoop (s.globalComponentList e.index) h = some l1)
    (hw : s.globalWaitingComponentList e.index = []) :
    RM_releaseResource env s h =
      some (OMX_ERRORTYPE.OMX_ErrorNone,
        { s with globalComponentList := setListAt s.globalComponentList e.index l1 }, []) := by
  unfold RM_releaseResource
  have hidx1 : ¬ e.index < 0 := by omega
  simp only [hsc, hidx1, if_false]
  cases hL : s.globalComponentList e.index with
  | nil => rw [hL] at hr; simp [removeLoop] at hr
  | cons c rest =>
    rw [hL] at hr
    simp [removeElemFromList_of_loop (c :: rest) l1 h hr, hw]

theorem RM_releaseResource_present_waiter (env : Env) (s : RMState) (h : Nat)
    (e : NameIndexType) (l1 : List ComponentListType) (w : ComponentListType)
    (ws : List ComponentListType)
    (hsc : scanRegistered s.listOfcomponentRegistered (env.priv h).name = some (some e))
    (hidx : 0 ≤ e.index)
    (hr : removeLoop (s.globalComponentList e.index) h = some l1)
    (hw : s.globalWaitingComponentList e.index = w :: ws) :
    RM_releaseResource env s h =
      some (OMX_ERRORTYPE.OMX_ErrorNone,
        { s with
          globalComponentList := setListAt s.globalComponentList e.index l1
          globalWaitingComponentList := setListAt s.globalWaitingComponentList e.index ws },
        [ExtCall.SendCommand w.openmaxStandComp OMX_COMMANDTYPE.OMX_CommandStateSet
          OMX_STATETYPE.OMX_StateIdle]) := by
  unfold RM_releaseResource
  have hidx1 : ¬ e.index < 0 := by omega
  simp only [hsc, hidx1, if_false]
  cases hL : s.globalComponentList e.index with
  | nil => rw [hL] at hr; simp [removeLoop] at hr
  | cons c rest =>
    rw [hL] at hr
    simp [removeElemFromList_of_loop (c :: rest) l1 h hr, hw, removeElemFromList_head]

theorem RM_waitForResource_registered (env : Env) (s : RMState) (h : Nat) (e : NameIndexType)
    (hsc : scanRegistered s.listOfcomponentRegistered (env.priv h).name = some (some e))
    (hidx : 0 ≤ e.index) :
    RM_waitForResource env s h =
      some (OMX_ERRORTYPE.OMX_ErrorNone,
        { s with
          globalWaitingComponentList := setListAt s.globalWaitingComponentList e.index
            (s.globalWaitingComponentList e.index ++
              [⟨h, (env.priv h).nGroupPriority, s.globalTimestamp⟩])
          globalTimestamp := s.globalTimestamp + 1 }, []) := by
  unfold RM_waitForResource
  have hidx1 : ¬ e.index < 0 := by omega
  simp only [hsc, hidx1, if_false, addElemToList_eq]

theorem TsSorted_sublist {l l1 : List ComponentListType} (hsub : l1.Sublist l)
    (hs : TsSorted l) : TsSorted l1 :=
  List.Pairwise.sublist hsub hs

theorem inv_getResource {s s1 : RMState} (hI : Inv s) (env : Env) (h : Nat)
    (err : OMX_ERRORTYPE) (calls : List ExtCall)
    (hstep : RM_getResource env s h = some (err, s1, calls)) : Inv s1 := by
  cases hsc : scanRegistered s.listOfcomponentRegistered (env.priv h).name with
  | none => simp [RM_getResource, hsc] at hstep
  | some r =>
    cases r with
    | none =>
      simp only [RM_getResource, hsc, Option.some.injEq, Prod.mk.injEq] at hstep
      rw [← hstep.2.1]
      exact hI
    | some e =>
      obtain ⟨he, -, -⟩ := scanRegistered_found _ _ _ hsc
      rw [RM_getResource_registered env s h e hsc] at hstep
      have hsortL := hI.sortedA e.index
      have hboundL := hI.boundA e.index
      split_ifs at hstep with h1 h2 h3
      · simp only [Option.some.injEq, Prod.mk.injEq] at hstep
        rw [← hstep.2.1]
        exact hI
      · cases hcand : (searchLowerPriority (s.globalComponentList e.index)
            (env.priv h).nGroupPriority).2 with
        | none => rw [hcand] at hstep; simp at hstep
        | some v =>
          rw [hcand] at hstep
          simp only at hstep
          split_ifs at hstep with h4
          · simp only [Option.some.injEq, Prod.mk.injEq] at hstep
            rw [← hstep.2.1]
            exact hI
          · simp only [Option.some.injEq, Prod.mk.injEq] at hstep
            rw [← hstep.2.1]
            have hvmem : v ∈ s.globalComponentList e.index := by
              cases hL : s.globalComponentList e.index with
              | nil => rw [hL] at hcand; simp [searchLowerPriority] at hcand
              | cons c rest =>
                rw [hL] at hcand
                simp only [searchLowerPriority] at hcand
                rcases searchLoop_mem _ _ _ _ _ hcand with hm | hm
                · exact hm
                · simp at hm
            have hsub := removeElemFromList_sublist (s.globalComponentList e.index)
              v.openmaxStandComp
            have hlen := (removeElemFromList_length_of_mem (s.globalComponentList e.index)
              v.openmaxStandComp ⟨v, hvmem, rfl⟩).2
            apply hI.setActive he _ _ (Nat.le_succ _)
            · exact TsSorted_append_fresh _ _ _ _ (TsSorted_sublist hsub hsortL)
                (fun x hx => hboundL x (hsub.subset hx))
            · intro x hx
              rcases List.mem_append.mp hx with hx | hx
              · exact Nat.lt_succ_of_lt (hboundL x (hsub.subset hx))
              · simp only [List.mem_singleton] at hx
                subst hx
                exact Nat.lt_succ_self _
            · intro h0
              have := hI.capacity e he h0
              simp only [List.length_append, List.length_singleton]
              push_cast
              have hlen1 : (((removeElemFromList (s.globalComponentList e.index)
                  v.openmaxStandComp).2.length : Int) + 1) =
                  ((s.globalComponentList e.index).length : Int) := by
                exact_mod_cast hlen
              omega
      · simp only [Option.some.injEq, Prod.mk.injEq] at hstep
        rw [← hstep.2.1]
        exact hI
      · simp only [Option.some.injEq, Prod.mk.injEq] at hstep
        rw [← hstep.2.1]
        apply hI.setActive he _ _ (Nat.le_succ _)
        · exact TsSorted_append_fresh _ _ _ _ hsortL hboundL
        · intro x hx
          rcases List.mem_append.mp hx with hx | hx
          · exact Nat.lt_succ_of_lt (hboundL x hx)
          · simp only [List.mem_singleton] at hx
            subst hx
            exact Nat.lt_succ_self _
        · intro _
          simp only [numElemInList, ge_iff_le, not_le] at h2
          simp only [List.length_append, List.length_singleton]
          push_cast
          omega

theorem inv_releaseResource {s s1 : RMState} (hI : Inv s) (env : Env) (h : Nat)
    (err : OMX_ERRORTYPE) (calls : List ExtCall)
    (hstep : RM_releaseResource env s h = some (err, s1, calls)) : Inv s1 := by
  cases hsc : scanRegistered s.listOfcomponentRegistered (env.priv h).name with
  | none => simp [RM_releaseResource, hsc] at hstep
  | some r =>
    cases r with
    | none =>
      simp only [RM_releaseResource, hsc, Option.some.injEq, Prod.mk.injEq] at hstep
      rw [← hstep.2.1]
      exact hI
    | some e =>
      obtain ⟨he, -, -⟩ := scanRegistered_found _ _ _ hsc
      have hidx := (hI.index_range he).1
      cases hr : removeLoop (s.globalComponentList e.index) h with
      | none =>
        rw [RM_releaseResource_absent env s h e hsc hidx
          ((removeLoop_none_iff _ _).mp hr)] at hstep
        simp only [Option.some.injEq, Prod.mk.injEq] at hstep
        rw [← hstep.2.1]
        exact hI
      | some l1 =>
        have hsub := removeLoop_sublist _ _ _ hr
        have hlen := removeLoop_length _ _ _ hr
        have hA : Inv { s with
            globalComponentList := setListAt s.globalComponentList e.index l1
            globalTimestamp := s.globalTimestamp } := by
          apply hI.setActive he _ _ le_rfl
          · exact TsSorted_sublist hsub (hI.sortedA e.index)
          · exact fun x hx => hI.boundA e.index x (hsub.subset hx)
          · intro h0
            have := hI.capacity e he h0
            have hlen1 : ((l1.length : Int) + 1) =
                ((s.globalComponentList e.index).length : Int) := by
              exact_mod_cast hlen
            omega
        cases hw : s.globalWaitingComponentList e.index with
        | nil =>
          rw [RM_releaseResource_present_nowaiter env s h e l1 hsc hidx hr hw] at hstep
          simp only [Option.some.injEq, Prod.mk.injEq] at hstep
          rw [← hstep.2.1]
          exact hA
        | cons w ws =>
          rw [RM_releaseResource_present_waiter env s h e l1 w ws hsc hidx hr hw] at hstep
          simp only [Option.some.injEq, Prod.mk.injEq] at hstep
          rw [← hstep.2.1]
          have hsW := hI.sortedW e.index
          have hbW := hI.boundW e.index
          rw [hw] at hsW hbW
          have hsubW : ws.Sublist (w :: ws) := List.sublist_cons_self w ws
          exact hA.setWaiting he ws s.globalTimestamp le_rfl (TsSorted_sublist hsubW hsW)
            (fun x hx => hbW x (hsubW.subset hx))

theorem inv_waitForResource {s s1 : RMState} (hI : Inv s) (env : Env) (h : Nat)
    (err : OMX_ERRORTYPE) (calls : List ExtCall)
    (hstep : RM_waitForResource env s h = some (err, s1, calls)) : Inv s1 := by
  cases hsc : scanRegistered s.listOfcomponentRegistered (env.priv h).name with
  | none => simp [RM_waitForResource, hsc] at hstep
  | some r =>
    cases r with
    | none =>
      simp only [RM_waitForResource, hsc, Option.some.injEq, Prod.mk.injEq] at hstep
      rw [← hstep.2.1]
      exact hI
    | some e =>
      obtain ⟨he, -, -⟩ := scanRegistered_found _ _ _ hsc
      have hidx := (hI.index_range he).1
      rw [RM_waitForResource_registered env s h e hsc hidx] at hstep
      simp only [Option.some.injEq, Prod.mk.injEq] at hstep
      rw [← hstep.2.1]
      apply hI.setWaiting he _ _ (Nat.le_succ _)
      · exact TsSorted_append_fresh _ _ _ _ (hI.sortedW e.index) (hI.boundW e.index)
      · intro x hx
        rcases List.mem_append.mp hx with hx | hx
        · exact Nat.lt_succ_of_lt (hI.boundW e.index x hx)
        · simp only [List.mem_singleton] at hx
          subst hx
          exact Nat.lt_succ_self _

theorem reachable_inv {s : RMState} (hr : Reachable s) : Inv s := by
  induction hr with
  | init s0 => exact inv_init s0
  | register name m err _ hstep ih => exact inv_register ih name m err hstep
  | getResource env h err calls _ hstep ih => exact inv_getResource ih env h err calls hstep
  | releaseResource env h err calls _ hstep ih =>
    exact inv_releaseResource ih env h err calls hstep
  | waitForResource env h err calls _ hstep ih =>
    exact inv_waitForResource ih env h err calls hstep

/-! ## Claims -/

theorem reachable_registeredState (m : Int) :
    Reachable (registeredState m 0) :=
  Reachable.register "codec.a" m OMX_ERRORTYPE.OMX_ErrorNone (Reachable.init boot) rfl

/-- Claim C1, as amended: in every state reachable from `RM_Init` by calls of
`RM_RegisterComponent`, `RM_getResource`, `RM_releaseResource` and
`RM_waitForResource`, the active list of every registered type whose
`max_components` is not negative holds at most `max_components` entries. -/
theorem C1_active_within_limit (s : RMState) (hs : Reachable s) (e : NameIndexType)
    (he : e ∈ s.listOfcomponentRegistered) (h0 : 0 ≤ e.max_components) :
    numElemInList (s.globalComponentList e.index) ≤ e.max_components :=
  (reachable_inv hs).capacity e he h0

/-- Witness of C1: the state after one admission to a type of limit 1. -/
theorem C1_active_within_limit_witness :
    Reachable (withActive (registeredState 1 0) 0 [⟨1, 10, 0⟩] 1) ∧
      numElemInList ((withActive (registeredState 1 0) 0 [⟨1, 10, 0⟩] 1).globalComponentList 0) ≤ 1 :=
  have hr : Reachable (withActive (registeredState 1 0) 0 [⟨1, 10, 0⟩] 1) :=
    Reachable.getResource
      (codecEnv scenarioPrio OMX_STATETYPE.OMX_StateIdle OMX_ERRORTYPE.OMX_ErrorNone) 1
      OMX_ERRORTYPE.OMX_ErrorNone [] (reachable_registeredState 1) rfl
  ⟨hr, C1_active_within_limit _ hr ⟨"codec.a", 0, 1⟩ (by simp [withActive, registeredState]) (by decide)⟩

/-- Counterexample to C1 as stated: after `RM_Init` and
`RM_RegisterComponent("codec.a", -1)` the type is registered with
`max_components = -1` and its active list, which is empty, holds more than
`max_components` entries. -/
theorem C1_counterexample :
    RM_RegisterComponent (RM_Init boot).2 "codec.a" (-1) =
        some (OMX_ERRORTYPE.OMX_ErrorNone, registeredState (-1) 0) ∧
      Reachable (registeredState (-1) 0) ∧
      (⟨"codec.a", 0, -1⟩ : NameIndexType) ∈ (registeredState (-1) 0).listOfcomponentRegistered ∧
      ¬ numElemInList ((registeredState (-1) 0).globalComponentList 0) ≤ -1 :=
  ⟨rfl, reachable_registeredState (-1), by simp [registeredState], by decide⟩

theorem scanRegistered_single (name : String) (m : Int) :
    scanRegistered [⟨name, 0, m⟩] name = some (some ⟨name, 0, m⟩) := by
  simp [scanRegistered]

/-- Claim C2: after `RM_Init` and `RM_RegisterComponent("codec.a", 1)`,
`RM_getResource` of handle `h1` (group priority 10) returns `OMX_ErrorNone` and
makes `h1` the only active entry; `RM_getResource` of `h2` (priority 20) returns
`OMX_ErrorInsufficientResources` and changes nothing; `RM_getResource` of `h3`
(priority 5), when the preemption of `h1` goes through, returns `OMX_ErrorNone`
and leaves `h3` as the only active entry of the type. -/
theorem C2_scenario (s0 : RMState) (env1 env2 env3 : Env) (h1 h2 h3 : Nat)
    (hn1 : (env1.priv h1).name = "codec.a") (hp1 : (env1.priv h1).nGroupPriority = 10)
    (hn2 : (env2.priv h2).name = "codec.a") (hp2 : (env2.priv h2).nGroupPriority = 20)
    (hn3 : (env3.priv h3).name = "codec.a") (hp3 : (env3.priv h3).nGroupPriority = 5)
    (hpre : (preemptComponent env3 h1).1 = OMX_ERRORTYPE.OMX_ErrorNone) :
    RM_RegisterComponent (RM_Init s0).2 "codec.a" 1 =
        some (OMX_ERRORTYPE.OMX_ErrorNone, registeredState 1 s0.globalTimestamp) ∧
      RM_getResource env1 (registeredState 1 s0.globalTimestamp) h1 =
        some (OMX_ERRORTYPE.OMX_ErrorNone,
          withActive (registeredState 1 s0.globalTimestamp) 0
            [⟨h1, 10, s0.globalTimestamp⟩] (s0.globalTimestamp + 1), []) ∧
      RM_getResource env2
          (withActive (registeredState 1 s0.globalTimestamp) 0
            [⟨h1, 10, s0.globalTimestamp⟩] (s0.globalTimestamp + 1)) h2 =
        some (OMX_ERRORTYPE.OMX_ErrorInsufficientResources,
          withActive (registeredState 1 s0.globalTimestamp) 0
            [⟨h1, 10, s0.globalTimestamp⟩] (s0.globalTimestamp + 1), []) ∧
      (withActive (registeredState 1 s0.globalTimestamp) 0
          [⟨h1, 10, s0.globalTimestamp⟩] (s0.globalTimestamp + 1)).globalComponentList 0 =
        [⟨h1, 10, s0.globalTimestamp⟩] ∧
      ∃ s3, RM_getResource env3
          (withActive (registeredState 1 s0.globalTimestamp) 0
            [⟨h1, 10, s0.globalTimestamp⟩] (s0.globalTimestamp + 1)) h3 =
          some (OMX_ERRORTYPE.OMX_ErrorNone, s3, (preemptComponent env3 h1).2) ∧
        s3.globalComponentList 0 = [⟨h3, 5, s0.globalTimestamp + 1⟩] := by
  refine ⟨rfl, ?_, ?_, rfl, ?_⟩
  · have hsc : scanRegistered (registeredState 1 s0.globalTimestamp).listOfcomponentRegistered
        (env1.priv h1).name = some (some ⟨"codec.a", 0, 1⟩) := by
      rw [hn1]; exact scanRegistered_single _ _
    rw [RM_getResource_registered _ _ _ _ hsc]
    simp [registeredState, numElemInList, withActive, hp1]
  · have hsc : scanRegistered (withActive (registeredState 1 s0.globalTimestamp) 0
          [⟨h1, 10, s0.globalTimestamp⟩] (s0.globalTimestamp + 1)).listOfcomponentRegistered
        (env2.priv h2).name = some (some ⟨"codec.a", 0, 1⟩) := by
      rw [hn2]; exact scanRegistered_single _ _
    rw [RM_getResource_registered _ _ _ _ hsc]
    simp [registeredState, numElemInList, withActive, hp2, setListAt, searchLowerPriority,
      searchLoop]
  · have hsc : scanRegistered (withActive (registeredState 1 s0.globalTimestamp) 0
          [⟨h1, 10, s0.globalTimestamp⟩] (s0.globalTimestamp + 1)).listOfcomponentRegistered
        (env3.priv h3).name = some (some ⟨"codec.a", 0, 1⟩) := by
      rw [hn3]; exact scanRegistered_single _ _
    rw [RM_getResource_registered _ _ _ _ hsc]
    simp [registeredState, numElemInList, withActive, hp3, setListAt, searchLowerPriority,
      searchLoop, hpre, removeElemFromList, removeLoop]

/-- Witness of C2: handles 1, 2 and 3, all Idle, with commands that succeed. -/
theorem C2_scenario_witness :
    ∃ s3, RM_getResource
        (codecEnv scenarioPrio OMX_STATETYPE.OMX_StateIdle OMX_ERRORTYPE.OMX_ErrorNone)
        (withActive (registeredState 1 0) 0 [⟨1, 10, 0⟩] 1) 3 =
        some (OMX_ERRORTYPE.OMX_ErrorNone, s3,
          [ExtCall.EventHandler 1 OMX_EVENTTYPE.OMX_EventError
              OMX_ERRORTYPE.OMX_ErrorResourcesLost 0,
            ExtCall.SendCommand 1 OMX_COMMANDTYPE.OMX_CommandStateSet
              OMX_STATETYPE.OMX_StateLoaded]) ∧
      s3.globalComponentList 0 = [⟨3, 5, 1⟩] :=
  (C2_scenario boot
    (codecEnv scenarioPrio OMX_STATETYPE.OMX_StateIdle OMX_ERRORTYPE.OMX_ErrorNone)
    (codecEnv scenarioPrio OMX_STATETYPE.OMX_StateIdle OMX_ERRORTYPE.OMX_ErrorNone)
    (codecEnv scenarioPrio OMX_STATETYPE.OMX_StateIdle OMX_ERRORTYPE.OMX_ErrorNone)
    1 2 3 rfl rfl rfl rfl rfl rfl rfl).2.2.2.2

theorem oldestQualifying_split (l : List ComponentListType) (p : Nat) (v : ComponentListType)
    (hs : TsSorted l) (hv : OldestQualifying l p v) :
    ∃ pre post, l = pre ++ v :: post ∧ (∀ x ∈ pre, ¬ x.nGroupPriority > p) ∧
      (∀ x ∈ pre, x.timestamp < v.timestamp) ∧ (∀ x ∈ post, v.timestamp < x.timestamp) := by
  obtain ⟨hvl, hvp, hmin⟩ := hv
  obtain ⟨pre, w, post, hsplit, hpre, hw⟩ := exists_first_qualifying l p ⟨v, hvl, hvp⟩
  have hs1 : TsSorted (pre ++ w :: post) := hsplit ▸ hs
  unfold TsSorted at hs1
  rw [List.pairwise_append] at hs1
  obtain ⟨-, hwpost, hcross⟩ := hs1
  rw [List.pairwise_cons] at hwpost
  have hwl : w ∈ l := by rw [hsplit]; simp
  have hvw : v = w := by
    have hvmem : v ∈ pre ++ w :: post := hsplit ▸ hvl
    rcases List.mem_append.mp hvmem with hin | hin
    · exact absurd hvp (hpre v hin)
    · rcases List.mem_cons.mp hin with heq | hin
      · exact heq
      · have h1 := hwpost.1 v hin
        have h2 := hmin w hwl hw
        omega
  subst hvw
  exact ⟨pre, post, hsplit, hpre, fun x hx => hcross x hx v (by simp), hwpost.1⟩

theorem exists_oldestQualifying (l : List ComponentListType) (p : Nat) (hs : TsSorted l)
    (hq : ∃ x ∈ l, x.nGroupPriority > p) : ∃ v, OldestQualifying l p v := by
  obtain ⟨pre, w, post, hsplit, hpre, hw⟩ := exists_first_qualifying l p hq
  have hs1 : TsSorted (pre ++ w :: post) := hsplit ▸ hs
  unfold TsSorted at hs1
  rw [List.pairwise_append] at hs1
  obtain ⟨-, hwpost, -⟩ := hs1
  rw [List.pairwise_cons] at hwpost
  refine ⟨w, by rw [hsplit]; simp, hw, ?_⟩
  intro x hx hxp
  rw [hsplit] at hx
  rcases List.mem_append.mp hx with hin | hin
  · exact absurd hxp (hpre x hin)
  · rcases List.mem_cons.mp hin with heq | hin
    · rw [heq]
    · exact le_of_lt (hwpost.1 x hin)

theorem searchLowerPriority_oldest (l : List ComponentListType) (p : Nat)
    (v : ComponentListType) (hs : TsSorted l) (hv : OldestQualifying l p v) :
    (searchLowerPriority l p).1 ≠ 0 ∧ (searchLowerPriority l p).2 = some v := by
  obtain ⟨pre, post, hsplit, hpre, -, hpost⟩ := oldestQualifying_split l p v hs hv
  have hne : l ≠ [] := by rw [hsplit]; simp
  constructor
  · rw [searchLowerPriority_fst_of_ne_nil l p hne]
    have hmem : v ∈ qualifying l p := by
      simp only [qualifying, List.mem_filter, decide_eq_true_eq]
      exact ⟨hv.1, hv.2.1⟩
    have : 0 < (qualifying l p).length := List.length_pos_of_mem hmem
    omega
  · cases hl : l with
    | nil => exact absurd hl hne
    | cons c rest =>
      simp only [searchLowerPriority]
      rw [← hl, hsplit]
      exact searchLoop_first pre post v p hpre hv.2.1 (fun x hx => le_of_lt (hpost x hx))

theorem erase_split (pre post : List ComponentListType) (v : ComponentListType)
    (hv : v ∉ pre) : (pre ++ v :: post).erase v = pre ++ post := by
  rw [List.erase_append_right _ hv, List.erase_cons_head]

/-- Claim C3, as amended: in every reachable state, when `RM_getResource` is
called for a registered type whose active list is full and at least one active
entry has a group priority greater than the requester's, there is an entry `v`
with the smallest timestamp among those entries; if the preemption of `v`
succeeds and no entry of the list older than `v` carries the handle of `v`, the
call returns `OMX_ErrorNone`, removes exactly `v`, keeps the other entries in
their order and appends the requester with the current counter value as its
timestamp, a value greater than every timestamp in the list; the counter is
incremented. -/
theorem C3_preempt_oldest (s : RMState) (hs : Reachable s) (env : Env) (h : Nat)
    (e : NameIndexType)
    (hreg : scanRegistered s.listOfcomponentRegistered (env.priv h).name = some (some e))
    (hfull : numElemInList (s.globalComponentList e.index) ≥ e.max_components)
    (hq : ∃ x ∈ s.globalComponentList e.index, x.nGroupPriority > (env.priv h).nGroupPriority) :
    ∃ v, OldestQualifying (s.globalComponentList e.index) (env.priv h).nGroupPriority v ∧
      (∀ x ∈ s.globalComponentList e.index, x.timestamp < s.globalTimestamp) ∧
      ((preemptComponent env v.openmaxStandComp).1 = OMX_ERRORTYPE.OMX_ErrorNone →
        (∀ x ∈ s.globalComponentList e.index,
          x.openmaxStandComp = v.openmaxStandComp → v.timestamp ≤ x.timestamp) →
        RM_getResource env s h =
          some (OMX_ERRORTYPE.OMX_ErrorNone,
            withActive s e.index
              ((s.globalComponentList e.index).erase v ++
                [⟨h, (env.priv h).nGroupPriority, s.globalTimestamp⟩])
              (s.globalTimestamp + 1),
            (preemptComponent env v.openmaxStandComp).2)) := by
  have hI := reachable_inv hs
  obtain ⟨he, -, -⟩ := scanRegistered_found _ _ _ hreg
  have hsort := hI.sortedA e.index
  obtain ⟨v, hv⟩ := exists_oldestQualifying _ _ hsort hq
  refine ⟨v, hv, hI.boundA e.index, ?_⟩
  intro hpre hfirst
  obtain ⟨pre, post, hsplit, hprio, hts, -⟩ := oldestQualifying_split _ _ v hsort hv
  obtain ⟨hcnt, hcand⟩ := searchLowerPriority_oldest _ _ v hsort hv
  have hidx : ¬ e.index < 0 := by
    have := (hI.index_range he).1
    omega
  have hhandle : ∀ x ∈ pre, x.openmaxStandComp ≠ v.openmaxStandComp := by
    intro x hx heq
    have h1 := hfirst x (by rw [hsplit]; simp [hx]) heq
    have h2 := hts x hx
    omega
  have hvpre : v ∉ pre := fun hin => absurd hv.2.1 (hprio v hin)
  have hrem : (removeElemFromList (s.globalComponentList e.index) v.openmaxStandComp).2 =
      (s.globalComponentList e.index).erase v := by
    rw [hsplit, removeElemFromList_of_loop _ _ _ (removeLoop_split pre post v hhandle),
      erase_split pre post v hvpre]
  rw [RM_getResource_registered env s h e hreg]
  simp only [hidx, if_false, hfull, if_true, hcnt, ne_eq, not_false_eq_true, hcand, hpre,
    not_true_eq_false, hrem]
  rfl

theorem reachable_runCalls (calls : List RMCall) (s s1 : RMState) (hs : Reachable s)
    (hrun : runCalls s calls = some s1) : Reachable s1 := by
  induction calls generalizing s with
  | nil =>
    simp only [runCalls, Option.some.injEq] at hrun
    exact hrun ▸ hs
  | cons c cs ih =>
    simp only [runCalls] at hrun
    cases hc : c.run s with
    | none => rw [hc] at hrun; simp at hrun
    | some s2 =>
      rw [hc] at hrun
      have hrun1 : runCalls s2 cs = some s1 := hrun
      refine ih s2 ?_ hrun1
      cases c with
      | register name m =>
        cases hr : RM_RegisterComponent s name m with
        | none => simp [RMCall.run, hr] at hc
        | some r =>
          have hs2 : r.2 = s2 := by simpa [RMCall.run, hr] using hc
          exact hs2 ▸ Reachable.register name m r.1 hs hr
      | getResource env h =>
        cases hr : RM_getResource env s h with
        | none => simp [RMCall.run, hr] at hc
        | some r =>
          have hs2 : r.2.1 = s2 := by simpa [RMCall.run, hr] using hc
          exact hs2 ▸ Reachable.getResource env h r.1 r.2.2 hs hr
      | releaseResource env h =>
        cases hr : RM_releaseResource env s h with
        | none => simp [RMCall.run, hr] at hc
        | some r =>
          have hs2 : r.2.1 = s2 := by simpa [RMCall.run, hr] using hc
          exact hs2 ▸ Reachable.releaseResource env h r.1 r.2.2 hs hr
      | waitForResource env h =>
        cases hr : RM_waitForResource env s h with
        | none => simp [RMCall.run, hr] at hc
        | some r =>
          have hs2 : r.2.1 = s2 := by simpa [RMCall.run, hr] using hc
          exact hs2 ▸ Reachable.waitForResource env h r.1 r.2.2 hs hr

theorem reachable_fiveNine : Reachable fiveNine :=
  reachable_runCalls fiveNineCalls (RM_Init boot).2 fiveNine (Reachable.init boot) rfl

/-- Witness of C3: the active list of "codec.a" (limit 2) holds handle 1 with
timestamp 5 and handle 2 with timestamp 9, both of priority 10; a requester of
priority 5 evicts the entry of timestamp 5. -/
theorem C3_preempt_oldest_witness :
    Reachable fiveNine ∧
      fiveNine.globalComponentList 0 = [⟨1, 10, 5⟩, ⟨2, 10, 9⟩] ∧
      RM_getResource
          (codecEnv (fun _ => 5) OMX_STATETYPE.OMX_StateIdle OMX_ERRORTYPE.OMX_ErrorNone)
          fiveNine 3 =
        some (OMX_ERRORTYPE.OMX_ErrorNone,
          withActive fiveNine 0 [⟨2, 10, 9⟩, ⟨3, 5, 10⟩] 11,
          [ExtCall.EventHandler 1 OMX_EVENTTYPE.OMX_EventError
              OMX_ERRORTYPE.OMX_ErrorResourcesLost 0,
            ExtCall.SendCommand 1 OMX_COMMANDTYPE.OMX_CommandStateSet
              OMX_STATETYPE.OMX_StateLoaded]) := by
  refine ⟨reachable_fiveNine, rfl, ?_⟩
  obtain ⟨v, hv, -, hres⟩ := C3_preempt_oldest fiveNine reachable_fiveNine
    (codecEnv (fun _ => 5) OMX_STATETYPE.OMX_StateIdle OMX_ERRORTYPE.OMX_ErrorNone) 3
    ⟨"codec.a", 0, 2⟩ (by decide) (by decide) ⟨⟨1, 10, 5⟩, by decide⟩
  have hL : fiveNine.globalComponentList 0 = [⟨1, 10, 5⟩, ⟨2, 10, 9⟩] := rfl
  have hv1 : v = ⟨1, 10, 5⟩ := by
    obtain ⟨hmem, -, hmin⟩ := hv
    have hmem1 : v ∈ fiveNine.globalComponentList 0 := hmem
    rw [hL] at hmem1
    simp only [List.mem_cons, List.mem_singleton, List.not_mem_nil, or_false] at hmem1
    rcases hmem1 with h1 | h2
    · exact h1
    · exfalso
      have := hmin ⟨1, 10, 5⟩ (by decide) (by decide)
      rw [h2] at this
      exact absurd this (by decide)
  subst hv1
  exact hres (by decide) (by decide)

theorem reachable_twiceAdmitted : Reachable twiceAdmitted :=
  Reachable.getResource
    (codecEnv (fun _ => 20) OMX_STATETYPE.OMX_StateIdle OMX_ERRORTYPE.OMX_ErrorNone) 1
    OMX_ERRORTYPE.OMX_ErrorNone []
    (Reachable.getResource
      (codecEnv (fun _ => 1) OMX_STATETYPE.OMX_StateIdle OMX_ERRORTYPE.OMX_ErrorNone) 1
      OMX_ERRORTYPE.OMX_ErrorNone [] (reachable_registeredState 2) rfl) rfl

/-- Counterexample to C3 as stated: in the reachable state `twiceAdmitted` the
active list of "codec.a" (limit 2) is full, with entries of timestamps 0
(priority 1) and 1 (priority 20) that both carry handle 1. For a requester of
priority 5 the only entry of greater priority, hence the one with the smallest
timestamp among them, is the entry of timestamp 1, and its preemption succeeds.
`RM_getResource` returns `OMX_ErrorNone` but removes the entry of timestamp 0
and keeps the entry of timestamp 1. -/
theorem C3_counterexample :
    Reachable twiceAdmitted ∧
      scanRegistered twiceAdmitted.listOfcomponentRegistered
        ((codecEnv (fun _ => 5) OMX_STATETYPE.OMX_StateIdle
          OMX_ERRORTYPE.OMX_ErrorNone).priv 2).name = some (some ⟨"codec.a", 0, 2⟩) ∧
      twiceAdmitted.globalComponentList 0 = [⟨1, 1, 0⟩, ⟨1, 20, 1⟩] ∧
      numElemInList (twiceAdmitted.globalComponentList 0) ≥ 2 ∧
      OldestQualifying (twiceAdmitted.globalComponentList 0) 5 ⟨1, 20, 1⟩ ∧
      (preemptComponent
        (codecEnv (fun _ => 5) OMX_STATETYPE.OMX_StateIdle OMX_ERRORTYPE.OMX_ErrorNone) 1).1 =
        OMX_ERRORTYPE.OMX_ErrorNone ∧
      RM_getResource
          (codecEnv (fun _ => 5) OMX_STATETYPE.OMX_StateIdle OMX_ERRORTYPE.OMX_ErrorNone)
          twiceAdmitted 2 =
        some (OMX_ERRORTYPE.OMX_ErrorNone,
          withActive twiceAdmitted 0 [⟨1, 20, 1⟩, ⟨2, 5, 2⟩] 3,
          [ExtCall.EventHandler 1 OMX_EVENTTYPE.OMX_EventError
              OMX_ERRORTYPE.OMX_ErrorResourcesLost 0,
            ExtCall.SendCommand 1 OMX_COMMANDTYPE.OMX_CommandStateSet
              OMX_STATETYPE.OMX_StateLoaded]) ∧
      (withActive twiceAdmitted 0 [⟨1, 20, 1⟩, ⟨2, 5, 2⟩] 3).globalComponentList 0 ≠
        (twiceAdmitted.globalComponentList 0).erase ⟨1, 20, 1⟩ ++ [⟨2, 5, 2⟩] :=
  ⟨reachable_twiceAdmitted, by decide, by decide, by decide, by decide, by decide, rfl,
    by decide⟩

theorem RM_getResource_no_candidate (env : Env) (s : RMState) (h : Nat) (e : NameIndexType)
    (hreg : scanRegistered s.listOfcomponentRegistered (env.priv h).name = some (some e))
    (hidx : 0 ≤ e.index)
    (hfull : numElemInList (s.globalComponentList e.index) ≥ e.max_components)
    (hne : s.globalComponentList e.index ≠ [])
    (hnone : ∀ x ∈ s.globalComponentList e.index,
      ¬ x.nGroupPriority > (env.priv h).nGroupPriority) :
    RM_getResource env s h = some (OMX_ERRORTYPE.OMX_ErrorInsufficientResources, s, []) := by
  have hidx1 : ¬ e.index < 0 := by omega
  have hq : qualifying (s.globalComponentList e.index) (env.priv h).nGroupPriority = [] := by
    simp only [qualifying, List.filter_eq_nil_iff, decide_eq_true_eq]
    exact hnone
  have hcnt : (searchLowerPriority (s.globalComponentList e.index)
      (env.priv h).nGroupPriority).1 = 0 := by
    rw [searchLowerPriority_fst_of_ne_nil _ _ hne, hq]
    rfl
  rw [RM_getResource_registered env s h e hreg]
  simp [hidx1, hfull, hcnt]

theorem RM_getResource_preempt_failed (env : Env) (s : RMState) (h : Nat) (e : NameIndexType)
    (v : ComponentListType)
    (hreg : scanRegistered s.listOfcomponentRegistered (env.priv h).name = some (some e))
    (hidx : 0 ≤ e.index)
    (hfull : numElemInList (s.globalComponentList e.index) ≥ e.max_components)
    (hsort : TsSorted (s.globalComponentList e.index))
    (hv : OldestQualifying (s.globalComponentList e.index) (env.priv h).nGroupPriority v)
    (hfail : (preemptComponent env v.openmaxStandComp).1 ≠ OMX_ERRORTYPE.OMX_ErrorNone) :
    RM_getResource env s h =
      some (OMX_ERRORTYPE.OMX_ErrorInsufficientResources, s,
        (preemptComponent env v.openmaxStandComp).2) := by
  have hidx1 : ¬ e.index < 0 := by omega
  obtain ⟨hcnt, hcand⟩ := searchLowerPriority_oldest _ _ v hsort hv
  rw [RM_getResource_registered env s h e hreg]
  simp [hidx1, hfull, hcnt, hcand, hfail]

/-- Claim C4, at the failing input: a type registered with `max_components = 0`
has an empty active list, which already holds `max_components` entries and has
no entry of greater priority. `searchLowerPriority` returns the non-zero code of
`OMX_ErrorUndefined` for the `NULL` list without assigning the candidate, and
`RM_getResource` then reads through the unassigned candidate pointer: the call
has no defined result, where the claim promises
`OMX_ErrorInsufficientResources`. -/
theorem C4_zero_limit_undefined :
    RM_RegisterComponent (RM_Init boot).2 "codec.a" 0 =
        some (OMX_ERRORTYPE.OMX_ErrorNone, registeredState 0 0) ∧
      (registeredState 0 0).globalComponentList 0 = [] ∧
      numElemInList ((registeredState 0 0).globalComponentList 0) ≥ 0 ∧
      searchLowerPriority ((registeredState 0 0).globalComponentList 0) 5 =
        (OMX_ErrorUndefined_value, none) ∧
      OMX_ErrorUndefined_value ≠ 0 ∧
      RM_getResource
        (codecEnv scenarioPrio OMX_STATETYPE.OMX_StateIdle OMX_ERRORTYPE.OMX_ErrorNone)
        (registeredState 0 0) 3 = none :=
  ⟨rfl, rfl, by decide, rfl, by decide, rfl⟩

theorem RM_getResource_room (env : Env) (s : RMState) (h : Nat) (e : NameIndexType)
    (hreg : scanRegistered s.listOfcomponentRegistered (env.priv h).name = some (some e))
    (hidx : 0 ≤ e.index)
    (hroom : numElemInList (s.globalComponentList e.index) < e.max_components) :
    RM_getResource env s h =
      some (OMX_ERRORTYPE.OMX_ErrorNone,
        withActive s e.index
          (s.globalComponentList e.index ++
            [⟨h, (env.priv h).nGroupPriority, s.globalTimestamp⟩])
          (s.globalTimestamp + 1), []) := by
  have hidx1 : ¬ e.index < 0 := by omega
  have hnot : ¬ numElemInList (s.globalComponentList e.index) ≥ e.max_components := by omega
  rw [RM_getResource_registered env s h e hreg]
  simp only [hidx1, if_false, hnot]
  rfl

/-- Claim C5: in every reachable state, for a handle of a registered type whose
active list holds fewer than `max_components` entries, `RM_getResource` returns
`OMX_ErrorNone`, makes no call into a component, appends to the active list one
entry with the handle, its group priority and the current value of
`globalTimestamp`, and increments `globalTimestamp` by one; nothing else
changes. -/
theorem C5_admit_when_room (s : RMState) (hs : Reachable s) (env : Env) (h : Nat)
    (e : NameIndexType)
    (hreg : scanRegistered s.listOfcomponentRegistered (env.priv h).name = some (some e))
    (hroom : numElemInList (s.globalComponentList e.index) < e.max_components) :
    RM_getResource env s h =
      some (OMX_ERRORTYPE.OMX_ErrorNone,
        withActive s e.index
          (s.globalComponentList e.index ++
            [⟨h, (env.priv h).nGroupPriority, s.globalTimestamp⟩])
          (s.globalTimestamp + 1), []) := by
  obtain ⟨he, -, -⟩ := scanRegistered_found _ _ _ hreg
  exact RM_getResource_room env s h e hreg ((reachable_inv hs).index_range he).1 hroom

/-- Witness of C5: the first admission to a type of limit 1. -/
theorem C5_admit_when_room_witness :
    RM_getResource
        (codecEnv scenarioPrio OMX_STATETYPE.OMX_StateIdle OMX_ERRORTYPE.OMX_ErrorNone)
        (registeredState 1 0) 1 =
      some (OMX_ERRORTYPE.OMX_ErrorNone,
        withActive (registeredState 1 0) 0 ([] ++ [⟨1, 10, 0⟩]) (0 + 1), []) :=
  C5_admit_when_room (registeredState 1 0) (reachable_registeredState 1)
    (codecEnv scenarioPrio OMX_STATETYPE.OMX_StateIdle OMX_ERRORTYPE.OMX_ErrorNone) 1
    ⟨"codec.a", 0, 1⟩ (scanRegistered_single _ _) (by decide)

theorem removeLoop_eq_eraseP (l : List ComponentListType) (h : Nat)
    (hm : ∃ x ∈ l, x.openmaxStandComp = h) :
    removeLoop l h = some (l.eraseP (fun x => decide (x.openmaxStandComp = h))) := by
  induction l with
  | nil => simp at hm
  | cons c rest ih =>
    by_cases hc : c.openmaxStandComp = h
    · simp [removeLoop, hc]
    · have hm1 : ∃ x ∈ rest, x.openmaxStandComp = h := by
        obtain ⟨x, hx, hxh⟩ := hm
        rcases List.mem_cons.mp hx with rfl | hx
        · exact absurd hxh hc
        · exact ⟨x, hx, hxh⟩
      simp [removeLoop, hc, ih hm1, List.eraseP_cons]

theorem removeLoop_handles_perm (l l1 : List ComponentListType) (h : Nat)
    (hr : removeLoop l h = some l1) :
    (l.map (fun x => x.openmaxStandComp)).Perm (h :: l1.map (fun x => x.openmaxStandComp)) := by
  obtain ⟨pre, v, post, rfl, hv, -, rfl⟩ := removeLoop_some_split l l1 h hr
  simp only [List.map_append, List.map_cons, hv]
  exact List.perm_middle

/-- Claim C6, as amended: in every reachable state, for a handle of a
registered type whose active list holds fewer than `max_components` entries (so
that the handle is admitted without a preemption), `RM_getResource` followed
immediately by `RM_releaseResource` on the same handle both return
`OMX_ErrorNone` and leave the active list of the type with the same number of
entries and the same member handles, with their multiplicities, as before the
`RM_getResource` call. -/
theorem C6_admit_release_roundtrip (s : RMState) (hs : Reachable s) (env : Env) (h : Nat)
    (e : NameIndexType)
    (hreg : scanRegistered s.listOfcomponentRegistered (env.priv h).name = some (some e))
    (hroom : numElemInList (s.globalComponentList e.index) < e.max_components) :
    ∃ s1 s2 calls,
      RM_getResource env s h = some (OMX_ERRORTYPE.OMX_ErrorNone, s1, []) ∧
      RM_releaseResource env s1 h = some (OMX_ERRORTYPE.OMX_ErrorNone, s2, calls) ∧
      (s2.globalComponentList e.index).length = (s.globalComponentList e.index).length ∧
      ((s2.globalComponentList e.index).map (fun x => x.openmaxStandComp)).Perm
        ((s.globalComponentList e.index).map (fun x => x.openmaxStandComp)) := by
  obtain ⟨he, -, -⟩ := scanRegistered_found _ _ _ hreg
  have hidx := ((reachable_inv hs).index_range he).1
  have hget := RM_getResource_room env s h e hreg hidx hroom
  have hmem : ∃ x ∈ s.globalComponentList e.index ++
      [(⟨h, (env.priv h).nGroupPriority, s.globalTimestamp⟩ : ComponentListType)],
      x.openmaxStandComp = h :=
    ⟨⟨h, (env.priv h).nGroupPriority, s.globalTimestamp⟩, by simp, rfl⟩
  obtain ⟨l1, hl1⟩ := removeLoop_isSome_of_mem _ h hmem
  have hlen := removeLoop_length _ _ _ hl1
  have hperm := removeLoop_handles_perm _ _ _ hl1
  have hperm1 : (l1.map (fun x => x.openmaxStandComp)).Perm
      ((s.globalComponentList e.index).map (fun x => x.openmaxStandComp)) := by
    simp only [List.map_append, List.map_cons, List.map_nil] at hperm
    have h2 : (h :: (s.globalComponentList e.index).map (fun x => x.openmaxStandComp)).Perm
        (h :: l1.map (fun x => x.openmaxStandComp)) :=
      (List.perm_append_singleton h _).symm.trans hperm
    exact (List.Perm.cons_inv h2).symm
  have hlen1 : l1.length = (s.globalComponentList e.index).length := by
    simp only [List.length_append, List.length_singleton] at hlen
    omega
  have hreg1 : scanRegistered
      (withActive s e.index
        (s.globalComponentList e.index ++
          [⟨h, (env.priv h).nGroupPriority, s.globalTimestamp⟩])
        (s.globalTimestamp + 1)).listOfcomponentRegistered (env.priv h).name =
      some (some e) := hreg
  have hact1 : (withActive s e.index
        (s.globalComponentList e.index ++
          [⟨h, (env.priv h).nGroupPriority, s.globalTimestamp⟩])
        (s.globalTimestamp + 1)).globalComponentList e.index =
      s.globalComponentList e.index ++
        [⟨h, (env.priv h).nGroupPriority, s.globalTimestamp⟩] := setListAt_same _ _ _
  rw [← hact1] at hl1
  cases hw : (withActive s e.index
        (s.globalComponentList e.index ++
          [⟨h, (env.priv h).nGroupPriority, s.globalTimestamp⟩])
        (s.globalTimestamp + 1)).globalWaitingComponentList e.index with
  | nil =>
    refine ⟨_, _, _, hget,
      RM_releaseResource_present_nowaiter env _ h e l1 hreg1 hidx hl1 hw, ?_, ?_⟩
    · show (setListAt _ e.index l1 e.index).length = _
      rw [setListAt_same]
      exact hlen1
    · show ((setListAt _ e.index l1 e.index).map _).Perm _
      rw [setListAt_same]
      exact hperm1
  | cons w ws =>
    refine ⟨_, _, _, hget,
      RM_releaseResource_present_waiter env _ h e l1 w ws hreg1 hidx hl1 hw, ?_, ?_⟩
    · show (setListAt _ e.index l1 e.index).length = _
      rw [setListAt_same]
      exact hlen1
    · show ((setListAt _ e.index l1 e.index).map _).Perm _
      rw [setListAt_same]
      exact hperm1

/-- Witness of C6: admission to and release from an empty list of limit 1. -/
theorem C6_admit_release_roundtrip_witness :
    ∃ s1 s2 calls,
      RM_getResource
          (codecEnv scenarioPrio OMX_STATETYPE.OMX_StateIdle OMX_ERRORTYPE.OMX_ErrorNone)
          (registeredState 1 0) 1 = some (OMX_ERRORTYPE.OMX_ErrorNone, s1, []) ∧
      RM_releaseResource
          (codecEnv scenarioPrio OMX_STATETYPE.OMX_StateIdle OMX_ERRORTYPE.OMX_ErrorNone)
          s1 1 = some (OMX_ERRORTYPE.OMX_ErrorNone, s2, calls) ∧
      (s2.globalComponentList 0).length = ((registeredState 1 0).globalComponentList 0).length ∧
      ((s2.globalComponentList 0).map (fun x => x.openmaxStandComp)).Perm
        (((registeredState 1 0).globalComponentList 0).map (fun x => x.openmaxStandComp)) :=
  C6_admit_release_roundtrip (registeredState 1 0) (reachable_registeredState 1)
    (codecEnv scenarioPrio OMX_STATETYPE.OMX_StateIdle OMX_ERRORTYPE.OMX_ErrorNone) 1
    ⟨"codec.a", 0, 1⟩ (scanRegistered_single _ _) (by decide)

/-- Counterexample to C6 as stated: with handle 1 (priority 10) the only active
entry of a type of limit 1, `RM_getResource` of handle 3 (priority 5) succeeds
by preempting handle 1, and the `RM_releaseResource` of handle 3 that follows
leaves the active list empty: it had one entry, handle 1, before the pair of
calls. -/
theorem C6_counterexample :
    Reachable (withActive (registeredState 1 0) 0 [⟨1, 10, 0⟩] 1) ∧
      (withActive (registeredState 1 0) 0 [⟨1, 10, 0⟩] 1).globalComponentList 0 =
        [⟨1, 10, 0⟩] ∧
      RM_getResource
          (codecEnv scenarioPrio OMX_STATETYPE.OMX_StateIdle OMX_ERRORTYPE.OMX_ErrorNone)
          (withActive (registeredState 1 0) 0 [⟨1, 10, 0⟩] 1) 3 =
        some (OMX_ERRORTYPE.OMX_ErrorNone,
          withActive (withActive (registeredState 1 0) 0 [⟨1, 10, 0⟩] 1) 0 [⟨3, 5, 1⟩] 2,
          [ExtCall.EventHandler 1 OMX_EVENTTYPE.OMX_EventError
              OMX_ERRORTYPE.OMX_ErrorResourcesLost 0,
            ExtCall.SendCommand 1 OMX_COMMANDTYPE.OMX_CommandStateSet
              OMX_STATETYPE.OMX_StateLoaded]) ∧
      RM_releaseResource
          (codecEnv scenarioPrio OMX_STATETYPE.OMX_StateIdle OMX_ERRORTYPE.OMX_ErrorNone)
          (withActive (withActive (registeredState 1 0) 0 [⟨1, 10, 0⟩] 1) 0 [⟨3, 5, 1⟩] 2) 3 =
        some (OMX_ERRORTYPE.OMX_ErrorNone,
          withActive (withActive (withActive (registeredState 1 0) 0 [⟨1, 10, 0⟩] 1) 0
            [⟨3, 5, 1⟩] 2) 0 [] 2, []) ∧
      (withActive (withActive (withActive (registeredState 1 0) 0 [⟨1, 10, 0⟩] 1) 0
        [⟨3, 5, 1⟩] 2) 0 [] 2).globalComponentList 0 = [] ∧
      ((withActive (withActive (withActive (registeredState 1 0) 0 [⟨1, 10, 0⟩] 1) 0
        [⟨3, 5, 1⟩] 2) 0 [] 2).globalComponentList 0).length ≠
        ((withActive (registeredState 1 0) 0 [⟨1, 10, 0⟩] 1).globalComponentList 0).length :=
  ⟨Reachable.getResource
      (codecEnv scenarioPrio OMX_STATETYPE.OMX_StateIdle OMX_ERRORTYPE.OMX_ErrorNone) 1
      OMX_ERRORTYPE.OMX_ErrorNone [] (reachable_registeredState 1) rfl,
    rfl, rfl, rfl, rfl, by decide⟩

/-- Claim C7, as amended: in every reachable state, for a handle of a
registered type that is not present in the active list of the type (the list
may be empty), `RM_releaseResource` returns `OMX_ErrorUndefined`, makes no call
into a component and changes nothing. -/
theorem C7_release_absent (s : RMState) (hs : Reachable s) (env : Env) (h : Nat)
    (e : NameIndexType)
    (hreg : scanRegistered s.listOfcomponentRegistered (env.priv h).name = some (some e))
    (habs : ∀ x ∈ s.globalComponentList e.index, x.openmaxStandComp ≠ h) :
    RM_releaseResource env s h = some (OMX_ERRORTYPE.OMX_ErrorUndefined, s, []) := by
  obtain ⟨he, -, -⟩ := scanRegistered_found _ _ _ hreg
  exact RM_releaseResource_absent env s h e hreg ((reachable_inv hs).index_range he).1 habs

/-- Witness of C7: handle 2 is released while handle 1 is the only active
entry. -/
theorem C7_release_absent_witness :
    RM_releaseResource
        (codecEnv scenarioPrio OMX_STATETYPE.OMX_StateIdle OMX_ERRORTYPE.OMX_ErrorNone)
        (withActive (registeredState 1 0) 0 [⟨1, 10, 0⟩] 1) 2 =
      some (OMX_ERRORTYPE.OMX_ErrorUndefined,
        withActive (registeredState 1 0) 0 [⟨1, 10, 0⟩] 1, []) :=
  C7_release_absent _
    (Reachable.getResource
      (codecEnv scenarioPrio OMX_STATETYPE.OMX_StateIdle OMX_ERRORTYPE.OMX_ErrorNone) 1
      OMX_ERRORTYPE.OMX_ErrorNone [] (reachable_registeredState 1) rfl)
    (codecEnv scenarioPrio OMX_STATETYPE.OMX_StateIdle OMX_ERRORTYPE.OMX_ErrorNone) 2
    ⟨"codec.a", 0, 1⟩ (scanRegistered_single _ _) (by decide)

/-- Counterexample to C7 as stated: releasing handle 2 when the active list of
its type is empty, and when the list holds handle 1 only, returns
`OMX_ErrorUndefined` in both cases; the code of the not-found kind,
`OMX_ErrorComponentNotFound`, which `removeElemFromList` reports in the second
case, is not what `RM_releaseResource` returns. -/
theorem C7_counterexample :
    (∃ s1 calls, RM_releaseResource
        (codecEnv scenarioPrio OMX_STATETYPE.OMX_StateIdle OMX_ERRORTYPE.OMX_ErrorNone)
        (registeredState 1 0) 2 = some (OMX_ERRORTYPE.OMX_ErrorUndefined, s1, calls)) ∧
      removeElemFromList [⟨1, 10, 0⟩] 2 =
        (OMX_ERRORTYPE.OMX_ErrorComponentNotFound, [⟨1, 10, 0⟩]) ∧
      (∃ s1 calls, RM_releaseResource
        (codecEnv scenarioPrio OMX_STATETYPE.OMX_StateIdle OMX_ERRORTYPE.OMX_ErrorNone)
        (withActive (registeredState 1 0) 0 [⟨1, 10, 0⟩] 1) 2 =
          some (OMX_ERRORTYPE.OMX_ErrorUndefined, s1, calls)) ∧
      OMX_ERRORTYPE.OMX_ErrorUndefined ≠ OMX_ERRORTYPE.OMX_ErrorComponentNotFound :=
  ⟨⟨_, _, rfl⟩, by decide, ⟨_, _, rfl⟩, by decide⟩

/-- Claim C8: in every reachable state, for a handle present in the active
list of its registered type, when the waiting list of the type is `w :: ws`,
`RM_releaseResource` returns `OMX_ErrorNone` whatever `OMX_SendCommand` returns,
removes the first active entry of the handle and adds nothing to the active
list, removes the head `w` of the waiting list and keeps `ws` in order, and its
only call into a component is the command `SetState(Idle)` to the handle of
`w`; `w` is the waiter enqueued earliest: its timestamp is smaller than that of
every other waiter, and `RM_waitForResource` enqueues at the tail. -/
theorem C8_release_promotes_head (s : RMState) (hs : Reachable s) (env : Env) (h : Nat)
    (e : NameIndexType) (w : ComponentListType) (ws : List ComponentListType)
    (hreg : scanRegistered s.listOfcomponentRegistered (env.priv h).name = some (some e))
    (hmem : ∃ x ∈ s.globalComponentList e.index, x.openmaxStandComp = h)
    (hw : s.globalWaitingComponentList e.index = w :: ws) :
    RM_releaseResource env s h =
        some (OMX_ERRORTYPE.OMX_ErrorNone,
          { s with
            globalComponentList := setListAt s.globalComponentList e.index
              ((s.globalComponentList e.index).eraseP
                (fun x => decide (x.openmaxStandComp = h)))
            globalWaitingComponentList := setListAt s.globalWaitingComponentList e.index ws },
          [ExtCall.SendCommand w.openmaxStandComp OMX_COMMANDTYPE.OMX_CommandStateSet
            OMX_STATETYPE.OMX_StateIdle]) ∧
      (∀ x ∈ ws, w.timestamp < x.timestamp) ∧
      ∀ (env2 : Env) (h2 : Nat),
        scanRegistered s.listOfcomponentRegistered (env2.priv h2).name = some (some e) →
        RM_waitForResource env2 s h2 =
          some (OMX_ERRORTYPE.OMX_ErrorNone,
            withWaiting s e.index
              (w :: ws ++ [⟨h2, (env2.priv h2).nGroupPriority, s.globalTimestamp⟩])
              (s.globalTimestamp + 1), []) := by
  have hI := reachable_inv hs
  obtain ⟨he, -, -⟩ := scanRegistered_found _ _ _ hreg
  have hidx := (hI.index_range he).1
  refine ⟨?_, ?_, ?_⟩
  · exact RM_releaseResource_present_waiter env s h e _ w ws hreg hidx
      (removeLoop_eq_eraseP _ h hmem) hw
  · have hsW := hI.sortedW e.index
    rw [hw] at hsW
    unfold TsSorted at hsW
    rw [List.pairwise_cons] at hsW
    exact hsW.1
  · intro env2 h2 hreg2
    rw [RM_waitForResource_registered env2 s h2 e hreg2 hidx, hw]
    rfl

theorem reachable_twoWaiters : Reachable twoWaiters :=
  Reachable.waitForResource
    (codecEnv scenarioPrio OMX_STATETYPE.OMX_StateIdle OMX_ERRORTYPE.OMX_ErrorNone) 8
    OMX_ERRORTYPE.OMX_ErrorNone []
    (Reachable.waitForResource
      (codecEnv scenarioPrio OMX_STATETYPE.OMX_StateIdle OMX_ERRORTYPE.OMX_ErrorNone) 7
      OMX_ERRORTYPE.OMX_ErrorNone []
      (Reachable.getResource
        (codecEnv scenarioPrio OMX_STATETYPE.OMX_StateIdle OMX_ERRORTYPE.OMX_ErrorNone) 1
        OMX_ERRORTYPE.OMX_ErrorNone [] (reachable_registeredState 1) rfl) rfl) rfl

/-- Witness of C8: handle 1 is released while handles 7 and 8 wait, and the
command sent to handle 7 fails. -/
theorem C8_release_promotes_head_witness :
    RM_releaseResource
        (codecEnv scenarioPrio OMX_STATETYPE.OMX_StateIdle OMX_ERRORTYPE.OMX_ErrorUndefined)
        twoWaiters 1 =
      some (OMX_ERRORTYPE.OMX_ErrorNone,
        { twoWaiters with
          globalComponentList := setListAt twoWaiters.globalComponentList 0
            ((twoWaiters.globalComponentList 0).eraseP (fun x => decide (x.openmaxStandComp = 1)))
          globalWaitingComponentList :=
            setListAt twoWaiters.globalWaitingComponentList 0 [⟨8, 5, 2⟩] },
        [ExtCall.SendCommand 7 OMX_COMMANDTYPE.OMX_CommandStateSet
          OMX_STATETYPE.OMX_StateIdle]) :=
  (C8_release_promotes_head twoWaiters reachable_twoWaiters
    (codecEnv scenarioPrio OMX_STATETYPE.OMX_StateIdle OMX_ERRORTYPE.OMX_ErrorUndefined) 1
    ⟨"codec.a", 0, 1⟩ ⟨7, 5, 1⟩ [⟨8, 5, 2⟩] (scanRegistered_single _ _)
    ⟨⟨1, 10, 0⟩, by decide⟩ rfl).1

/-- Claim C9: for every state of the registry and every name that a used slot
of the table carries, `RM_RegisterComponent(name, m)` returns `OMX_ErrorNone`
for every `m` and changes nothing: the table, with the index and the
`max_components` of every slot, and the index counter are as before. -/
theorem C9_register_again (s : RMState) (name : String) (m : Int)
    (hreg : name ∈ s.listOfcomponentRegistered.map (fun e => e.component_name)) :
    RM_RegisterComponent s name m = some (OMX_ERRORTYPE.OMX_ErrorNone, s) := by
  obtain ⟨e, he⟩ := scanRegistered_of_mem _ _ hreg
  simp [RM_RegisterComponent, he]

/-- Witness of C9: "codec.a", registered with limit 1, is registered again with
limit 7. -/
theorem C9_register_again_witness :
    RM_RegisterComponent (registeredState 1 0) "codec.a" 7 =
      some (OMX_ERRORTYPE.OMX_ErrorNone, registeredState 1 0) :=
  C9_register_again (registeredState 1 0) "codec.a" 7 (by decide)

/-! ## The registry after a sequence of registrations -/

theorem tableOf_names (regs : List (String × Int)) :
    (tableOf regs).map (fun e => e.component_name) = regs.map Prod.fst := by
  apply List.ext_getElem?
  intro i
  simp [tableOf, List.getElem?_mapIdx, List.getElem?_map]
  cases regs[i]? <;> simp

theorem tableOf_append_one (regs : List (String × Int)) (c : String × Int) :
    tableOf (regs ++ [c]) = tableOf regs ++ [⟨c.1, Int.ofNat regs.length, c.2⟩] := by
  simp [tableOf]

theorem tableOf_append (regs more : List (String × Int)) :
    ∃ t, tableOf (regs ++ more) = tableOf regs ++ t := by
  simp only [tableOf, List.mapIdx_append]
  exact ⟨_, rfl⟩

theorem firstRegistrationsFrom_extends (calls acc : List (String × Int)) :
    ∃ t, firstRegistrationsFrom acc calls = acc ++ t := by
  induction calls generalizing acc with
  | nil => exact ⟨[], by simp [firstRegistrationsFrom]⟩
  | cons c cs ih =>
    simp only [firstRegistrationsFrom]
    split_ifs
    · exact ih acc
    · obtain ⟨t, ht⟩ := ih (acc ++ [c])
      exact ⟨c :: t, by rw [ht]; simp⟩

theorem firstRegistrationsFrom_length (calls acc : List (String × Int)) :
    acc.length ≤ (firstRegistrationsFrom acc calls).length := by
  obtain ⟨t, ht⟩ := firstRegistrationsFrom_extends calls acc
  rw [ht]
  simp

theorem firstRegistrationsFrom_append (calls more acc : List (String × Int)) :
    firstRegistrationsFrom acc (calls ++ more) =
      firstRegistrationsFrom (firstRegistrationsFrom acc calls) more := by
  induction calls generalizing acc with
  | nil => rfl
  | cons c cs ih =>
    simp only [List.cons_append, firstRegistrationsFrom]
    split_ifs
    · exact ih acc
    · exact ih (acc ++ [c])

theorem firstRegistrationsFrom_nodup (calls acc : List (String × Int))
    (hacc : (acc.map Prod.fst).Nodup) :
    ((firstRegistrationsFrom acc calls).map Prod.fst).Nodup := by
  induction calls generalizing acc with
  | nil => exact hacc
  | cons c cs ih =>
    simp only [firstRegistrationsFrom]
    split_ifs with hc
    · exact ih acc hacc
    · apply ih
      rw [List.map_append, List.nodup_append]
      refine ⟨hacc, by simp, ?_⟩
      intro a ha hb
      simp only [List.map_cons, List.map_nil, List.mem_singleton] at hb
      subst hb
      exact hc ha

theorem registerAll_layout (calls acc : List (String × Int)) (s : RMState)
    (htab : s.listOfcomponentRegistered = tableOf acc)
    (hgi : s.globalIndex = Int.ofNat acc.length)
    (hcap : (firstRegistrationsFrom acc calls).length ≤ MAX_COMPONENT_TYPES_HANDLED) :
    ∃ s1, registerAll s calls = some s1 ∧
      s1.listOfcomponentRegistered = tableOf (firstRegistrationsFrom acc calls) ∧
      s1.globalIndex = Int.ofNat (firstRegistrationsFrom acc calls).length ∧
      s1.globalComponentList = s.globalComponentList ∧
      s1.globalWaitingComponentList = s.globalWaitingComponentList ∧
      s1.globalTimestamp = s.globalTimestamp := by
  induction calls generalizing acc s with
  | nil => exact ⟨s, rfl, htab, hgi, rfl, rfl, rfl⟩
  | cons c cs ih =>
    simp only [firstRegistrationsFrom] at hcap ⊢
    by_cases hc : c.1 ∈ acc.map Prod.fst
    · rw [if_pos hc] at hcap ⊢
      have hmem : c.1 ∈ s.listOfcomponentRegistered.map (fun e => e.component_name) := by
        rw [htab, tableOf_names]
        exact hc
      obtain ⟨e, he⟩ := scanRegistered_of_mem _ _ hmem
      have hstep : RM_RegisterComponent s c.1 c.2 = some (OMX_ERRORTYPE.OMX_ErrorNone, s) := by
        simp [RM_RegisterComponent, he]
      simp only [registerAll, hstep]
      exact ih acc s htab hgi hcap
    · rw [if_neg hc] at hcap ⊢
      have hlen := firstRegistrationsFrom_length cs (acc ++ [c])
      have hlt : s.listOfcomponentRegistered.length < MAX_COMPONENT_TYPES_HANDLED := by
        rw [htab]
        simp only [tableOf, List.length_mapIdx]
        simp only [List.length_append, List.length_singleton] at hlen
        omega
      have hnot : c.1 ∉ s.listOfcomponentRegistered.map (fun e => e.component_name) := by
        rw [htab, tableOf_names]
        exact hc
      have hsc := scanRegistered_of_absent _ _ hnot hlt
      simp only [registerAll, RM_RegisterComponent, hsc]
      have := ih (acc ++ [c])
        { s with
          listOfcomponentRegistered :=
            s.listOfcomponentRegistered ++ [⟨c.1, s.globalIndex, c.2⟩]
          globalIndex := s.globalIndex + 1 }
        (by
          show s.listOfcomponentRegistered ++ [(⟨c.1, s.globalIndex, c.2⟩ : NameIndexType)] = _
          rw [tableOf_append_one, htab, hgi])
        (by
          show s.globalIndex + 1 = _
          rw [hgi]
          simp)
        hcap
      exact this

/-- Claim C10: after `RM_Init` and a sequence `calls` of `RM_RegisterComponent`
calls, also when more calls `more` follow, as long as the number of distinct
names stays within the capacity of the table: all the calls return; the names
in the table are pairwise distinct; the `n`-th distinct name registered is
stored at position `n` of the table with index `n` and the `max_components` of
its first registration; the index counter is the number of used slots; and
every name found in the table after `calls` is found in the same slot, hence
with the same index and `max_components`, after `calls ++ more`. -/
theorem C10_registry_layout (s0 : RMState) (calls more : List (String × Int))
    (hcap : (firstRegistrations (calls ++ more)).length ≤ MAX_COMPONENT_TYPES_HANDLED) :
    ∃ s s2, registerAll (RM_Init s0).2 calls = some s ∧
      registerAll (RM_Init s0).2 (calls ++ more) = some s2 ∧
      (s.listOfcomponentRegistered.map (fun e => e.component_name)).Nodup ∧
      s.listOfcomponentRegistered.length = (firstRegistrations calls).length ∧
      (∀ (n : Nat) (c : String × Int), (firstRegistrations calls)[n]? = some c →
        s.listOfcomponentRegistered[n]? = some ⟨c.1, Int.ofNat n, c.2⟩) ∧
      s.globalIndex = Int.ofNat s.listOfcomponentRegistered.length ∧
      (∀ (name : String) (e : NameIndexType),
        scanRegistered s.listOfcomponentRegistered name = some (some e) →
        scanRegistered s2.listOfcomponentRegistered name = some (some e)) := by
  have happ : firstRegistrations (calls ++ more) =
      firstRegistrationsFrom (firstRegistrations calls) more :=
    firstRegistrationsFrom_append calls more []
  have hcap1 : (firstRegistrations calls).length ≤ MAX_COMPONENT_TYPES_HANDLED := by
    have := firstRegistrationsFrom_length more (firstRegistrations calls)
    rw [happ] at hcap
    omega
  obtain ⟨s, hrun, htab, hgi, -, -, -⟩ :=
    registerAll_layout calls [] (RM_Init s0).2 rfl rfl hcap1
  obtain ⟨s2, hrun2, htab2, -, -, -, -⟩ :=
    registerAll_layout (calls ++ more) [] (RM_Init s0).2 rfl rfl hcap
  have hlen : s.listOfcomponentRegistered.length = (firstRegistrations calls).length := by
    rw [htab]
    simp [tableOf, firstRegistrations]
  refine ⟨s, s2, hrun, hrun2, ?_, hlen, ?_, ?_, ?_⟩
  · rw [htab, tableOf_names]
    exact firstRegistrationsFrom_nodup calls [] (by simp)
  · intro n c hn
    rw [htab]
    have hn1 : (firstRegistrationsFrom [] calls)[n]? = some c := hn
    simp [tableOf, List.getElem?_mapIdx, hn1]
  · rw [hgi, hlen]
    rfl
  · intro name e hfound
    obtain ⟨-, -, hfind⟩ := scanRegistered_found _ _ _ hfound
    obtain ⟨t, ht⟩ := firstRegistrationsFrom_extends more (firstRegistrations calls)
    obtain ⟨t2, ht2⟩ := tableOf_append (firstRegistrations calls) t
    have htab3 : s2.listOfcomponentRegistered = s.listOfcomponentRegistered ++ t2 := by
      rw [htab2, htab]
      show tableOf (firstRegistrations (calls ++ more)) = _
      rw [happ, ht, ht2]
      rfl
    unfold scanRegistered
    rw [htab3, List.find?_append, hfind]
    rfl

/-- Witness of C10: "a" with limit 2, "b" with limit 3, "a" again with limit 9,
then "c" with limit 1. -/
theorem C10_registry_layout_witness :
    ∃ s s2, registerAll (RM_Init boot).2 [("a", 2), ("b", 3), ("a", 9)] = some s ∧
      registerAll (RM_Init boot).2 ([("a", 2), ("b", 3), ("a", 9)] ++ [("c", 1)]) = some s2 ∧
      (s.listOfcomponentRegistered.map (fun e => e.component_name)).Nodup ∧
      s.listOfcomponentRegistered.length =
        (firstRegistrations [("a", 2), ("b", 3), ("a", 9)]).length ∧
      (∀ (n : Nat) (c : String × Int),
        (firstRegistrations [("a", 2), ("b", 3), ("a", 9)])[n]? = some c →
        s.listOfcomponentRegistered[n]? = some ⟨c.1, Int.ofNat n, c.2⟩) ∧
      s.globalIndex = Int.ofNat s.listOfcomponentRegistered.length ∧
      (∀ (name : String) (e : NameIndexType),
        scanRegistered s.listOfcomponentRegistered name = some (some e) →
        scanRegistered s2.listOfcomponentRegistered name = some (some e)) :=
  C10_registry_layout boot [("a", 2), ("b", 3), ("a", 9)] [("c", 1)] (by decide)

/-! ## Removal from the waiting queue -/

theorem RM_removeFromWaitForResource_registered (env : Env) (s : RMState) (h : Nat)
    (e : NameIndexType)
    (hsc : scanRegistered s.listOfcomponentRegistered (env.priv h).name = some (some e)) :
    RM_removeFromWaitForResource env s h = none := by
  simp [RM_removeFromWaitForResource, hsc]

theorem RM_removeFromWaitForResource_state (env : Env) (s s1 : RMState) (h : Nat)
    (err : OMX_ERRORTYPE) (calls : List ExtCall)
    (hstep : RM_removeFromWaitForResource env s h = some (err, s1, calls)) :
    err = OMX_ERRORTYPE.OMX_ErrorNone ∧ s1 = s ∧ calls = [] := by
  cases hsc : scanRegistered s.listOfcomponentRegistered (env.priv h).name with
  | none => simp [RM_removeFromWaitForResource, hsc] at hstep
  | some r =>
    cases r with
    | none =>
      simp only [RM_removeFromWaitForResource, hsc] at hstep
      simp at hstep
      exact ⟨hstep.1.symm, hstep.2.1.symm, by simp [hstep.2.2]⟩
    | some e =>
      rw [RM_removeFromWaitForResource_registered env s h e hsc] at hstep
      simp at hstep

theorem reachable5_reachable {s : RMState} (hs : Reachable5 s) : Reachable s := by
  induction hs with
  | init s0 => exact Reachable.init s0
  | register name m err _ hstep ih => exact Reachable.register name m err ih hstep
  | getResource env h err calls _ hstep ih => exact Reachable.getResource env h err calls ih hstep
  | releaseResource env h err calls _ hstep ih =>
    exact Reachable.releaseResource env h err calls ih hstep
  | waitForResource env h err calls _ hstep ih =>
    exact Reachable.waitForResource env h err calls ih hstep
  | removeFromWaitForResource env h err calls _ hstep ih =>
    rw [(RM_removeFromWaitForResource_state env _ _ h err calls hstep).2.1]
    exact ih

theorem reachable_reachable5 {s : RMState} (hs : Reachable s) : Reachable5 s := by
  induction hs with
  | init s0 => exact Reachable5.init s0
  | register name m err _ hstep ih => exact Reachable5.register name m err ih hstep
  | getResource env h err calls _ hstep ih =>
    exact Reachable5.getResource env h err calls ih hstep
  | releaseResource env h err calls _ hstep ih =>
    exact Reachable5.releaseResource env h err calls ih hstep
  | waitForResource env h err calls _ hstep ih =>
    exact Reachable5.waitForResource env h err calls ih hstep

/-! ## The registry at its capacity -/

theorem firstRegistrationsFrom_of_nodup (calls acc : List (String × Int))
    (hnd : ((acc ++ calls).map Prod.fst).Nodup) :
    firstRegistrationsFrom acc calls = acc ++ calls := by
  induction calls generalizing acc with
  | nil => simp [firstRegistrationsFrom]
  | cons c cs ih =>
    have hc : c.1 ∉ acc.map Prod.fst := by
      intro hmem
      rw [List.map_append, List.nodup_append] at hnd
      exact hnd.2.2 hmem (by simp)
    simp only [firstRegistrationsFrom, if_neg hc]
    rw [ih (acc ++ [c]) (by simpa using hnd)]
    simp

theorem scanRegistered_full (table : List NameIndexType) (name : String)
    (hfull : MAX_COMPONENT_TYPES_HANDLED ≤ table.length)
    (hnew : name ∉ table.map (fun e => e.component_name)) :
    scanRegistered table name = none := by
  unfold scanRegistered
  have hf : table.find? (fun x => decide (x.component_name = name)) = none := by
    rw [List.find?_eq_none]
    intro e he
    have : e.component_name ≠ name := fun hn => hnew (List.mem_map.mpr ⟨e, he, hn⟩)
    simpa using this
  rw [hf]
  have : ¬ table.length < MAX_COMPONENT_TYPES_HANDLED := by omega
  simp [this]

/-- Claim C11, at the failing inputs: after `RM_Init` and
`MAX_COMPONENT_TYPES_HANDLED` calls of `RM_RegisterComponent` with pairwise
distinct names, all of which return, the table has no free slot, and
`RM_RegisterComponent` with a further name has no defined result: its scan for
a `NULL` name reads past the end of the table. The claim promises a
resource-exhaustion error and an unchanged registry. -/
theorem C11_full_table_undefined (s0 : RMState) (calls : List (String × Int))
    (hnd : (calls.map Prod.fst).Nodup)
    (hlen : calls.length = MAX_COMPONENT_TYPES_HANDLED)
    (name : String) (hnew : name ∉ calls.map Prod.fst) (m : Int) :
    ∃ s, registerAll (RM_Init s0).2 calls = some s ∧
      s.listOfcomponentRegistered.length = MAX_COMPONENT_TYPES_HANDLED ∧
      s.listOfcomponentRegistered.map (fun e => e.component_name) = calls.map Prod.fst ∧
      RM_RegisterComponent s name m = none := by
  have hfirst : firstRegistrationsFrom [] calls = calls := by
    simpa using firstRegistrationsFrom_of_nodup calls [] (by simpa using hnd)
  obtain ⟨s, hrun, htab, -, -, -, -⟩ :=
    registerAll_layout calls [] (RM_Init s0).2 rfl rfl (by rw [hfirst, hlen])
  rw [hfirst] at htab
  have hnames : s.listOfcomponentRegistered.map (fun e => e.component_name) =
      calls.map Prod.fst := by
    rw [htab, tableOf_names]
  have hlen1 : s.listOfcomponentRegistered.length = MAX_COMPONENT_TYPES_HANDLED := by
    rw [htab]
    simp [tableOf, hlen]
  refine ⟨s, hrun, hlen1, hnames, ?_⟩
  have hsc := scanRegistered_full s.listOfcomponentRegistered name (by omega)
    (by rw [hnames]; exact hnew)
  simp [RM_RegisterComponent, hsc]

theorem fillName_injective (n k : Nat) (h : fillName n = fillName k) : n = k := by
  have hd := congrArg String.data h
  simp only [fillName] at hd
  have ha := congrArg (List.count 'a') hd
  have hl := congrArg List.length hd
  simp [List.count_replicate] at ha
  simp at hl
  omega

theorem fillCalls_names_nodup : (fillCalls.map Prod.fst).Nodup := by
  simp only [fillCalls, List.map_map]
  exact (List.nodup_range _).map (fun a b hab => fillName_injective a b hab)

theorem fillCalls_fresh : "z" ∉ fillCalls.map Prod.fst := by
  simp only [fillCalls, List.map_map, List.mem_map, List.mem_range, Function.comp_apply,
    not_exists, not_and]
  intro n _ hn
  have hl := congrArg String.length hn
  have ha := congrArg (fun t => t.data.head?) hn
  simp [fillName, List.replicate_succ] at ha

/-- Witness of C11: the table is filled with the names of `fillCalls` and the
name "z" is registered next. -/
theorem C11_full_table_undefined_witness :
    ∃ s, registerAll (RM_Init boot).2 fillCalls = some s ∧
      s.listOfcomponentRegistered.length = MAX_COMPONENT_TYPES_HANDLED ∧
      s.listOfcomponentRegistered.map (fun e => e.component_name) = fillCalls.map Prod.fst ∧
      RM_RegisterComponent s "z" 1 = none :=
  C11_full_table_undefined boot fillCalls fillCalls_names_nodup (by simp [fillCalls]) "z"
    fillCalls_fresh 1

/-! ## What one call changes -/

theorem StepAt.refl (s : RMState) (i : Int) : StepAt s s i :=
  ⟨rfl, rfl, fun _ _ => rfl, fun _ _ => rfl⟩

theorem RM_RegisterComponent_lists {s s1 : RMState} (name : String) (m : Int)
    (err : OMX_ERRORTYPE) (h : RM_RegisterComponent s name m = some (err, s1)) :
    s1.globalComponentList = s.globalComponentList ∧
      s1.globalWaitingComponentList = s.globalWaitingComponentList ∧
      s1.globalTimestamp = s.globalTimestamp := by
  unfold RM_RegisterComponent at h
  cases hsc : scanRegistered s.listOfcomponentRegistered name with
  | none => rw [hsc] at h; simp at h
  | some r =>
    cases r with
    | some e =>
      rw [hsc] at h
      simp only [Option.some.injEq, Prod.mk.injEq] at h
      rw [← h.2]
      exact ⟨rfl, rfl, rfl⟩
    | none =>
      rw [hsc] at h
      simp only [Option.some.injEq, Prod.mk.injEq] at h
      rw [← h.2]
      exact ⟨rfl, rfl, rfl⟩

theorem RM_getResource_step {s s1 : RMState} (env : Env) (h : Nat)
    (err : OMX_ERRORTYPE) (calls : List ExtCall)
    (hstep : RM_getResource env s h = some (err, s1, calls)) :
    s1 = s ∨
      ∃ e, scanRegistered s.listOfcomponentRegistered (env.priv h).name = some (some e) ∧
        StepAt s s1 e.index ∧
        s1.globalWaitingComponentList e.index = s.globalWaitingComponentList e.index ∧
        s1.globalTimestamp = s.globalTimestamp + 1 ∧
        ∃ l1, l1.Sublist (s.globalComponentList e.index) ∧
          s1.globalComponentList e.index =
            l1 ++ [⟨h, (env.priv h).nGroupPriority, s.globalTimestamp⟩] := by
  cases hsc : scanRegistered s.listOfcomponentRegistered (env.priv h).name with
  | none => simp [RM_getResource, hsc] at hstep
  | some r =>
    cases r with
    | none =>
      simp only [RM_getResource, hsc, Option.some.injEq, Prod.mk.injEq] at hstep
      exact Or.inl hstep.2.1.symm
    | some e =>
      rw [RM_getResource_registered env s h e hsc] at hstep
      split_ifs at hstep with h1 h2 h3
      · simp only [Option.some.injEq, Prod.mk.injEq] at hstep
        exact Or.inl hstep.2.1.symm
      · cases hcand : (searchLowerPriority (s.globalComponentList e.index)
            (env.priv h).nGroupPriority).2 with
        | none => rw [hcand] at hstep; simp at hstep
        | some v =>
          rw [hcand] at hstep
          simp only at hstep
          split_ifs at hstep with h4
          · simp only [Option.some.injEq, Prod.mk.injEq] at hstep
            exact Or.inl hstep.2.1.symm
          · simp only [Option.some.injEq, Prod.mk.injEq] at hstep
            right
            refine ⟨e, rfl, ?_⟩
            rw [← hstep.2.1]
            refine ⟨⟨rfl, rfl, fun j hj => setListAt_other _ _ _ _ hj, fun _ _ => rfl⟩, rfl, rfl,
              _, removeElemFromList_sublist _ v.openmaxStandComp, setListAt_same _ _ _⟩
      · simp only [Option.some.injEq, Prod.mk.injEq] at hstep
        exact Or.inl hstep.2.1.symm
      · simp only [Option.some.injEq, Prod.mk.injEq] at hstep
        right
        refine ⟨e, rfl, ?_⟩
        rw [← hstep.2.1]
        exact ⟨⟨rfl, rfl, fun j hj => setListAt_other _ _ _ _ hj, fun _ _ => rfl⟩, rfl, rfl,
          _, List.Sublist.refl _, setListAt_same _ _ _⟩

theorem RM_releaseResource_step {s s1 : RMState} (hI : Inv s) (env : Env) (h : Nat)
    (err : OMX_ERRORTYPE) (calls : List ExtCall)
    (hstep : RM_releaseResource env s h = some (err, s1, calls)) :
    s1 = s ∨
      ∃ e, scanRegistered s.listOfcomponentRegistered (env.priv h).name = some (some e) ∧
        StepAt s s1 e.index ∧
        s1.globalTimestamp = s.globalTimestamp ∧
        (s1.globalComponentList e.index).Sublist (s.globalComponentList e.index) ∧
        (s1.globalWaitingComponentList e.index).Sublist
          (s.globalWaitingComponentList e.index) := by
  cases hsc : scanRegistered s.listOfcomponentRegistered (env.priv h).name with
  | none => simp [RM_releaseResource, hsc] at hstep
  | some r =>
    cases r with
    | none =>
      simp only [RM_releaseResource, hsc, Option.some.injEq, Prod.mk.injEq] at hstep
      exact Or.inl hstep.2.1.symm
    | some e =>
      obtain ⟨he, -, -⟩ := scanRegistered_found _ _ _ hsc
      have hidx := (hI.index_range he).1
      cases hr : removeLoop (s.globalComponentList e.index) h with
      | none =>
        rw [RM_releaseResource_absent env s h e hsc hidx
          ((removeLoop_none_iff _ _).mp hr)] at hstep
        simp only [Option.some.injEq, Prod.mk.injEq] at hstep
        exact Or.inl hstep.2.1.symm
      | some l1 =>
        have hsub := removeLoop_sublist _ _ _ hr
        right
        refine ⟨e, rfl, ?_⟩
        cases hw : s.globalWaitingComponentList e.index with
        | nil =>
          rw [RM_releaseResource_present_nowaiter env s h e l1 hsc hidx hr hw] at hstep
          simp only [Option.some.injEq, Prod.mk.injEq] at hstep
          rw [← hstep.2.1]
          refine ⟨⟨rfl, rfl, fun j hj => setListAt_other _ _ _ _ hj, fun _ _ => rfl⟩, rfl,
            ?_, ?_⟩
          · show (setListAt _ e.index l1 e.index).Sublist _
            rw [setListAt_same]
            exact hsub
          · show (s.globalWaitingComponentList e.index).Sublist _
            rw [hw]
        | cons w ws =>
          rw [RM_releaseResource_present_waiter env s h e l1 w ws hsc hidx hr hw] at hstep
          simp only [Option.some.injEq, Prod.mk.injEq] at hstep
          rw [← hstep.2.1]
          refine ⟨⟨rfl, rfl, fun j hj => setListAt_other _ _ _ _ hj,
            fun j hj => setListAt_other _ _ _ _ hj⟩, rfl, ?_, ?_⟩
          · show (setListAt _ e.index l1 e.index).Sublist _
            rw [setListAt_same]
            exact hsub
          · show (setListAt _ e.index ws e.index).Sublist _
            rw [setListAt_same]
            exact List.sublist_cons_self w ws

theorem RM_waitForResource_step {s s1 : RMState} (hI : Inv s) (env : Env) (h : Nat)
    (err : OMX_ERRORTYPE) (calls : List ExtCall)
    (hstep : RM_waitForResource env s h = some (err, s1, calls)) :
    s1 = s ∨
      ∃ e, scanRegistered s.listOfcomponentRegistered (env.priv h).name = some (some e) ∧
        StepAt s s1 e.index ∧
        s1.globalComponentList e.index = s.globalComponentList e.index ∧
        s1.globalTimestamp = s.globalTimestamp + 1 ∧
        s1.globalWaitingComponentList e.index =
          s.globalWaitingComponentList e.index ++
            [⟨h, (env.priv h).nGroupPriority, s.globalTimestamp⟩] := by
  cases hsc : scanRegistered s.listOfcomponentRegistered (env.priv h).name with
  | none => simp [RM_waitForResource, hsc] at hstep
  | some r =>
    cases r with
    | none =>
      simp only [RM_waitForResource, hsc, Option.some.injEq, Prod.mk.injEq] at hstep
      exact Or.inl hstep.2.1.symm
    | some e =>
      obtain ⟨he, -, -⟩ := scanRegistered_found _ _ _ hsc
      have hidx := (hI.index_range he).1
      rw [RM_waitForResource_registered env s h e hsc hidx] at hstep
      simp only [Option.some.injEq, Prod.mk.injEq] at hstep
      right
      refine ⟨e, rfl, ?_⟩
      rw [← hstep.2.1]
      exact ⟨⟨rfl, rfl, fun _ _ => rfl, fun j hj => setListAt_other _ _ _ _ hj⟩, rfl, rfl,
        setListAt_same _ _ _⟩

/-! ## Timestamps are unique -/

theorem TsDistinct.stepA {s s1 : RMState} (hD : TsDistinct s) (hI : Inv s) {i : Int}
    (hst : StepAt s s1 i)
    (hA : ∀ x ∈ s1.globalComponentList i,
      x ∈ s.globalComponentList i ∨ x.timestamp = s.globalTimestamp)
    (hW : ∀ y ∈ s1.globalWaitingComponentList i, y ∈ s.globalWaitingComponentList i) :
    TsDistinct s1 := by
  have memA : ∀ j, ∀ x ∈ s1.globalComponentList j,
      x ∈ s.globalComponentList j ∨ (j = i ∧ x.timestamp = s.globalTimestamp) := by
    intro j x hx
    by_cases hj : j = i
    · subst hj
      rcases hA x hx with h1 | h1
      · exact Or.inl h1
      · exact Or.inr ⟨rfl, h1⟩
    · rw [hst.otherA j hj] at hx
      exact Or.inl hx
  have memW : ∀ j, ∀ y ∈ s1.globalWaitingComponentList j,
      y ∈ s.globalWaitingComponentList j := by
    intro j y hy
    by_cases hj : j = i
    · subst hj
      exact hW y hy
    · rw [hst.otherW j hj] at hy
      exact hy
  refine ⟨?_, ?_, ?_⟩
  · intro a b hab x hx y hy
    rcases memA a x hx with h1 | ⟨ha, h1⟩ <;> rcases memA b y hy with h2 | ⟨hb, h2⟩
    · exact hD.aa a b hab x h1 y h2
    · have := hI.boundA a x h1
      omega
    · have := hI.boundA b y h2
      omega
    · exact absurd (ha.trans hb.symm) hab
  · intro a b hab x hx y hy
    exact hD.ww a b hab x (memW a x hx) y (memW b y hy)
  · intro a b x hx y hy
    have h2 := memW b y hy
    rcases memA a x hx with h1 | ⟨-, h1⟩
    · exact hD.aw a b x h1 y h2
    · have := hI.boundW b y h2
      omega

theorem TsDistinct.stepW {s s1 : RMState} (hD : TsDistinct s) (hI : Inv s) {i : Int}
    (hst : StepAt s s1 i)
    (hA : ∀ x ∈ s1.globalComponentList i, x ∈ s.globalComponentList i)
    (hW : ∀ y ∈ s1.globalWaitingComponentList i,
      y ∈ s.globalWaitingComponentList i ∨ y.timestamp = s.globalTimestamp) :
    TsDistinct s1 := by
  have memW : ∀ j, ∀ x ∈ s1.globalWaitingComponentList j,
      x ∈ s.globalWaitingComponentList j ∨ (j = i ∧ x.timestamp = s.globalTimestamp) := by
    intro j x hx
    by_cases hj : j = i
    · subst hj
      rcases hW x hx with h1 | h1
      · exact Or.inl h1
      · exact Or.inr ⟨rfl, h1⟩
    · rw [hst.otherW j hj] at hx
      exact Or.inl hx
  have memA : ∀ j, ∀ y ∈ s1.globalComponentList j, y ∈ s.globalComponentList j := by
    intro j y hy
    by_cases hj : j = i
    · subst hj
      exact hA y hy
    · rw [hst.otherA j hj] at hy
      exact hy
  refine ⟨?_, ?_, ?_⟩
  · intro a b hab x hx y hy
    exact hD.aa a b hab x (memA a x hx) y (memA b y hy)
  · intro a b hab x hx y hy
    rcases memW a x hx with h1 | ⟨ha, h1⟩ <;> rcases memW b y hy with h2 | ⟨hb, h2⟩
    · exact hD.ww a b hab x h1 y h2
    · have := hI.boundW a x h1
      omega
    · have := hI.boundW b y h2
      omega
    · exact absurd (ha.trans hb.symm) hab
  · intro a b x hx y hy
    have h1 := memA a x hx
    rcases memW b y hy with h2 | ⟨-, h2⟩
    · exact hD.aw a b x h1 y h2
    · have := hI.boundA a x h1
      omega

theorem reachable_tsDistinct {s : RMState} (hr : Reachable s) : TsDistinct s := by
  induction hr with
  | init s0 =>
    refine ⟨?_, ?_, ?_⟩
    · intro i j _ x hx
      simp [RM_Init] at hx
    · intro i j _ x hx
      simp [RM_Init] at hx
    · intro i j x hx
      simp [RM_Init] at hx
  | register name m err _ hstep ih =>
    obtain ⟨h1, h2, -⟩ := RM_RegisterComponent_lists name m err hstep
    refine ⟨?_, ?_, ?_⟩
    · rw [h1]; exact ih.aa
    · rw [h2]; exact ih.ww
    · rw [h1, h2]; exact ih.aw
  | getResource env h err calls hs hstep ih =>
    rcases RM_getResource_step env h err calls hstep with heq | ⟨e, -, hst, hw, -, l1, hsub, hl⟩
    · rw [heq]; exact ih
    · apply ih.stepA (reachable_inv hs) hst
      · intro x hx
        rw [hl] at hx
        rcases List.mem_append.mp hx with hx | hx
        · exact Or.inl (hsub.subset hx)
        · simp only [List.mem_singleton] at hx
          exact Or.inr (by rw [hx])
      · intro y hy
        rw [hw] at hy
        exact hy
  | releaseResource env h err calls hs hstep ih =>
    rcases RM_releaseResource_step (reachable_inv hs) env h err calls hstep with
      heq | ⟨e, -, hst, -, hsubA, hsubW⟩
    · rw [heq]; exact ih
    · exact ih.stepA (reachable_inv hs) hst (fun x hx => Or.inl (hsubA.subset hx))
        (fun y hy => hsubW.subset hy)
  | waitForResource env h err calls hs hstep ih =>
    rcases RM_waitForResource_step (reachable_inv hs) env h err calls hstep with
      heq | ⟨e, -, hst, ha, -, hl⟩
    · rw [heq]; exact ih
    · apply ih.stepW (reachable_inv hs) hst
      · intro x hx
        rw [ha] at hx
        exact hx
      · intro y hy
        rw [hl] at hy
        rcases List.mem_append.mp hy with hy | hy
        · exact Or.inl hy
        · simp only [List.mem_singleton] at hy
          exact Or.inr (by rw [hy])

/-- Claim C12: in every state reachable from `RM_Init` in which the counter
`globalTimestamp` has not passed `MAX_INT`, the timestamps increase strictly
from head to tail within every active and every waiting list, every timestamp
is smaller than the counter, and entries of different lists (active or waiting,
of any type) have different timestamps: all timestamps are pairwise distinct. -/
theorem C12_timestamps_unique (s : RMState) (hs : Reachable5 s)
    (_hrange : s.globalTimestamp ≤ MAX_INT) :
    (∀ i, TsSorted (s.globalComponentList i)) ∧
      (∀ i, TsSorted (s.globalWaitingComponentList i)) ∧
      (∀ i, ∀ x ∈ s.globalComponentList i, x.timestamp < s.globalTimestamp) ∧
      (∀ i, ∀ x ∈ s.globalWaitingComponentList i, x.timestamp < s.globalTimestamp) ∧
      (∀ i j : Int, i ≠ j → ∀ x ∈ s.globalComponentList i, ∀ y ∈ s.globalComponentList j,
        x.timestamp ≠ y.timestamp) ∧
      (∀ i j : Int, i ≠ j → ∀ x ∈ s.globalWaitingComponentList i,
        ∀ y ∈ s.globalWaitingComponentList j, x.timestamp ≠ y.timestamp) ∧
      (∀ i j : Int, ∀ x ∈ s.globalComponentList i, ∀ y ∈ s.globalWaitingComponentList j,
        x.timestamp ≠ y.timestamp) := by
  have hr := reachable5_reachable hs
  have hI := reachable_inv hr
  have hD := reachable_tsDistinct hr
  exact ⟨hI.sortedA, hI.sortedW, hI.boundA, hI.boundW, hD.aa, hD.ww, hD.aw⟩

/-- Witness of C12: handle 1 is active with timestamp 0 and handles 7 and 8
wait with timestamps 1 and 2; the counter is 3. -/
theorem C12_timestamps_unique_witness :
    Reachable5 twoWaiters ∧ twoWaiters.globalTimestamp ≤ MAX_INT ∧
      (∀ i, TsSorted (twoWaiters.globalComponentList i)) ∧
      (∀ i, TsSorted (twoWaiters.globalWaitingComponentList i)) ∧
      (∀ i, ∀ x ∈ twoWaiters.globalComponentList i, x.timestamp < twoWaiters.globalTimestamp) ∧
      (∀ i, ∀ x ∈ twoWaiters.globalWaitingComponentList i,
        x.timestamp < twoWaiters.globalTimestamp) ∧
      (∀ i j : Int, i ≠ j → ∀ x ∈ twoWaiters.globalComponentList i,
        ∀ y ∈ twoWaiters.globalComponentList j, x.timestamp ≠ y.timestamp) ∧
      (∀ i j : Int, i ≠ j → ∀ x ∈ twoWaiters.globalWaitingComponentList i,
        ∀ y ∈ twoWaiters.globalWaitingComponentList j, x.timestamp ≠ y.timestamp) ∧
      (∀ i j : Int, ∀ x ∈ twoWaiters.globalComponentList i,
        ∀ y ∈ twoWaiters.globalWaitingComponentList j, x.timestamp ≠ y.timestamp) :=
  ⟨reachable_reachable5 reachable_twoWaiters, by decide,
    C12_timestamps_unique twoWaiters (reachable_reachable5 reachable_twoWaiters) (by decide)⟩

/-! ## Active and waiting at once -/

theorem reachableGuarded_reachable {s : RMState} (hs : ReachableGuarded s) : Reachable s := by
  induction hs with
  | init s0 => exact Reachable.init s0
  | register name m err _ hstep ih => exact Reachable.register name m err ih hstep
  | getResource env h err calls _ _ hstep ih =>
    exact Reachable.getResource env h err calls ih hstep
  | releaseResource env h err calls _ hstep ih =>
    exact Reachable.releaseResource env h err calls ih hstep
  | waitForResource env h err calls _ _ hstep ih =>
    exact Reachable.waitForResource env h err calls ih hstep
  | removeFromWaitForResource env h err calls _ hstep ih =>
    rw [(RM_removeFromWaitForResource_state env _ _ h err calls hstep).2.1]
    exact ih

theorem NoOverlap.step {s s1 : RMState} (hN : NoOverlap s) {i : Int} (hst : StepAt s s1 i)
    (hi : ∀ x ∈ s1.globalComponentList i, ∀ y ∈ s1.globalWaitingComponentList i,
      x.openmaxStandComp ≠ y.openmaxStandComp) : NoOverlap s1 := by
  intro j x hx y hy
  by_cases hj : j = i
  · subst hj
    exact hi x hx y hy
  · rw [hst.otherA j hj] at hx
    rw [hst.otherW j hj] at hy
    exact hN j x hx y hy

/-- Claim C13, as amended: in every state reachable from `RM_Init` by calls of
`RM_RegisterComponent`, `RM_getResource`, `RM_releaseResource`,
`RM_waitForResource` and `RM_removeFromWaitForResource` in which
`RM_getResource` is never called for a handle that is in the waiting list of
its type and `RM_waitForResource` never for a handle that is in the active list
of its type, no component handle is present in both the active list and the
waiting list of the same type. -/
theorem C13_no_overlap_guarded (s : RMState) (hs : ReachableGuarded s) :
    ∀ i : Int, ∀ x ∈ s.globalComponentList i, ∀ y ∈ s.globalWaitingComponentList i,
      x.openmaxStandComp ≠ y.openmaxStandComp := by
  show NoOverlap s
  induction hs with
  | init s0 =>
    intro i x hx
    simp [RM_Init] at hx
  | register name m err _ hstep ih =>
    obtain ⟨h1, h2, -⟩ := RM_RegisterComponent_lists name m err hstep
    unfold NoOverlap
    rw [h1, h2]
    exact ih
  | getResource env h err calls _ hguard hstep ih =>
    rcases RM_getResource_step env h err calls hstep with
      heq | ⟨e, hsc, hst, hw, -, l1, hsub, hl⟩
    · rw [heq]; exact ih
    · apply ih.step hst
      intro x hx y hy
      rw [hw] at hy
      rw [hl] at hx
      rcases List.mem_append.mp hx with hx | hx
      · exact ih e.index x (hsub.subset hx) y hy
      · simp only [List.mem_singleton] at hx
        rw [hx]
        exact fun heq => hguard e hsc y hy heq.symm
  | releaseResource env h err calls hs hstep ih =>
    rcases RM_releaseResource_step (reachable_inv (reachableGuarded_reachable hs)) env h err
      calls hstep with heq | ⟨e, -, hst, -, hsubA, hsubW⟩
    · rw [heq]; exact ih
    · exact ih.step hst
        (fun x hx y hy => ih e.index x (hsubA.subset hx) y (hsubW.subset hy))
  | waitForResource env h err calls hs hguard hstep ih =>
    rcases RM_waitForResource_step (reachable_inv (reachableGuarded_reachable hs)) env h err
      calls hstep with heq | ⟨e, hsc, hst, ha, -, hl⟩
    · rw [heq]; exact ih
    · apply ih.step hst
      intro x hx y hy
      rw [ha] at hx
      rw [hl] at hy
      rcases List.mem_append.mp hy with hy | hy
      · exact ih e.index x hx y hy
      · simp only [List.mem_singleton] at hy
        rw [hy]
        exact hguard e hsc x hx
  | removeFromWaitForResource env h err calls _ hstep ih =>
    rw [(RM_removeFromWaitForResource_state env _ _ h err calls hstep).2.1]
    exact ih

theorem scanRegistered_single_eq (name : String) (m : Int) (e : NameIndexType)
    (h : scanRegistered [⟨name, 0, m⟩] name = some (some e)) : e = ⟨name, 0, m⟩ := by
  rw [scanRegistered_single] at h
  simp only [Option.some.injEq] at h
  exact h.symm

theorem reachableGuarded_registeredState (m : Int) :
    ReachableGuarded (registeredState m 0) :=
  ReachableGuarded.register "codec.a" m OMX_ERRORTYPE.OMX_ErrorNone
    (ReachableGuarded.init boot) rfl

theorem reachableGuarded_twoWaiters : ReachableGuarded twoWaiters :=
  ReachableGuarded.waitForResource
    (codecEnv scenarioPrio OMX_STATETYPE.OMX_StateIdle OMX_ERRORTYPE.OMX_ErrorNone) 8
    OMX_ERRORTYPE.OMX_ErrorNone []
    (ReachableGuarded.waitForResource
      (codecEnv scenarioPrio OMX_STATETYPE.OMX_StateIdle OMX_ERRORTYPE.OMX_ErrorNone) 7
      OMX_ERRORTYPE.OMX_ErrorNone []
      (ReachableGuarded.getResource
        (codecEnv scenarioPrio OMX_STATETYPE.OMX_StateIdle OMX_ERRORTYPE.OMX_ErrorNone) 1
        OMX_ERRORTYPE.OMX_ErrorNone []
        (reachableGuarded_registeredState 1)
        (fun e _ y hy => by simp [registeredState] at hy) rfl)
      (fun e he x hx => by
        rw [scanRegistered_single_eq "codec.a" 1 e he] at hx
        have hx1 : x ∈ [(⟨1, 10, 0⟩ : ComponentListType)] := hx
        simp only [List.mem_singleton] at hx1
        rw [hx1]
        decide) rfl)
    (fun e he x hx => by
      rw [scanRegistered_single_eq "codec.a" 1 e he] at hx
      have hx1 : x ∈ [(⟨1, 10, 0⟩ : ComponentListType)] := hx
      simp only [List.mem_singleton] at hx1
      rw [hx1]
      decide) rfl

/-- Witness of C13: handle 1 is admitted, then handles 7 and 8 wait. -/
theorem C13_no_overlap_guarded_witness :
    ReachableGuarded twoWaiters ∧
      ∀ i : Int, ∀ x ∈ twoWaiters.globalComponentList i,
        ∀ y ∈ twoWaiters.globalWaitingComponentList i,
        x.openmaxStandComp ≠ y.openmaxStandComp :=
  ⟨reachableGuarded_twoWaiters, C13_no_overlap_guarded twoWaiters reachableGuarded_twoWaiters⟩

/-- Counterexample to C13 as stated: after `RM_Init`,
`RM_RegisterComponent("codec.a", 1)`, `RM_getResource` of handle 1 and
`RM_waitForResource` of handle 1, all of which return `OMX_ErrorNone`, handle 1
is in the active list and in the waiting list of the type. -/
theorem C13_counterexample :
    RM_getResource
        (codecEnv scenarioPrio OMX_STATETYPE.OMX_StateIdle OMX_ERRORTYPE.OMX_ErrorNone)
        (registeredState 1 0) 1 =
        some (OMX_ERRORTYPE.OMX_ErrorNone,
          withActive (registeredState 1 0) 0 [⟨1, 10, 0⟩] 1, []) ∧
      RM_waitForResource
        (codecEnv scenarioPrio OMX_STATETYPE.OMX_StateIdle OMX_ERRORTYPE.OMX_ErrorNone)
        (withActive (registeredState 1 0) 0 [⟨1, 10, 0⟩] 1) 1 =
        some (OMX_ERRORTYPE.OMX_ErrorNone, activeAndWaiting, []) ∧
      Reachable5 activeAndWaiting ∧
      activeAndWaiting.globalComponentList 0 = [⟨1, 10, 0⟩] ∧
      activeAndWaiting.globalWaitingComponentList 0 = [⟨1, 10, 1⟩] ∧
      ¬ (∀ i : Int, ∀ x ∈ activeAndWaiting.globalComponentList i,
        ∀ y ∈ activeAndWaiting.globalWaitingComponentList i,
        x.openmaxStandComp ≠ y.openmaxStandComp) :=
  ⟨rfl, rfl,
    Reachable5.waitForResource
      (codecEnv scenarioPrio OMX_STATETYPE.OMX_StateIdle OMX_ERRORTYPE.OMX_ErrorNone) 1
      OMX_ERRORTYPE.OMX_ErrorNone []
      (Reachable5.getResource
        (codecEnv scenarioPrio OMX_STATETYPE.OMX_StateIdle OMX_ERRORTYPE.OMX_ErrorNone) 1
        OMX_ERRORTYPE.OMX_ErrorNone []
        (Reachable5.register "codec.a" 1 OMX_ERRORTYPE.OMX_ErrorNone (Reachable5.init boot)
          rfl) rfl) rfl,
    rfl, rfl,
    fun hall => hall 0 ⟨1, 10, 0⟩ (by decide) ⟨1, 10, 1⟩ (by decide) rfl⟩

/-- Claim C14, at the failing input: after `RM_Init` and
`RM_RegisterComponent("codec.a", 1)`, `RM_waitForResource` of handle 7 appends
the handle to the waiting list of the type; the `RM_removeFromWaitForResource`
of handle 7 that follows does not reach the waiting list: it passes
`&globalComponentList[-1]` to `removeElemFromList` and has no defined result,
as it has for a handle of the type that is not waiting. The claim promises that
the handle is removed from the waiting list, and `OMX_ErrorNone` with no change
for a handle that is not waiting. -/
theorem C14_remove_waiting_undefined :
    RM_waitForResource
        (codecEnv scenarioPrio OMX_STATETYPE.OMX_StateIdle OMX_ERRORTYPE.OMX_ErrorNone)
        (registeredState 1 0) 7 = some (OMX_ERRORTYPE.OMX_ErrorNone, onlyWaiter, []) ∧
      onlyWaiter.globalWaitingComponentList 0 = [⟨7, 5, 0⟩] ∧
      RM_removeFromWaitForResource
        (codecEnv scenarioPrio OMX_STATETYPE.OMX_StateIdle OMX_ERRORTYPE.OMX_ErrorNone)
        onlyWaiter 7 = none ∧
      RM_removeFromWaitForResource
        (codecEnv scenarioPrio OMX_STATETYPE.OMX_StateIdle OMX_ERRORTYPE.OMX_ErrorNone)
        (registeredState 1 0) 7 = none :=
  ⟨rfl, rfl, rfl, rfl⟩

theorem reachable_secondTypeActive : Reachable secondTypeActive :=
  reachable_runCalls secondTypeCalls (RM_Init boot).2 secondTypeActive (Reachable.init boot) rfl

theorem reachable_onlyWaiter : Reachable onlyWaiter :=
  Reachable.waitForResource
    (codecEnv scenarioPrio OMX_STATETYPE.OMX_StateIdle OMX_ERRORTYPE.OMX_ErrorNone) 7
    OMX_ERRORTYPE.OMX_ErrorNone [] (reachable_registeredState 1) rfl

/-- Claim C15, at the failing inputs. In the reachable state
`secondTypeActive` the types "codec.a" (index 0) and "codec.b" (index 1) are
registered, the active list of index 0 is empty and that of index 1 holds
handle 2: the loop of `RM_Deinit` stops at index 0 and the entry of index 1
stays. In the reachable state `onlyWaiter` the type "codec.a" has handle 7
waiting and no active entry: the loop stops at once and the waiter stays. The
claim promises that both lists of every registered type are emptied. -/
theorem C15_deinit_leaves_entries :
    Reachable secondTypeActive ∧
      secondTypeActive.listOfcomponentRegistered =
        [⟨"codec.a", 0, 1⟩, ⟨"codec.b", 1, 1⟩] ∧
      secondTypeActive.globalComponentList 0 = [] ∧
      (RM_Deinit secondTypeActive).map (fun r => (r.1, r.2.globalComponentList 1)) =
        some (OMX_ERRORTYPE.OMX_ErrorNone, [⟨2, 10, 0⟩]) ∧
      Reachable onlyWaiter ∧
      onlyWaiter.globalComponentList 0 = [] ∧
      (RM_Deinit onlyWaiter).map (fun r => (r.1, r.2.globalWaitingComponentList 0)) =
        some (OMX_ERRORTYPE.OMX_ErrorNone, [⟨7, 5, 0⟩]) :=
  ⟨reachable_secondTypeActive, rfl, rfl, rfl, reachable_onlyWaiter, rfl, rfl⟩

/-! ## Tunnel setup -/

/-- Claim C16: for every `OMX_SetupTunnel` call with both handles present in
which the request to the output succeeds and the request to the input fails,
with any error code, exactly one further request is made, to the output, with a
`NULL` peer and peer port 0; the result is `OMX_ErrorPortsNotCompatible` if
that request succeeds and `OMX_ErrorUndefined` if it fails. -/
theorem C16_rollback_on_input_failure (env : TunnelEnv) (o i pO pI : Nat)
    (hout : (env [] ⟨o, pO, some i, pI, ⟨0, 0⟩⟩).1 = OMX_ERRORTYPE.OMX_ErrorNone)
    (hin : (env [⟨o, pO, some i, pI, ⟨0, 0⟩⟩]
        ⟨i, pI, some o, pO, (env [] ⟨o, pO, some i, pI, ⟨0, 0⟩⟩).2⟩).1 ≠
      OMX_ERRORTYPE.OMX_ErrorNone) :
    OMX_SetupTunnel env (some o) pO (some i) pI =
      some
        (if (env
              [⟨o, pO, some i, pI, ⟨0, 0⟩⟩,
                ⟨i, pI, some o, pO, (env [] ⟨o, pO, some i, pI, ⟨0, 0⟩⟩).2⟩]
              ⟨o, pO, none, 0,
                (env [⟨o, pO, some i, pI, ⟨0, 0⟩⟩]
                  ⟨i, pI, some o, pO, (env [] ⟨o, pO, some i, pI, ⟨0, 0⟩⟩).2⟩).2⟩).1 =
            OMX_ERRORTYPE.OMX_ErrorNone
          then OMX_ERRORTYPE.OMX_ErrorPortsNotCompatible
          else OMX_ERRORTYPE.OMX_ErrorUndefined,
          [⟨o, pO, some i, pI, ⟨0, 0⟩⟩,
            ⟨i, pI, some o, pO, (env [] ⟨o, pO, some i, pI, ⟨0, 0⟩⟩).2⟩,
            ⟨o, pO, none, 0,
              (env [⟨o, pO, some i, pI, ⟨0, 0⟩⟩]
                ⟨i, pI, some o, pO, (env [] ⟨o, pO, some i, pI, ⟨0, 0⟩⟩).2⟩).2⟩]) := by
  simp only [OMX_SetupTunnel, setupTunnelInput, hout, hin]
  split_ifs <;> simp_all

/-- Witness of C16: component 2, the input, rejects the request of component
1; the rollback request to component 1 is accepted. -/
theorem C16_rollback_on_input_failure_witness :
    OMX_SetupTunnel (rejectBy 2) (some 1) 0 (some 2) 1 =
      some (OMX_ERRORTYPE.OMX_ErrorPortsNotCompatible,
        [⟨1, 0, some 2, 1, ⟨0, 0⟩⟩, ⟨2, 1, some 1, 0, ⟨0, 0⟩⟩, ⟨1, 0, none, 0, ⟨0, 0⟩⟩]) :=
  C16_rollback_on_input_failure (rejectBy 2) 1 2 0 1 (by decide) (by decide)

/-- Claim C17, at the failing inputs: for every `OMX_SetupTunnel` call with a
`NULL` output handle and an input handle whose request fails, the function
goes on to the rollback and calls `ComponentTunnelRequest` through the `NULL`
output handle: the call has no defined result. The claim promises that no
rollback is attempted on the absent output side. -/
theorem C17_null_output_rollback_undefined (env : TunnelEnv) (i pO pI : Nat)
    (hin : (env [] ⟨i, pI, none, pO, ⟨0, 0⟩⟩).1 ≠ OMX_ERRORTYPE.OMX_ErrorNone) :
    OMX_SetupTunnel env none pO (some i) pI = none := by
  simp [OMX_SetupTunnel, setupTunnelInput, hin]

/-- Witness of C17: the input component 2 rejects the request. -/
theorem C17_null_output_rollback_undefined_witness :
    OMX_SetupTunnel (fun _ c => (OMX_ERRORTYPE.OMX_ErrorPortsNotCompatible, c.pTunnelSetup))
      none 0 (some 2) 1 = none :=
  C17_null_output_rollback_undefined _ 2 0 1 (by decide)

theorem OMX_SetupTunnel_null_output_accepted (env : TunnelEnv) (i pO pI : Nat)
    (hin : (env [] ⟨i, pI, none, pO, ⟨0, 0⟩⟩).1 = OMX_ERRORTYPE.OMX_ErrorNone) :
    OMX_SetupTunnel env none pO (some i) pI =
      some (OMX_ERRORTYPE.OMX_ErrorNone, [⟨i, pI, none, pO, ⟨0, 0⟩⟩]) := by
  simp [OMX_SetupTunnel, setupTunnelInput, hin]

/-- Claim C18: for every `OMX_SetupTunnel` call with both handles present in
which both requests succeed, exactly two requests are made, in order: to the
output, with the empty proposal (flags 0, supplier 0) and the input as peer,
then to the input, with the proposal as the output left it and the output as
peer; the result is `OMX_ErrorNone`. -/
theorem C18_both_accept (env : TunnelEnv) (o i pO pI : Nat)
    (hout : (env [] ⟨o, pO, some i, pI, ⟨0, 0⟩⟩).1 = OMX_ERRORTYPE.OMX_ErrorNone)
    (hin : (env [⟨o, pO, some i, pI, ⟨0, 0⟩⟩]
        ⟨i, pI, some o, pO, (env [] ⟨o, pO, some i, pI, ⟨0, 0⟩⟩).2⟩).1 =
      OMX_ERRORTYPE.OMX_ErrorNone) :
    OMX_SetupTunnel env (some o) pO (some i) pI =
      some (OMX_ERRORTYPE.OMX_ErrorNone,
        [⟨o, pO, some i, pI, ⟨0, 0⟩⟩,
          ⟨i, pI, some o, pO, (env [] ⟨o, pO, some i, pI, ⟨0, 0⟩⟩).2⟩]) := by
  simp [OMX_SetupTunnel, setupTunnelInput, hout, hin]

/-- Witness of C18: components 1 and 2 accept; component 1 proposes supplier
1, which component 2 receives. -/
theorem C18_both_accept_witness :
    OMX_SetupTunnel acceptAll (some 1) 0 (some 2) 1 =
      some (OMX_ERRORTYPE.OMX_ErrorNone,
        [⟨1, 0, some 2, 1, ⟨0, 0⟩⟩, ⟨2, 1, some 1, 0, ⟨0, 1⟩⟩]) :=
  C18_both_accept acceptAll 1 2 0 1 rfl rfl

/-- Claim C19: for every `OMX_SetupTunnel` call with the output handle present
whose request fails with an error, the result is that error and the request to
the output is the only call made: none to the input handle, no rollback. -/
theorem C19_output_rejects (env : TunnelEnv) (o pO pI : Nat) (hInput : Option Nat)
    (hout : (env [] ⟨o, pO, hInput, pI, ⟨0, 0⟩⟩).1 ≠ OMX_ERRORTYPE.OMX_ErrorNone) :
    OMX_SetupTunnel env (some o) pO hInput pI =
      some ((env [] ⟨o, pO, hInput, pI, ⟨0, 0⟩⟩).1, [⟨o, pO, hInput, pI, ⟨0, 0⟩⟩]) := by
  simp [OMX_SetupTunnel, hout]

/-- Witness of C19: the output component 1 rejects the request to tunnel with
component 2. -/
theorem C19_output_rejects_witness :
    OMX_SetupTunnel (rejectBy 1) (some 1) 0 (some 2) 1 =
      some (OMX_ERRORTYPE.OMX_ErrorPortsNotCompatible, [⟨1, 0, some 2, 1, ⟨0, 0⟩⟩]) :=
  C19_output_rejects (rejectBy 1) 1 0 1 (some 2) (by decide)

/-- Claim C20: `OMX_SetupTunnel` with both handles `NULL` returns
`OMX_ErrorBadParameter` and makes no `ComponentTunnelRequest` call, for every
pair of port numbers and whatever the components would answer. -/
theorem C20_both_null (env : TunnelEnv) (pO pI : Nat) :
    OMX_SetupTunnel env none pO none pI = some (OMX_ERRORTYPE.OMX_ErrorBadParameter, []) := by
  simp [OMX_SetupTunnel]

/-! ## Preemption and victim search -/

/-- Claim C27: for every victim whose state is Idle, `preemptComponent` makes
exactly two calls into the victim, in this order: the `EventHandler` callback
with the event `OMX_EventError` and the error `OMX_ErrorResourcesLost`, then
the command `SetState(Loaded)`; it returns `OMX_ErrorNone` if the command
returns `OMX_ErrorNone` and `OMX_ErrorUndefined` otherwise, with no further
call. -/
theorem C27_preempt_idle (env : Env) (h : Nat)
    (hidle : (env.priv h).state = OMX_STATETYPE.OMX_StateIdle) :
    preemptComponent env h =
      (if env.sendCommand h OMX_COMMANDTYPE.OMX_CommandStateSet OMX_STATETYPE.OMX_StateLoaded =
          OMX_ERRORTYPE.OMX_ErrorNone
        then OMX_ERRORTYPE.OMX_ErrorNone else OMX_ERRORTYPE.OMX_ErrorUndefined,
        [ExtCall.EventHandler h OMX_EVENTTYPE.OMX_EventError
            OMX_ERRORTYPE.OMX_ErrorResourcesLost 0,
          ExtCall.SendCommand h OMX_COMMANDTYPE.OMX_CommandStateSet
            OMX_STATETYPE.OMX_StateLoaded]) := by
  simp only [preemptComponent, hidle, if_true]
  split_ifs <;> simp_all

/-- Witness of C27: the command to the Idle victim 1 fails with
`OMX_ErrorInsufficientResources`. -/
theorem C27_preempt_idle_witness :
    preemptComponent
        (codecEnv scenarioPrio OMX_STATETYPE.OMX_StateIdle
          OMX_ERRORTYPE.OMX_ErrorInsufficientResources) 1 =
      (OMX_ERRORTYPE.OMX_ErrorUndefined,
        [ExtCall.EventHandler 1 OMX_EVENTTYPE.OMX_EventError
            OMX_ERRORTYPE.OMX_ErrorResourcesLost 0,
          ExtCall.SendCommand 1 OMX_COMMANDTYPE.OMX_CommandStateSet
            OMX_STATETYPE.OMX_StateLoaded]) :=
  C27_preempt_idle
    (codecEnv scenarioPrio OMX_STATETYPE.OMX_StateIdle
      OMX_ERRORTYPE.OMX_ErrorInsufficientResources) 1 rfl

theorem preemptComponent_running (env : Env) (h : Nat)
    (hrun : (env.priv h).state = OMX_STATETYPE.OMX_StateExecuting ∨
      (env.priv h).state = OMX_STATETYPE.OMX_StatePause) :
    preemptComponent env h = (OMX_ERRORTYPE.OMX_ErrorNone, []) := by
  rcases hrun with h1 | h1 <;> simp [preemptComponent, h1]

/-- Claim C28, at the failing inputs: on a victim in state Executing, and on a
victim in state Pause, `preemptComponent` makes no call and returns
`OMX_ErrorNone`. With handle 1 (priority 10, Executing) the only active entry
of a type of limit 1, the `RM_getResource` of handle 3 (priority 5) therefore
returns `OMX_ErrorNone`, removes the entry of handle 1 and admits handle 3. The
claim promises the Undefined error kind, no eviction and no admission. -/
theorem C28_running_victim_evicted :
    preemptComponent
        (codecEnv scenarioPrio OMX_STATETYPE.OMX_StateExecuting OMX_ERRORTYPE.OMX_ErrorNone) 1 =
        (OMX_ERRORTYPE.OMX_ErrorNone, []) ∧
      preemptComponent
        (codecEnv scenarioPrio OMX_STATETYPE.OMX_StatePause OMX_ERRORTYPE.OMX_ErrorNone) 1 =
        (OMX_ERRORTYPE.OMX_ErrorNone, []) ∧
      (withActive (registeredState 1 0) 0 [⟨1, 10, 0⟩] 1).globalComponentList 0 =
        [⟨1, 10, 0⟩] ∧
      RM_getResource
          (codecEnv scenarioPrio OMX_STATETYPE.OMX_StateExecuting OMX_ERRORTYPE.OMX_ErrorNone)
          (withActive (registeredState 1 0) 0 [⟨1, 10, 0⟩] 1) 3 =
        some (OMX_ERRORTYPE.OMX_ErrorNone,
          withActive (withActive (registeredState 1 0) 0 [⟨1, 10, 0⟩] 1) 0 [⟨3, 5, 1⟩] 2,
          []) ∧
      (withActive (withActive (registeredState 1 0) 0 [⟨1, 10, 0⟩] 1) 0
        [⟨3, 5, 1⟩] 2).globalComponentList 0 = [⟨3, 5, 1⟩] :=
  ⟨rfl, rfl, rfl, rfl, rfl⟩

/-- Claim C30, at the failing input: for the empty (`NULL`) list and every
`current_priority`, `searchLowerPriority` returns the value of
`OMX_ErrorUndefined`, which is not zero, where the number of entries of greater
priority is 0; for every list that is not empty the value returned is that
number. -/
theorem C30_empty_list_count (current_priority : Nat) :
    (searchLowerPriority [] current_priority).1 = OMX_ErrorUndefined_value ∧
      OMX_ErrorUndefined_value ≠ 0 ∧
      ((qualifying [] current_priority).length : Int) = 0 ∧
      ∀ (c : ComponentListType) (rest : List ComponentListType),
        (searchLowerPriority (c :: rest) current_priority).1 =
          ((qualifying (c :: rest) current_priority).length : Int) :=
  ⟨rfl, by decide, rfl,
    fun c rest => searchLowerPriority_fst_of_ne_nil (c :: rest) current_priority (by simp)⟩

/-! ## Component loaders -/

theorem getHandleLoop_stop (pre post : List BOSA_COMPONENTLOADER) (l : BOSA_COMPONENTLOADER)
    (name : String) (i : Nat) (pHandle : Option Nat) (called : List Nat)
    (hpre : ∀ x ∈ pre, (x.BOSA_CreateComponent name).1 ≠ OMX_ERRORTYPE.OMX_ErrorNone ∧
      (x.BOSA_CreateComponent name).1 ≠ OMX_ERRORTYPE.OMX_ErrorInsufficientResources)
    (hl : (l.BOSA_CreateComponent name).1 = OMX_ERRORTYPE.OMX_ErrorNone ∨
      (l.BOSA_CreateComponent name).1 = OMX_ERRORTYPE.OMX_ErrorInsufficientResources) :
    (getHandleLoop (pre ++ l :: post) name i pHandle called).1 =
        (l.BOSA_CreateComponent name).1 ∧
      (getHandleLoop (pre ++ l :: post) name i pHandle called).2.2 =
        called ++ List.range' i (pre.length + 1) := by
  induction pre generalizing i pHandle called with
  | nil =>
    rcases hl with h1 | h1
    · simp [getHandleLoop, h1, List.range']
    · simp [getHandleLoop, h1, List.range']
  | cons x xs ih =>
    obtain ⟨hx1, hx2⟩ := hpre x (by simp)
    have hxs := fun y hy => hpre y (List.mem_cons_of_mem x hy)
    simp only [List.cons_append, getHandleLoop, hx1, hx2, if_false, List.length_cons]
    obtain ⟨h1, h2⟩ := ih (i + 1) _ (called ++ [i]) hxs
    refine ⟨h1, ?_⟩
    simp only [List.append_eq]
    rw [h2]
    simp [List.range']

theorem getHandleLoop_none (loaders : List BOSA_COMPONENTLOADER) (name : String) (i : Nat)
    (pHandle : Option Nat) (called : List Nat)
    (hall : ∀ x ∈ loaders, (x.BOSA_CreateComponent name).1 ≠ OMX_ERRORTYPE.OMX_ErrorNone ∧
      (x.BOSA_CreateComponent name).1 ≠ OMX_ERRORTYPE.OMX_ErrorInsufficientResources) :
    (getHandleLoop loaders name i pHandle called).1 = OMX_ERRORTYPE.OMX_ErrorComponentNotFound ∧
      (getHandleLoop loaders name i pHandle called).2.2 =
        called ++ List.range' i loaders.length := by
  induction loaders generalizing i pHandle called with
  | nil => simp [getHandleLoop]
  | cons x xs ih =>
    obtain ⟨hx1, hx2⟩ := hall x (by simp)
    have hxs := fun y hy => hall y (List.mem_cons_of_mem x hy)
    simp only [getHandleLoop, hx1, hx2, if_false, List.length_cons]
    obtain ⟨h1, h2⟩ := ih (i + 1) _ (called ++ [i]) hxs
    refine ⟨h1, ?_⟩
    rw [h2]
    simp [List.range']

/-- Claim C21: for every sequence of loaders and every component name,
`OMX_GetHandle` calls `BOSA_CreateComponent` of the loaders in order. If `l` is
the first loader that returns `OMX_ErrorNone` or
`OMX_ErrorInsufficientResources`, the result is the code `l` returns and the
loaders called are exactly those up to `l`; if every loader returns some other
code, all the loaders are called and the result is
`OMX_ErrorComponentNotFound`. -/
theorem C21_first_decisive_loader (loaders : List BOSA_COMPONENTLOADER) (name : String) :
    (∀ (pre post : List BOSA_COMPONENTLOADER) (l : BOSA_COMPONENTLOADER),
      loaders = pre ++ l :: post →
      (∀ x ∈ pre, (x.BOSA_CreateComponent name).1 ≠ OMX_ERRORTYPE.OMX_ErrorNone ∧
        (x.BOSA_CreateComponent name).1 ≠ OMX_ERRORTYPE.OMX_ErrorInsufficientResources) →
      ((l.BOSA_CreateComponent name).1 = OMX_ERRORTYPE.OMX_ErrorNone ∨
        (l.BOSA_CreateComponent name).1 = OMX_ERRORTYPE.OMX_ErrorInsufficientResources) →
      (OMX_GetHandle loaders name).1 = (l.BOSA_CreateComponent name).1 ∧
        (OMX_GetHandle loaders name).2.2 = List.range (pre.length + 1)) ∧
      ((∀ x ∈ loaders, (x.BOSA_CreateComponent name).1 ≠ OMX_ERRORTYPE.OMX_ErrorNone ∧
        (x.BOSA_CreateComponent name).1 ≠ OMX_ERRORTYPE.OMX_ErrorInsufficientResources) →
      (OMX_GetHandle loaders name).1 = OMX_ERRORTYPE.OMX_ErrorComponentNotFound ∧
        (OMX_GetHandle loaders name).2.2 = List.range loaders.length) := by
  constructor
  · intro pre post l hsplit hpre hl
    subst hsplit
    have := getHandleLoop_stop pre post l name 0 none [] hpre hl
    simpa [OMX_GetHandle, List.range_eq_range'] using this
  · intro hall
    have := getHandleLoop_none loaders name 0 none [] hall
    simpa [OMX_GetHandle, List.range_eq_range'] using this

/-- Witness of C21: the first loader does not know the component, the second
has no resources left, the third would create it. -/
theorem C21_first_decisive_loader_witness :
    (OMX_GetHandle
        [fixedLoader OMX_ERRORTYPE.OMX_ErrorComponentNotFound [],
          fixedLoader OMX_ERRORTYPE.OMX_ErrorInsufficientResources [],
          fixedLoader OMX_ERRORTYPE.OMX_ErrorNone []] "OMX.st.volume").1 =
        OMX_ERRORTYPE.OMX_ErrorInsufficientResources ∧
      (OMX_GetHandle
        [fixedLoader OMX_ERRORTYPE.OMX_ErrorComponentNotFound [],
          fixedLoader OMX_ERRORTYPE.OMX_ErrorInsufficientResources [],
          fixedLoader OMX_ERRORTYPE.OMX_ErrorNone []] "OMX.st.volume").2.2 = List.range (1 + 1) :=
  (C21_first_decisive_loader _ "OMX.st.volume").1
    [fixedLoader OMX_ERRORTYPE.OMX_ErrorComponentNotFound []]
    [fixedLoader OMX_ERRORTYPE.OMX_ErrorNone []]
    (fixedLoader OMX_ERRORTYPE.OMX_ErrorInsufficientResources []) rfl
    (by simp [fixedLoader]) (Or.inr rfl)

theorem countLoop_length (l : BOSA_COMPONENTLOADER) (calls index : Nat) (buf : Option String)
    (hidx : index ≤ l.names.length) (hcalls : l.names.length < index + calls) :
    (countLoop l calls index buf).1 = l.names.length := by
  induction calls generalizing index buf with
  | zero => omega
  | succ c ih =>
    by_cases hlt : index < l.names.length
    · have hget : l.names[index]? = some l.names[index] := List.getElem?_eq_getElem hlt
      simp only [countLoop, BOSA_ComponentNameEnum, hget, if_true]
      exact ih (index + 1) _ (by omega) (by omega)
    · have hget : l.names[index]? = none := List.getElem?_eq_none (by omega)
      simp only [countLoop, BOSA_ComponentNameEnum, hget]
      simp
      omega

theorem nameEnumLoop_spec (loaders : List BOSA_COMPONENTLOADER) (nIndex offset : Nat)
    (buf : Option String) (hoff : offset ≤ nIndex) :
    (∀ n, (allNames loaders)[nIndex - offset]? = some n →
        nameEnumLoop loaders nIndex offset buf = (OMX_ERRORTYPE.OMX_ErrorNone, some n)) ∧
      ((allNames loaders)[nIndex - offset]? = none →
        (nameEnumLoop loaders nIndex offset buf).1 = OMX_ERRORTYPE.OMX_ErrorNoMore) := by
  induction loaders generalizing offset buf with
  | nil => simp [allNames, nameEnumLoop]
  | cons l rest ih =>
    by_cases hlt : nIndex - offset < l.names.length
    · have hget : l.names[nIndex - offset]? = some l.names[nIndex - offset] :=
        List.getElem?_eq_getElem hlt
      have hall : (allNames (l :: rest))[nIndex - offset]? = some l.names[nIndex - offset] := by
        simp only [allNames]
        rw [List.getElem?_append_left hlt, hget]
      constructor
      · intro n hn
        rw [hall] at hn
        simp only [Option.some.injEq] at hn
        simp [nameEnumLoop, BOSA_ComponentNameEnum, hget, hn]
      · intro hn
        rw [hall] at hn
        simp at hn
    · have hge : l.names.length ≤ nIndex - offset := by omega
      have hget : l.names[nIndex - offset]? = none := List.getElem?_eq_none hge
      have hcount := countLoop_length l (l.names.length + 1) 0 buf (by omega) (by omega)
      have hall : (allNames (l :: rest))[nIndex - offset]? =
          (allNames rest)[nIndex - (offset + l.names.length)]? := by
        simp only [allNames]
        rw [List.getElem?_append_right hge]
        congr 1
        omega
      have hstep : nameEnumLoop (l :: rest) nIndex offset buf =
          nameEnumLoop rest nIndex (offset + l.names.length)
            (countLoop l (l.names.length + 1) 0 buf).2 := by
        simp [nameEnumLoop, BOSA_ComponentNameEnum, hget, hcount]
      rw [hstep, hall]
      exact ih (offset + l.names.length) _ (by omega)

/-- Claim C22: with every loader given by the ordered list of its names, for
every index `k`: if `k` is below the total number of names,
`OMX_ComponentNameEnum` returns `OMX_ErrorNone` and leaves in the buffer the
`k`-th name of the concatenation of the loaders' lists in the order of the
loaders; and it returns `OMX_ErrorNoMore` exactly when `k` is at least the
total. -/
theorem C22_flat_name_space (loaders : List BOSA_COMPONENTLOADER) (k : Nat) :
    (∀ n, (allNames loaders)[k]? = some n →
        OMX_ComponentNameEnum loaders k = (OMX_ERRORTYPE.OMX_ErrorNone, some n)) ∧
      ((k < (allNames loaders).length) ↔
        (OMX_ComponentNameEnum loaders k).1 = OMX_ERRORTYPE.OMX_ErrorNone) ∧
      (((allNames loaders).length ≤ k) ↔
        (OMX_ComponentNameEnum loaders k).1 = OMX_ERRORTYPE.OMX_ErrorNoMore) := by
  obtain ⟨h1, h2⟩ := nameEnumLoop_spec loaders k 0 none (Nat.zero_le k)
  simp only [Nat.sub_zero] at h1 h2
  have hsome : k < (allNames loaders).length →
      (OMX_ComponentNameEnum loaders k).1 = OMX_ERRORTYPE.OMX_ErrorNone := by
    intro hk
    have := h1 _ (List.getElem?_eq_getElem hk)
    simp [OMX_ComponentNameEnum, this]
  have hnone : (allNames loaders).length ≤ k →
      (OMX_ComponentNameEnum loaders k).1 = OMX_ERRORTYPE.OMX_ErrorNoMore := fun hk =>
    h2 (List.getElem?_eq_none hk)
  refine ⟨fun n hn => h1 n hn, ⟨hsome, ?_⟩, ⟨hnone, ?_⟩⟩
  · intro hres
    by_contra hk
    rw [hnone (by omega)] at hres
    exact absurd hres (by decide)
  · intro hres
    by_contra hk
    rw [hsome (by omega)] at hres
    exact absurd hres (by decide)

/-- Witness of C22: three loaders with two, no and one name; index 2 is the
name of the third loader and index 3 is past the end. -/
theorem C22_flat_name_space_witness :
    OMX_ComponentNameEnum
        [fixedLoader OMX_ERRORTYPE.OMX_ErrorNone ["OMX.a", "OMX.b"],
          fixedLoader OMX_ERRORTYPE.OMX_ErrorNone [],
          fixedLoader OMX_ERRORTYPE.OMX_ErrorNone ["OMX.c"]] 2 =
        (OMX_ERRORTYPE.OMX_ErrorNone, some "OMX.c") ∧
      (OMX_ComponentNameEnum
        [fixedLoader OMX_ERRORTYPE.OMX_ErrorNone ["OMX.a", "OMX.b"],
          fixedLoader OMX_ERRORTYPE.OMX_ErrorNone [],
          fixedLoader OMX_ERRORTYPE.OMX_ErrorNone ["OMX.c"]] 3).1 =
        OMX_ERRORTYPE.OMX_ErrorNoMore :=
  ⟨(C22_flat_name_space _ 2).1 "OMX.c" rfl, (C22_flat_name_space _ 3).2.2.1 (by decide)⟩

/-! ## Media entity inventory -/

theorem matchLoop_spec (l : List MediaEntityListType) (max_use_count : Int) (pos : Nat)
    (m : Option (Nat × MediaEntityListType)) (min_use_count : Int) :
    (∀ e ∈ l, isM2M e.name = true → e.use_count ≤ max_use_count →
        (matchLoop l max_use_count pos m min_use_count).2 ≤ e.use_count) ∧
      (matchLoop l max_use_count pos m min_use_count).2 ≤ min_use_count ∧
      (((matchLoop l max_use_count pos m min_use_count).1 = m ∧
          (matchLoop l max_use_count pos m min_use_count).2 = min_use_count) ∨
        ∃ j e, (matchLoop l max_use_count pos m min_use_count).1 = some (pos + j, e) ∧
          l[j]? = some e ∧ isM2M e.name = true ∧ e.use_count ≤ max_use_count ∧
          e.use_count = (matchLoop l max_use_count pos m min_use_count).2) := by
  induction l generalizing pos m min_use_count with
  | nil => simp [matchLoop]
  | cons x xs ih =>
    by_cases hc : isM2M x.name = true ∧ x.use_count ≤ max_use_count ∧
        x.use_count < min_use_count
    · simp only [matchLoop, hc, and_self, if_true]
      obtain ⟨h1, h2, h3⟩ := ih (pos + 1) (some (pos, x)) x.use_count
      refine ⟨?_, by omega, ?_⟩
      · intro e he hm hu
        rcases List.mem_cons.mp he with rfl | he
        · exact h2
        · exact h1 e he hm hu
      · right
        rcases h3 with ⟨h4, h5⟩ | ⟨j, e, h4, h5, h6, h7, h8⟩
        · exact ⟨0, x, by simpa using h4, by simp, hc.1, hc.2.1, h5.symm⟩
        · refine ⟨j + 1, e, ?_, by simpa using h5, h6, h7, h8⟩
          rw [h4]
          congr 2
          omega
    · simp only [matchLoop, hc, if_false]
      obtain ⟨h1, h2, h3⟩ := ih (pos + 1) m min_use_count
      refine ⟨?_, h2, ?_⟩
      · intro e he hm hu
        rcases List.mem_cons.mp he with rfl | he
        · have : ¬ e.use_count < min_use_count := fun hlt => hc ⟨hm, hu, hlt⟩
          omega
        · exact h1 e he hm hu
      · rcases h3 with h4 | ⟨j, e, h4, h5, h6, h7, h8⟩
        · exact Or.inl h4
        · right
          refine ⟨j + 1, e, ?_, by simpa using h5, h6, h7, h8⟩
          rw [h4]
          congr 2
          omega

/-- Claim C23, as amended: for every inventory and every `max_use_count`, if
at least one entity whose name contains ".m2m" has a use count that is at most
`max_use_count` and below `MAX_INT`, `SRM_GetFreeVideoM2MDevName` returns
`OMX_ErrorNone` and the device path of an entity `e` whose use count is the
smallest among the entities whose name contains ".m2m" and whose use count is
at most `max_use_count`; the use count of `e` is incremented by one and every
other entity is unchanged. -/
theorem C23_least_used_node (l : List MediaEntityListType) (max_use_count : Int)
    (hq : ∃ e ∈ l, isM2M e.name = true ∧ e.use_count ≤ max_use_count ∧
      e.use_count < (MAX_INT : Int)) :
    ∃ j e, l[j]? = some e ∧ isM2M e.name = true ∧ e.use_count ≤ max_use_count ∧
      (∀ x ∈ l, isM2M x.name = true → x.use_count ≤ max_use_count →
        e.use_count ≤ x.use_count) ∧
      SRM_GetFreeVideoM2MDevName l max_use_count =
        (OMX_ERRORTYPE.OMX_ErrorNone, some e.devname,
          l.set j { e with use_count := e.use_count + 1 }) := by
  obtain ⟨q, hql, hqm, hqu, hqlt⟩ := hq
  obtain ⟨h1, -, h3⟩ := matchLoop_spec l max_use_count 0 none (MAX_INT : Int)
  rcases h3 with ⟨-, h5⟩ | ⟨j, e, h4, h5, h6, h7, h8⟩
  · have := h1 q hql hqm hqu
    omega
  · refine ⟨j, e, h5, h6, h7, ?_, ?_⟩
    · intro x hx hxm hxu
      rw [h8]
      exact h1 x hx hxm hxu
    · cases l with
      | nil => simp at hql
      | cons x xs =>
        simp only [Nat.zero_add] at h4
        simp only [SRM_GetFreeVideoM2MDevName, h4]

/-- Witness of C23: the inventory with the use counts 2, 0 and 1 and
`max_use_count = 2`; the entity of use count 0 is returned and its use count
becomes 1. -/
theorem C23_least_used_node_witness :
    (∃ j e, threeNodes[j]? = some e ∧ isM2M e.name = true ∧ e.use_count ≤ 2 ∧
      (∀ x ∈ threeNodes, isM2M x.name = true → x.use_count ≤ 2 →
        e.use_count ≤ x.use_count) ∧
      SRM_GetFreeVideoM2MDevName threeNodes 2 =
        (OMX_ERRORTYPE.OMX_ErrorNone, some e.devname,
          threeNodes.set j { e with use_count := e.use_count + 1 })) ∧
      SRM_GetFreeVideoM2MDevName threeNodes 2 =
        (OMX_ERRORTYPE.OMX_ErrorNone, some "/dev/video1",
          [⟨"fimc.0.m2m", "/dev/video0", 0, 2⟩, ⟨"fimc.1.m2m", "/dev/video1", 0, 1⟩,
           ⟨"fimc.2.m2m", "/dev/video2", 0, 1⟩]) ∧
      (SRM_GetFreeVideoM2MDevName
        [⟨"fimc.0.m2m", "/dev/video0", 0, 2⟩, ⟨"fimc.1.m2m", "/dev/video1", 0, 1⟩,
         ⟨"fimc.2.m2m", "/dev/video2", 0, 1⟩] 0).1 =
        OMX_ERRORTYPE.OMX_ErrorInsufficientResources :=
  ⟨C23_least_used_node threeNodes 2 ⟨⟨"fimc.1.m2m", "/dev/video1", 0, 0⟩, by decide⟩,
    by decide, by decide⟩

/-- Counterexample to C23 as stated: the inventory holds one mem-to-mem entity
whose use count is `MAX_INT`, and `max_use_count` is `MAX_INT`: the entity has
a use count that is at most `max_use_count`, but the test
`use_count < min_use_count` against the initial `min_use_count = MAX_INT`
rejects it, and the call returns `OMX_ErrorInsufficientResources` and changes
nothing. -/
theorem C23_counterexample :
    isM2M "fimc.0.m2m" = true ∧
      ((MAX_INT : Int) ≤ (MAX_INT : Int)) ∧
      SRM_GetFreeVideoM2MDevName [⟨"fimc.0.m2m", "/dev/video0", 0, (MAX_INT : Int)⟩]
          (MAX_INT : Int) =
        (OMX_ERRORTYPE.OMX_ErrorInsufficientResources, none,
          [⟨"fimc.0.m2m", "/dev/video0", 0, (MAX_INT : Int)⟩]) :=
  ⟨by decide, le_refl _, by decide⟩

theorem matchLoop_none (l : List MediaEntityListType) (max_use_count : Int) (pos : Nat)
    (min_use_count : Int)
    (hno : ∀ e ∈ l, ¬ (isM2M e.name = true ∧ e.use_count ≤ max_use_count)) :
    (matchLoop l max_use_count pos none min_use_count).1 = none := by
  induction l generalizing pos with
  | nil => rfl
  | cons x xs ih =>
    have hx : ¬ (isM2M x.name = true ∧ x.use_count ≤ max_use_count ∧
        x.use_count < min_use_count) := fun hc => hno x (by simp) ⟨hc.1, hc.2.1⟩
    simp only [matchLoop, hx, if_false]
    exact ih (pos + 1) (fun e he => hno e (List.mem_cons_of_mem x he))

/-- Claim C24: `SRM_GetFreeVideoM2MDevName` returns `OMX_ErrorUndefined` when
the inventory is empty, and `OMX_ErrorInsufficientResources` when the
inventory is not empty and no entity whose name contains ".m2m" has a use count
at most `max_use_count`; in both cases no device path is returned and the
inventory, with every use count, is unchanged. -/
theorem C24_no_node_available (l : List MediaEntityListType) (max_use_count : Int) :
    (l = [] →
        SRM_GetFreeVideoM2MDevName l max_use_count =
          (OMX_ERRORTYPE.OMX_ErrorUndefined, none, l)) ∧
      (l ≠ [] →
        (∀ e ∈ l, ¬ (isM2M e.name = true ∧ e.use_count ≤ max_use_count)) →
        SRM_GetFreeVideoM2MDevName l max_use_count =
          (OMX_ERRORTYPE.OMX_ErrorInsufficientResources, none, l)) := by
  constructor
  · intro hl
    subst hl
    rfl
  · intro hne hno
    cases l with
    | nil => exact absurd rfl hne
    | cons x xs =>
      simp only [SRM_GetFreeVideoM2MDevName, matchLoop_none (x :: xs) max_use_count 0 _ hno]

/-- Witness of C24: the empty inventory, and the inventory of three mem-to-mem
entities of use counts 2, 1 and 1 with `max_use_count = 0`. -/
theorem C24_no_node_available_witness :
    SRM_GetFreeVideoM2MDevName [] 5 = (OMX_ERRORTYPE.OMX_ErrorUndefined, none, []) ∧
      SRM_GetFreeVideoM2MDevName
          [⟨"fimc.0.m2m", "/dev/video0", 0, 2⟩, ⟨"fimc.1.m2m", "/dev/video1", 0, 1⟩,
           ⟨"fimc.2.m2m", "/dev/video2", 0, 1⟩] 0 =
        (OMX_ERRORTYPE.OMX_ErrorInsufficientResources, none,
          [⟨"fimc.0.m2m", "/dev/video0", 0, 2⟩, ⟨"fimc.1.m2m", "/dev/video1", 0, 1⟩,
           ⟨"fimc.2.m2m", "/dev/video2", 0, 1⟩]) :=
  ⟨(C24_no_node_available [] 5).1 rfl,
    (C24_no_node_available _ 0).2 (by decide) (by decide)⟩

theorem putLoop_none (l : List MediaEntityListType) (devname : String)
    (hno : ∀ e ∈ l, e.devname ≠ devname) : putLoop l devname = none := by
  induction l with
  | nil => rfl
  | cons x xs ih =>
    have hx : x.devname ≠ devname := hno x (by simp)
    simp [putLoop, hx, ih (fun e he => hno e (List.mem_cons_of_mem x he))]

/-- Claim C25, as amended: for every device path that equals no entity's
device path, `SRM_PutVideoNode` returns `OMX_ErrorNone` when the inventory is
empty and `OMX_ErrorUndefined` when it is not, and changes no use count. -/
theorem C25_put_unknown_path (l : List MediaEntityListType) (devname : String)
    (hno : ∀ e ∈ l, e.devname ≠ devname) :
    SRM_PutVideoNode l devname =
      (if l = [] then OMX_ERRORTYPE.OMX_ErrorNone else OMX_ERRORTYPE.OMX_ErrorUndefined, l) := by
  cases l with
  | nil => rfl
  | cons x xs => simp [SRM_PutVideoNode, putLoop_none (x :: xs) devname hno]

/-- Witness of C25: the path "/dev/video9" in the inventory of three
entities. -/
theorem C25_put_unknown_path_witness :
    SRM_PutVideoNode threeNodes "/dev/video9" =
      (if threeNodes = [] then OMX_ERRORTYPE.OMX_ErrorNone
        else OMX_ERRORTYPE.OMX_ErrorUndefined, threeNodes) :=
  C25_put_unknown_path threeNodes "/dev/video9" (by decide)

/-- Counterexample to C25 as stated: on the empty inventory `SRM_PutVideoNode`
returns `OMX_ErrorNone`, a success; on the inventory of three entities, for a
path that none of them has, it returns `OMX_ErrorUndefined`, which is not the
code of the not-found kind, `OMX_ErrorComponentNotFound`. -/
theorem C25_counterexample :
    SRM_PutVideoNode [] "/dev/video9" = (OMX_ERRORTYPE.OMX_ErrorNone, []) ∧
      SRM_PutVideoNode threeNodes "/dev/video9" =
        (OMX_ERRORTYPE.OMX_ErrorUndefined, threeNodes) ∧
      OMX_ERRORTYPE.OMX_ErrorUndefined ≠ OMX_ERRORTYPE.OMX_ErrorComponentNotFound :=
  ⟨rfl, by decide, by decide⟩

theorem getFree_nonneg (l : List MediaEntityListType) (max_use_count : Int)
    (hl : ∀ e ∈ l, 0 ≤ e.use_count) :
    ∀ e ∈ (SRM_GetFreeVideoM2MDevName l max_use_count).2.2, 0 ≤ e.use_count := by
  cases l with
  | nil => simp [SRM_GetFreeVideoM2MDevName]
  | cons x xs =>
    obtain ⟨-, -, h3⟩ := matchLoop_spec (x :: xs) max_use_count 0 none (MAX_INT : Int)
    rcases h3 with ⟨h4, -⟩ | ⟨j, m, h4, h5, -, -, -⟩
    · simp only [SRM_GetFreeVideoM2MDevName, h4]
      exact hl
    · simp only [Nat.zero_add] at h4
      simp only [SRM_GetFreeVideoM2MDevName, h4]
      intro e he
      rcases List.mem_or_eq_of_mem_set he with he1 | he1
      · exact hl e he1
      · have hm : m ∈ x :: xs := List.getElem?_mem h5
        have := hl m hm
        rw [he1]
        show 0 ≤ m.use_count + 1
        omega

theorem putLoop_nonneg (l l1 : List MediaEntityListType) (devname : String)
    (hl : ∀ e ∈ l, 0 ≤ e.use_count)
    (hp : ∀ e, l.find? (fun x => decide (x.devname = devname)) = some e → 0 < e.use_count)
    (hr : putLoop l devname = some l1) : ∀ e ∈ l1, 0 ≤ e.use_count := by
  induction l generalizing l1 with
  | nil => simp [putLoop] at hr
  | cons x xs ih =>
    by_cases hx : x.devname = devname
    · simp only [putLoop, hx, ne_eq, not_true_eq_false, if_false, Option.some.injEq] at hr
      have hpos : 0 < x.use_count := hp x (by simp [List.find?, hx])
      intro e he
      rw [← hr] at he
      rcases List.mem_cons.mp he with rfl | he
      · show 0 ≤ x.use_count - 1
        omega
      · exact hl e (List.mem_cons_of_mem x he)
    · simp only [putLoop, ne_eq, hx, not_false_eq_true, if_true, Option.map_eq_some'] at hr
      obtain ⟨l2, hl2, rfl⟩ := hr
      intro e he
      rcases List.mem_cons.mp he with rfl | he
      · exact hl e (by simp)
      · refine ih l2 (fun y hy => hl y (List.mem_cons_of_mem x hy)) ?_ hl2 e he
        intro y hy
        exact hp y (by simp [List.find?, hx, hy])

theorem run_nonneg (c : SRMCall) (l : List MediaEntityListType)
    (hl : ∀ e ∈ l, 0 ≤ e.use_count) (hp : c.paired l) : ∀ e ∈ c.run l, 0 ≤ e.use_count := by
  cases c with
  | getFree max_use_count => exact getFree_nonneg l max_use_count hl
  | putNode devname =>
    cases l with
    | nil => simp [SRMCall.run, SRM_PutVideoNode]
    | cons x xs =>
      cases hr : putLoop (x :: xs) devname with
      | none =>
        simp only [SRMCall.run, SRM_PutVideoNode, hr]
        exact hl
      | some l1 =>
        simp only [SRMCall.run, SRM_PutVideoNode, hr]
        refine putLoop_nonneg (x :: xs) l1 devname hl ?_ hr
        intro e he
        simp only [SRMCall.paired, he] at hp
        exact hp

/-- Claim C26, as amended: starting from an inventory in which every entity
has a use count that is not negative, every sequence of
`SRM_GetFreeVideoM2MDevName` and `SRM_PutVideoNode` calls in which
`SRM_PutVideoNode` is only called on a device path whose entity (the first
with this path) has a positive use count, or on a path that no entity has,
leaves every entity with a use count that is not negative. -/
theorem C26_use_count_nonneg (l : List MediaEntityListType) (calls : List SRMCall)
    (hl : ∀ e ∈ l, 0 ≤ e.use_count) (hp : allPaired l calls) :
    ∀ e ∈ runSRM l calls, 0 ≤ e.use_count := by
  induction calls generalizing l with
  | nil => exact hl
  | cons c cs ih =>
    simp only [runSRM]
    exact ih (c.run l) (run_nonneg c l hl hp.1) hp.2

/-- Witness of C26: a node is taken from the inventory of three entities and
given back. -/
theorem C26_use_count_nonneg_witness :
    allPaired threeNodes [SRMCall.getFree 2, SRMCall.putNode "/dev/video1"] ∧
      runSRM threeNodes [SRMCall.getFree 2, SRMCall.putNode "/dev/video1"] = threeNodes ∧
      (runSRM threeNodes [SRMCall.getFree 2, SRMCall.putNode "/dev/video1"]).all
        (fun e => decide (0 ≤ e.use_count)) = true :=
  ⟨by decide, by decide,
    List.all_eq_true.mpr (fun e he => decide_eq_true
      (C26_use_count_nonneg threeNodes [SRMCall.getFree 2, SRMCall.putNode "/dev/video1"]
        (by decide) (by decide) e he))⟩

/-- Counterexample to C26 as stated: in an inventory whose only entity has the
use count 0, `SRM_PutVideoNode` on the device path of the entity returns
`OMX_ErrorNone` and makes the use count -1. -/
theorem C26_counterexample :
    SRM_PutVideoNode [⟨"fimc.0.m2m", "/dev/video0", 0, 0⟩] "/dev/video0" =
        (OMX_ERRORTYPE.OMX_ErrorNone, [⟨"fimc.0.m2m", "/dev/video0", 0, -1⟩]) ∧
      runSRM [⟨"fimc.0.m2m", "/dev/video0", 0, 0⟩] [SRMCall.putNode "/dev/video0"] =
        [⟨"fimc.0.m2m", "/dev/video0", 0, -1⟩] ∧
      ¬ (0 : Int) ≤ (⟨"fimc.0.m2m", "/dev/video0", 0, -1⟩ : MediaEntityListType).use_count :=
  ⟨by decide, by decide, by decide⟩

/-! ## Removal from a list, frame of the calls, round trip of a video node -/

/-- Claim C31: for every list and handle, `removeElemFromList` returns
`OMX_ErrorNone` and the list without the first entry that carries the handle,
the other entries in their order (one entry less), when the handle occurs in
the list; it returns `OMX_ErrorComponentNotFound` and the list unchanged when
the list is not empty and the handle does not occur; and it returns
`OMX_ErrorUndefined` when the list is empty. -/
theorem C31_removeElemFromList (l : List ComponentListType) (h : Nat) :
    ((∃ x ∈ l, x.openmaxStandComp = h) →
        ∃ pre v post, l = pre ++ v :: post ∧ v.openmaxStandComp = h ∧
          (∀ x ∈ pre, x.openmaxStandComp ≠ h) ∧
          removeElemFromList l h = (OMX_ERRORTYPE.OMX_ErrorNone, pre ++ post) ∧
          (pre ++ post).length + 1 = l.length) ∧
      (l ≠ [] → (∀ x ∈ l, x.openmaxStandComp ≠ h) →
        removeElemFromList l h = (OMX_ERRORTYPE.OMX_ErrorComponentNotFound, l)) ∧
      (l = [] → removeElemFromList l h = (OMX_ERRORTYPE.OMX_ErrorUndefined, [])) := by
  refine ⟨?_, ?_, ?_⟩
  · intro hm
    obtain ⟨l1, hl1⟩ := removeLoop_isSome_of_mem l h hm
    obtain ⟨pre, v, post, hsplit, hv, hpre, hl⟩ := removeLoop_some_split l l1 h hl1
    refine ⟨pre, v, post, hsplit, hv, hpre, ?_, ?_⟩
    · rw [removeElemFromList_of_loop l l1 h hl1, hl]
    · rw [← hl]
      exact removeLoop_length l l1 h hl1
  · intro hne hn
    exact removeElemFromList_of_not_mem l h hne hn
  · intro hl
    subst hl
    rfl

/-- Witness of C31: handle 1 occurs twice in the list and its first entry is
removed; handle 9 does not occur; the empty list. -/
theorem C31_removeElemFromList_witness :
    removeElemFromList [⟨2, 1, 0⟩, ⟨1, 1, 1⟩, ⟨3, 1, 2⟩, ⟨1, 20, 3⟩] 1 =
        (OMX_ERRORTYPE.OMX_ErrorNone, [⟨2, 1, 0⟩, ⟨3, 1, 2⟩, ⟨1, 20, 3⟩]) ∧
      removeElemFromList [⟨2, 1, 0⟩, ⟨1, 1, 1⟩] 9 =
        (OMX_ERRORTYPE.OMX_ErrorComponentNotFound, [⟨2, 1, 0⟩, ⟨1, 1, 1⟩]) ∧
      removeElemFromList [] 9 = (OMX_ERRORTYPE.OMX_ErrorUndefined, []) :=
  ⟨by decide,
    (C31_removeElemFromList [⟨2, 1, 0⟩, ⟨1, 1, 1⟩] 9).2.1 (by decide) (by decide),
    (C31_removeElemFromList [] 9).2.2 rfl⟩

theorem frameAt_same (s : RMState) (i : Int) : FrameAt s s i :=
  fun _ _ => ⟨rfl, rfl⟩

theorem stepAt_frameAt {s s1 : RMState} {i : Int} (hst : StepAt s s1 i) : FrameAt s s1 i :=
  fun j hj => ⟨hst.otherA j hj, hst.otherW j hj⟩

theorem RM_getResource_frame (env : Env) (s s1 : RMState) (h : Nat) (e : NameIndexType)
    (err : OMX_ERRORTYPE) (calls : List ExtCall)
    (hreg : scanRegistered s.listOfcomponentRegistered (env.priv h).name = some (some e))
    (hstep : RM_getResource env s h = some (err, s1, calls)) : FrameAt s s1 e.index := by
  rcases RM_getResource_step env h err calls hstep with heq | ⟨e1, hsc, hst, -⟩
  · rw [heq]
    exact frameAt_same s e.index
  · rw [hreg] at hsc
    simp only [Option.some.injEq] at hsc
    rw [hsc]
    exact stepAt_frameAt hst

theorem RM_releaseResource_frame (env : Env) (s : RMState) (h : Nat) (e : NameIndexType)
    (hreg : scanRegistered s.listOfcomponentRegistered (env.priv h).name = some (some e)) :
    ∃ err s1 calls, RM_releaseResource env s h = some (err, s1, calls) ∧
      FrameAt s s1 e.index := by
  by_cases hidx : e.index < 0
  · exact ⟨OMX_ERRORTYPE.OMX_ErrorNone, s, [], by simp [RM_releaseResource, hreg, hidx],
      frameAt_same s e.index⟩
  · have hidx1 : 0 ≤ e.index := by omega
    cases hr : removeLoop (s.globalComponentList e.index) h with
    | none =>
      exact ⟨_, s, _, RM_releaseResource_absent env s h e hreg hidx1
        ((removeLoop_none_iff _ _).mp hr), frameAt_same s e.index⟩
    | some l1 =>
      cases hw : s.globalWaitingComponentList e.index with
      | nil =>
        refine ⟨_, _, _, RM_releaseResource_present_nowaiter env s h e l1 hreg hidx1 hr hw, ?_⟩
        exact fun j hj => ⟨setListAt_other _ _ _ _ hj, rfl⟩
      | cons w ws =>
        refine ⟨_, _, _,
          RM_releaseResource_present_waiter env s h e l1 w ws hreg hidx1 hr hw, ?_⟩
        exact fun j hj => ⟨setListAt_other _ _ _ _ hj, setListAt_other _ _ _ _ hj⟩

theorem RM_waitForResource_frame (env : Env) (s : RMState) (h : Nat) (e : NameIndexType)
    (hreg : scanRegistered s.listOfcomponentRegistered (env.priv h).name = some (some e)) :
    ∃ err s1 calls, RM_waitForResource env s h = some (err, s1, calls) ∧
      FrameAt s s1 e.index := by
  by_cases hidx : e.index < 0
  · exact ⟨OMX_ERRORTYPE.OMX_ErrorNone, s, [], by simp [RM_waitForResource, hreg, hidx],
      frameAt_same s e.index⟩
  · have hidx1 : 0 ≤ e.index := by omega
    refine ⟨_, _, _, RM_waitForResource_registered env s h e hreg hidx1, ?_⟩
    exact fun j hj => ⟨rfl, setListAt_other _ _ _ _ hj⟩

theorem RM_getResource_returns (env : Env) (s : RMState) (h : Nat) (e : NameIndexType)
    (hreg : scanRegistered s.listOfcomponentRegistered (env.priv h).name = some (some e))
    (hdef : s.globalComponentList e.index ≠ [] ∨
      numElemInList (s.globalComponentList e.index) < e.max_components) :
    ∃ err s1 calls, RM_getResource env s h = some (err, s1, calls) := by
  rw [RM_getResource_registered env s h e hreg]
  split_ifs with h1 h2 h3
  · exact ⟨_, _, _, rfl⟩
  · have hne : s.globalComponentList e.index ≠ [] := by
      rcases hdef with hd | hd
      · exact hd
      · omega
    cases hcand : (searchLowerPriority (s.globalComponentList e.index)
        (env.priv h).nGroupPriority).2 with
    | some v =>
      simp only
      split_ifs
      · exact ⟨_, _, _, rfl⟩
      · exact ⟨_, _, _, rfl⟩
    | none =>
      exfalso
      cases hL : s.globalComponentList e.index with
      | nil => exact hne hL
      | cons c rest =>
        rw [hL] at hcand h3
        simp only [searchLowerPriority] at hcand h3
        have hfst := searchLoop_fst (c :: rest) (env.priv h).nGroupPriority 0 none
        rw [hfst] at h3
        have hq : ∃ x ∈ c :: rest, x.nGroupPriority > (env.priv h).nGroupPriority := by
          by_contra hno
          apply h3
          have : qualifying (c :: rest) (env.priv h).nGroupPriority = [] := by
            simp only [qualifying, List.filter_eq_nil_iff, decide_eq_true_eq]
            intro x hx hxp
            exact hno ⟨x, hx, hxp⟩
          rw [this]
          rfl
        obtain ⟨pre, v, post, hsplit, hpre, hv⟩ :=
          exists_first_qualifying (c :: rest) (env.priv h).nGroupPriority hq
        rw [hsplit, searchLoop_skip pre (v :: post) _ hpre] at hcand
        simp only [searchLoop, hv, if_true] at hcand
        have hnone : ∀ (l : List ComponentListType) (n : Int) (w : ComponentListType),
            (searchLoop l (env.priv h).nGroupPriority n (some w)).2 ≠ none := by
          intro l
          induction l with
          | nil => intro n w; simp [searchLoop]
          | cons t ts ih =>
            intro n w
            simp only [searchLoop]
            split_ifs <;> exact ih _ _
        exact hnone post _ v (by simpa using hcand)
  · exact ⟨_, _, _, rfl⟩
  · exact ⟨_, _, _, rfl⟩

/-- Claim C32: for every handle whose name resolves to the registered type
`e`, of index `e.index`, a call of `RM_getResource` that returns, whatever its
result, leaves the active list and the waiting list of every index other than
`e.index` as they were, and it returns whenever the active list of the type is
not empty or has room; `RM_releaseResource` and `RM_waitForResource` always
return and leave the lists of every other index as they were. -/
theorem C32_other_types_unchanged (env : Env) (s : RMState) (h : Nat) (e : NameIndexType)
    (hreg : scanRegistered s.listOfcomponentRegistered (env.priv h).name = some (some e)) :
    (∀ err s1 calls, RM_getResource env s h = some (err, s1, calls) →
        ∀ j : Int, j ≠ e.index →
          s1.globalComponentList j = s.globalComponentList j ∧
            s1.globalWaitingComponentList j = s.globalWaitingComponentList j) ∧
      ((s.globalComponentList e.index ≠ [] ∨
          numElemInList (s.globalComponentList e.index) < e.max_components) →
        ∃ err s1 calls, RM_getResource env s h = some (err, s1, calls)) ∧
      (∃ err s1 calls, RM_releaseResource env s h = some (err, s1, calls) ∧
        ∀ j : Int, j ≠ e.index →
          s1.globalComponentList j = s.globalComponentList j ∧
            s1.globalWaitingComponentList j = s.globalWaitingComponentList j) ∧
      (∃ err s1 calls, RM_waitForResource env s h = some (err, s1, calls) ∧
        ∀ j : Int, j ≠ e.index →
          s1.globalComponentList j = s.globalComponentList j ∧
            s1.globalWaitingComponentList j = s.globalWaitingComponentList j) :=
  ⟨fun err s1 calls hstep => RM_getResource_frame env s s1 h e err calls hreg hstep,
    RM_getResource_returns env s h e hreg,
    RM_releaseResource_frame env s h e hreg,
    RM_waitForResource_frame env s h e hreg⟩

/-- Witness of C32: in `secondTypeActive` the type "codec.b" (index 1) is full
with handle 2; handle 3, of the same type and of a more urgent priority, asks
for the resource in an environment where the victim refuses the command, so
the preemption fails. -/
theorem C32_other_types_unchanged_witness :
    scanRegistered secondTypeActive.listOfcomponentRegistered (refusingEnv.priv 3).name =
        some (some ⟨"codec.b", 1, 1⟩) ∧
      (RM_getResource refusingEnv secondTypeActive 3).map (fun r => (r.1, r.2.2)) =
        some (OMX_ERRORTYPE.OMX_ErrorInsufficientResources,
          [ExtCall.EventHandler 2 OMX_EVENTTYPE.OMX_EventError
              OMX_ERRORTYPE.OMX_ErrorResourcesLost 0,
           ExtCall.SendCommand 2 OMX_COMMANDTYPE.OMX_CommandStateSet
              OMX_STATETYPE.OMX_StateLoaded]) ∧
      ((∀ err s1 calls, RM_getResource refusingEnv secondTypeActive 3 = some (err, s1, calls) →
          ∀ j : Int, j ≠ 1 →
            s1.globalComponentList j = secondTypeActive.globalComponentList j ∧
              s1.globalWaitingComponentList j =
                secondTypeActive.globalWaitingComponentList j) ∧
        ((secondTypeActive.globalComponentList 1 ≠ [] ∨
            numElemInList (secondTypeActive.globalComponentList 1) < 1) →
          ∃ err s1 calls, RM_getResource refusingEnv secondTypeActive 3 =
            some (err, s1, calls)) ∧
        (∃ err s1 calls, RM_releaseResource refusingEnv secondTypeActive 3 =
            some (err, s1, calls) ∧
          ∀ j : Int, j ≠ 1 →
            s1.globalComponentList j = secondTypeActive.globalComponentList j ∧
              s1.globalWaitingComponentList j =
                secondTypeActive.globalWaitingComponentList j) ∧
        (∃ err s1 calls, RM_waitForResource refusingEnv secondTypeActive 3 =
            some (err, s1, calls) ∧
          ∀ j : Int, j ≠ 1 →
            s1.globalComponentList j = secondTypeActive.globalComponentList j ∧
              s1.globalWaitingComponentList j =
                secondTypeActive.globalWaitingComponentList j)) :=
  ⟨rfl, rfl, C32_other_types_unchanged refusingEnv secondTypeActive 3 ⟨"codec.b", 1, 1⟩ rfl⟩

theorem SRM_PutVideoNode_of_loop (l l1 : List MediaEntityListType) (devname : String)
    (hp : putLoop l devname = some l1) :
    SRM_PutVideoNode l devname = (OMX_ERRORTYPE.OMX_ErrorNone, l1) := by
  cases l with
  | nil => simp [putLoop] at hp
  | cons x xs => simp [SRM_PutVideoNode, hp]

/-- With pairwise distinct device paths, the search of `SRM_PutVideoNode` for
the device path of the entity at position `j` stops at position `j`: after the
use count of that entity was incremented, the decrement restores the
inventory. -/
theorem putLoop_after_increment (l : List MediaEntityListType) (j : Nat)
    (e : MediaEntityListType) (hnd : (l.map (fun x => x.devname)).Nodup)
    (hj : l[j]? = some e) :
    putLoop (l.set j { e with use_count := e.use_count + 1 }) e.devname = some l := by
  induction l generalizing j with
  | nil => simp at hj
  | cons x xs ih =>
    have hnd1 : x.devname ∉ xs.map (fun y => y.devname) ∧
        (xs.map (fun y => y.devname)).Nodup := by
      rw [List.map_cons] at hnd
      exact List.nodup_cons.mp hnd
    cases j with
    | zero =>
      simp only [List.getElem?_cons_zero, Option.some.injEq] at hj
      subst hj
      simp [putLoop]
    | succ k =>
      simp only [List.getElem?_cons_succ] at hj
      have hmem : e ∈ xs := List.getElem?_mem hj
      have hne : x.devname ≠ e.devname := by
        intro heq
        apply hnd1.1
        rw [heq]
        exact List.mem_map.mpr ⟨e, hmem, rfl⟩
      simp only [List.set_cons_succ, putLoop, hne, ne_eq, not_false_eq_true, if_true]
      rw [ih k hnd1.2 hj]
      rfl

/-- Claim C33: for every inventory whose entities have pairwise distinct
device paths, when `SRM_GetFreeVideoM2MDevName` returns `OMX_ErrorNone` it
returns a device path, and `SRM_PutVideoNode` on that device path and on the
inventory left by the first call returns `OMX_ErrorNone` and the inventory as it
was before the two calls, hence every use count as it was. -/
theorem C33_get_put_roundtrip (l : List MediaEntityListType) (max_use_count : Int)
    (hnd : (l.map (fun x => x.devname)).Nodup)
    (hget : (SRM_GetFreeVideoM2MDevName l max_use_count).1 = OMX_ERRORTYPE.OMX_ErrorNone) :
    ∃ d, (SRM_GetFreeVideoM2MDevName l max_use_count).2.1 = some d ∧
      SRM_PutVideoNode (SRM_GetFreeVideoM2MDevName l max_use_count).2.2 d =
        (OMX_ERRORTYPE.OMX_ErrorNone, l) ∧
      (SRM_PutVideoNode (SRM_GetFreeVideoM2MDevName l max_use_count).2.2 d).2.map
          (fun x => x.use_count) = l.map (fun x => x.use_count) := by
  cases l with
  | nil => simp [SRM_GetFreeVideoM2MDevName] at hget
  | cons x xs =>
    obtain ⟨-, -, h3⟩ := matchLoop_spec (x :: xs) max_use_count 0 none (MAX_INT : Int)
    rcases h3 with ⟨hnone, -⟩ | ⟨j, e, hm, hj, -, -, -⟩
    · simp [SRM_GetFreeVideoM2MDevName, hnone] at hget
    · have hput := putLoop_after_increment (x :: xs) j e hnd hj
      have hres : SRM_GetFreeVideoM2MDevName (x :: xs) max_use_count =
          (OMX_ERRORTYPE.OMX_ErrorNone, some e.devname,
            (x :: xs).set j { e with use_count := e.use_count + 1 }) := by
        simp [SRM_GetFreeVideoM2MDevName, hm]
      rw [hres]
      refine ⟨e.devname, rfl, ?_, ?_⟩
      · exact SRM_PutVideoNode_of_loop _ _ _ hput
      · rw [SRM_PutVideoNode_of_loop _ _ _ hput]

/-- Witness of C33: in `threeNodes` the three device paths are distinct; with
`max_use_count = 2` the call returns "/dev/video1" and the release of that
path gives `threeNodes` back. -/
theorem C33_get_put_roundtrip_witness :
    (threeNodes.map (fun x => x.devname)).Nodup ∧
      SRM_GetFreeVideoM2MDevName threeNodes 2 =
        (OMX_ERRORTYPE.OMX_ErrorNone, some "/dev/video1",
          [⟨"fimc.0.m2m", "/dev/video0", 0, 2⟩, ⟨"fimc.1.m2m", "/dev/video1", 0, 1⟩,
           ⟨"fimc.2.m2m", "/dev/video2", 0, 1⟩]) ∧
      ∃ d, (SRM_GetFreeVideoM2MDevName threeNodes 2).2.1 = some d ∧
        SRM_PutVideoNode (SRM_GetFreeVideoM2MDevName threeNodes 2).2.2 d =
          (OMX_ERRORTYPE.OMX_ErrorNone, threeNodes) ∧
        (SRM_PutVideoNode (SRM_GetFreeVideoM2MDevName threeNodes 2).2.2 d).2.map
            (fun x => x.use_count) = threeNodes.map (fun x => x.use_count) :=
  ⟨by decide, by decide, C33_get_put_roundtrip threeNodes 2 (by decide) (by decide)⟩

end Bellagio
